import Mathlib

/-!
# Verification of the JobManager task dispatch engine

Shallow embedding of the in-process task dispatch engine of the JobManager
repository (`src/lib`): the per-round task store (`SingleRoundStore`), the
node statistics store (`NodeStatisticsStore`), and the dispatcher
(`TaskStore`) with its completion detector.

Modelling conventions:
* JS `Map` is an association list in insertion order; `Map.set` updates in
  place for an existing key and appends for a new key.
* JS `Set` is a duplicate-free list in insertion order; `Set.add` appends
  when absent, `Set.delete` removes the element.
* Task ids are `task_${randomUUID()}` strings in the source; they are
  modelled as naturals drawn from a per-store counter `nextTaskId`, which
  captures exactly the freshness guarantee of `randomUUID`.
* Timestamps (`Date.now()`) are integers threaded explicitly as `now`
  arguments; item counts and running times (JS numbers) are rationals.
* File persistence and the webhook post are external I/O; eviction
  (`persistRoundEntry` + unload) round-trips the store through
  `toSnapshot`/`fromSnapshot`, whose faithfulness on consistent states is
  proved separately, so a round store is modelled as always loaded.
-/

namespace JM

abbrev TaskId := Nat

inductive TStatus
  | pending
  | processing
  | completed
  | failed
deriving DecidableEq, Repr

/-- Lookup in an association list, `Map.get`. -/
def alookup {α β : Type} [DecidableEq α] : List (α × β) → α → Option β
  | [], _ => none
  | p :: l, k => if p.1 = k then some p.2 else alookup l k

/-- `Map.set`: update in place when the key exists, append otherwise (JS
maps never hold duplicate keys, so replacing the first occurrence is the
in-place update). -/
def aset {α β : Type} [DecidableEq α] : List (α × β) → α → β → List (α × β)
  | [], k, v => [(k, v)]
  | p :: l, k, v => if p.1 = k then (k, v) :: l else p :: aset l k v

/-- `Map.delete`. -/
def adel {α β : Type} [DecidableEq α] (l : List (α × β)) (k : α) : List (α × β) :=
  l.filter (fun p => decide (p.1 ≠ k))

/-- `Set.add`: append when absent. -/
def sadd {α : Type} [DecidableEq α] (s : List α) (a : α) : List α :=
  if a ∈ s then s else s ++ [a]

/-- `Array.prototype.splice`-based removal of every occurrence of `id`
(the source helper `removeIdFromList`). -/
def removeAll {α : Type} [DecidableEq α] (l : List α) (a : α) : List α :=
  l.filter (fun x => decide (x ≠ a))

structure Task where
  id : TaskId
  roundId : String
  path : String
  status : TStatus
  failureCount : Nat
  message : Option String
  createdAt : Int
  updatedAt : Int
  processingStartedAt : Option Int
  processingNodeId : Option String
deriving DecidableEq, Repr

structure NodePerformanceRecord where
  timestamp : Int
  itemNum : ℚ
  runningTime : ℚ
  speed : ℚ
deriving DecidableEq, Repr

structure NodeStats where
  nodeId : String
  totalItemNum : ℚ
  totalRunningTime : ℚ
  recordCount : Nat
  archivedRecordCount : Nat
  archivedItemNum : ℚ
  archivedRunningTime : ℚ
  avgSpeed : ℚ
  avgTimePer100Items : ℚ
  lastUpdated : Int
  recentRecords : List NodePerformanceRecord
  requestCount : Nat
  assignedTaskCount : Nat
  activeTaskIds : List TaskId
deriving DecidableEq, Repr

structure ProcessedInfo where
  node_id : String
  item_num : ℚ
  running_time : ℚ
deriving DecidableEq, Repr

/-- State of `NodeStatisticsStore` (in-memory only; `persist()` is a no-op
in the source). -/
structure NodeStatisticsStore where
  nodeStats : List (String × NodeStats)
  nodeActiveTasks : List (String × List TaskId)
  taskToNode : List (TaskId × String)
deriving DecidableEq, Repr

def MAX_RECENT_NODE_HISTORY : Nat := 500

def NODE_RECENT_WINDOW_MS : Int := 2 * 60 * 60 * 1000

namespace NodeStatisticsStore

def empty : NodeStatisticsStore := ⟨[], [], []⟩

def freshNodeStats (nodeId : String) (referenceTime : Int) : NodeStats :=
  { nodeId := nodeId
    totalItemNum := 0
    totalRunningTime := 0
    recordCount := 0
    archivedRecordCount := 0
    archivedItemNum := 0
    archivedRunningTime := 0
    avgSpeed := 0
    avgTimePer100Items := 0
    lastUpdated := referenceTime
    recentRecords := []
    requestCount := 0
    assignedTaskCount := 0
    activeTaskIds := [] }

/-- `getOrCreateNodeStats`: the `Number.isFinite` repairs never fire in the
exact-arithmetic model. Returns the stats record and the store with the
record present. -/
def getOrCreate (ns : NodeStatisticsStore) (nodeId : String) (referenceTime : Int) :
    NodeStats × NodeStatisticsStore :=
  match alookup ns.nodeStats nodeId with
  | some st => (st, ns)
  | none =>
    let st := freshNodeStats nodeId referenceTime
    (st, { ns with nodeStats := aset ns.nodeStats nodeId st })

def setStats (ns : NodeStatisticsStore) (nodeId : String) (st : NodeStats) :
    NodeStatisticsStore :=
  { ns with nodeStats := aset ns.nodeStats nodeId st }

def ensureActiveSet (ns : NodeStatisticsStore) (nodeId : String) :
    List TaskId × NodeStatisticsStore :=
  match alookup ns.nodeActiveTasks nodeId with
  | some a => (a, ns)
  | none => ([], { ns with nodeActiveTasks := aset ns.nodeActiveTasks nodeId [] })

/-- `updateActiveSnapshot`. -/
def updateActiveSnapshot (ns : NodeStatisticsStore) (nodeId : String) : NodeStatisticsStore :=
  match alookup ns.nodeStats nodeId with
  | none => ns
  | some st =>
    let active := (alookup ns.nodeActiveTasks nodeId).getD []
    setStats ns nodeId { st with activeTaskIds := active }

/-- `recordRequest`. -/
def recordRequest (ns : NodeStatisticsStore) (nodeId : String) (now : Int) :
    NodeStatisticsStore :=
  let normalized := nodeId.trim
  if normalized = "" then ns
  else
    let (st, ns) := ns.getOrCreate normalized now
    ns.setStats normalized { st with requestCount := st.requestCount + 1, lastUpdated := now }

/-- `recordAssignment`. -/
def recordAssignment (ns : NodeStatisticsStore) (nodeId : String) (taskIds : List TaskId)
    (now : Int) : NodeStatisticsStore :=
  let normalized := nodeId.trim
  if normalized = "" ∨ taskIds = [] then ns
  else
    let (st, ns) := ns.getOrCreate normalized now
    let ns := ns.setStats normalized
      { st with assignedTaskCount := st.assignedTaskCount + taskIds.length }
    let (active, ns) := ns.ensureActiveSet normalized
    let active := taskIds.foldl (fun a tid => sadd a tid) active
    let ns := { ns with
      nodeActiveTasks := aset ns.nodeActiveTasks normalized active
      taskToNode := taskIds.foldl (fun m tid => aset m tid normalized) ns.taskToNode }
    let ns :=
      match alookup ns.nodeStats normalized with
      | none => ns
      | some st' => ns.setStats normalized { st' with lastUpdated := now }
    ns.updateActiveSnapshot normalized

/-- `detachTask`. -/
def detachTask (ns : NodeStatisticsStore) (taskId : TaskId) (explicitNodeId : Option String)
    (now : Int) : NodeStatisticsStore :=
  let mappedNodeId :=
    match explicitNodeId with
    | some n => some n
    | none => alookup ns.taskToNode taskId
  match mappedNodeId with
  | none => { ns with taskToNode := adel ns.taskToNode taskId }
  | some nodeId =>
    let ns :=
      match alookup ns.nodeActiveTasks nodeId with
      | none => ns
      | some active =>
        let active := active.erase taskId
        if active = [] then { ns with nodeActiveTasks := adel ns.nodeActiveTasks nodeId }
        else { ns with nodeActiveTasks := aset ns.nodeActiveTasks nodeId active }
    let ns := { ns with taskToNode := adel ns.taskToNode taskId }
    match alookup ns.nodeStats nodeId with
    | none => ns
    | some st =>
      let ns := ns.setStats nodeId { st with lastUpdated := now }
      ns.updateActiveSnapshot nodeId

/-- `trimAndArchiveNodeRecords`: move entries older than the 2-hour window,
and any in excess of the 500 most recent, into the archived counters. -/
def trimAndArchiveNodeRecords (st : NodeStats) (referenceTime : Int) : NodeStats :=
  if st.recentRecords = [] then st
  else
    let cutoffTime := referenceTime - NODE_RECENT_WINDOW_MS
    let keep := st.recentRecords.filter (fun r => decide (cutoffTime ≤ r.timestamp))
    let old := st.recentRecords.filter (fun r => decide (¬ cutoffTime ≤ r.timestamp))
    let excess := keep.length - MAX_RECENT_NODE_HISTORY
    let toArchive := old ++ keep.take excess
    let keep := keep.drop excess
    if toArchive = [] then { st with recentRecords := keep }
    else
      { st with
        recentRecords := keep
        archivedRecordCount := st.archivedRecordCount + toArchive.length
        archivedItemNum := st.archivedItemNum + (toArchive.map (fun r => r.itemNum)).sum
        archivedRunningTime :=
          st.archivedRunningTime + (toArchive.map (fun r => r.runningTime)).sum }

/-- `updateNodeAggregates` of `NodeStatisticsStore`: derived averages come
from the lifetime totals. -/
def updateNodeAggregates (st : NodeStats) : NodeStats :=
  let avgSpeed := if 0 < st.totalRunningTime then st.totalItemNum / st.totalRunningTime else 0
  let avgTimePer100Items :=
    if 0 < st.totalItemNum then st.totalRunningTime / st.totalItemNum * 100 else 0
  let lastUpdated :=
    match st.recentRecords.getLast? with
    | some r => if st.lastUpdated < r.timestamp then r.timestamp else st.lastUpdated
    | none => st.lastUpdated
  { st with avgSpeed := avgSpeed, avgTimePer100Items := avgTimePer100Items
            lastUpdated := lastUpdated }

/-- `archiveOutdated`: archive-and-trim pass over every node. -/
def archiveOutdated (ns : NodeStatisticsStore) (referenceTime : Int) : NodeStatisticsStore :=
  let stats := ns.nodeStats.map (fun p =>
    (p.1, updateNodeAggregates (trimAndArchiveNodeRecords p.2 referenceTime)))
  let ns := { ns with nodeStats := stats }
  ns.nodeStats.foldl (fun acc p => acc.updateActiveSnapshot p.1) ns

/-- `recordProcessedInfo`. -/
def recordProcessedInfo (ns : NodeStatisticsStore) (info : ProcessedInfo)
    (referenceTime : Int) : NodeStatisticsStore :=
  let normalized := info.node_id.trim
  if normalized = "" then ns
  else
    let ns := ns.archiveOutdated referenceTime
    let speed := if 0 < info.running_time then info.item_num / info.running_time else 0
    let record : NodePerformanceRecord :=
      { timestamp := referenceTime, itemNum := info.item_num
        runningTime := info.running_time, speed := speed }
    let (st, ns) := ns.getOrCreate normalized referenceTime
    let st := { st with
      recentRecords := st.recentRecords ++ [record]
      totalItemNum := st.totalItemNum + info.item_num
      totalRunningTime := st.totalRunningTime + info.running_time
      recordCount := st.recordCount + 1
      lastUpdated := referenceTime }
    let st := trimAndArchiveNodeRecords st referenceTime
    let st := updateNodeAggregates st
    let ns := ns.setStats normalized st
    ns.updateActiveSnapshot normalized


/-- One externally-visible node-statistics event. -/
inductive NEvent
  | proc (info : ProcessedInfo) (now : Int)
  | request (nodeId : String) (now : Int)
  | assign (nodeId : String) (taskIds : List TaskId) (now : Int)
  | detach (taskId : TaskId) (explicitNodeId : Option String) (now : Int)
  | archive (now : Int)

/-- Dispatch one event to the store method it stands for. -/
def applyNEvent (ns : NodeStatisticsStore) : NEvent → NodeStatisticsStore
  | NEvent.proc info now => ns.recordProcessedInfo info now
  | NEvent.request nodeId now => ns.recordRequest nodeId now
  | NEvent.assign nodeId taskIds now => ns.recordAssignment nodeId taskIds now
  | NEvent.detach taskId enid now => ns.detachTask taskId enid now
  | NEvent.archive now => ns.archiveOutdated now

/-- The node store after a sequence of events, from an empty store. -/
def applyNEvents (evs : List NEvent) : NodeStatisticsStore :=
  evs.foldl applyNEvent empty

/-- The item count that one event records for node `n` (blank node ids are
rejected by the store and record nothing). -/
def evItem (n : String) : NEvent → ℚ
  | NEvent.proc info _ => if info.node_id.trim = n ∧ ¬ n = "" then info.item_num else 0
  | _ => 0

/-- The running time that one event records for node `n`. -/
def evTime (n : String) : NEvent → ℚ
  | NEvent.proc info _ =>
      if info.node_id.trim = n ∧ ¬ n = "" then info.running_time else 0
  | _ => 0

/-- Lifetime item total of node `n` (0 when the node has no record). -/
def totalItemOf (ns : NodeStatisticsStore) (n : String) : ℚ :=
  match alookup ns.nodeStats n with
  | some st => st.totalItemNum
  | none => 0

/-- Lifetime running-time total of node `n`. -/
def totalTimeOf (ns : NodeStatisticsStore) (n : String) : ℚ :=
  match alookup ns.nodeStats n with
  | some st => st.totalRunningTime
  | none => 0

/-- Archived counters plus the sliding-window records reconstruct the
lifetime totals. -/
def archiveConsistent (ns : NodeStatisticsStore) : Prop :=
  ∀ n st, alookup ns.nodeStats n = some st →
    st.archivedItemNum + (st.recentRecords.map (fun r => r.itemNum)).sum =
      st.totalItemNum ∧
    st.archivedRunningTime + (st.recentRecords.map (fun r => r.runningTime)).sum =
      st.totalRunningTime

/-- The per-node facts that the telemetry claims are about: lifetime totals,
archived counters and the window records. -/
def statView (st : NodeStats) : ℚ × ℚ × ℚ × ℚ × List NodePerformanceRecord :=
  (st.totalItemNum, st.totalRunningTime, st.archivedItemNum,
   st.archivedRunningTime, st.recentRecords)

/-- Either the node entry keeps its telemetry view, or it is a freshly created
entry (and the node had no entry before). -/
def viewEq (a b : Option NodeStats) : Prop :=
  a.map statView = b.map statView ∨
  (a.map statView = some ((0 : ℚ), (0 : ℚ), (0 : ℚ), (0 : ℚ),
    ([] : List NodePerformanceRecord)) ∧ b = none)

end NodeStatisticsStore

structure TaskCounts where
  total : Nat
  pending : Nat
  processing : Nat
  completed : Nat
  failed : Nat
deriving DecidableEq, Repr

/-- State of one `SingleRoundStore`. -/
structure SingleRoundStore where
  tasks : List Task
  pathToTaskId : List (String × TaskId)
  pendingQueue : List TaskId
  pendingSet : List TaskId
  processingSet : List TaskId
  processingStartedAt : List (TaskId × Int)
  completedSet : List TaskId
  completedList : List TaskId
  failedSet : List TaskId
  failedList : List TaskId
  totalProcessedItemNum : ℚ
  totalProcessedRunningTime : ℚ
  lastProcessedAt : Option Int
  roundId : String
  nextTaskId : TaskId
deriving DecidableEq, Repr

namespace SingleRoundStore

def emptyStore (roundId : String) : SingleRoundStore :=
  { tasks := [], pathToTaskId := [], pendingQueue := [], pendingSet := []
    processingSet := [], processingStartedAt := [], completedSet := [], completedList := []
    failedSet := [], failedList := [], totalProcessedItemNum := 0
    totalProcessedRunningTime := 0, lastProcessedAt := none, roundId := roundId
    nextTaskId := 0 }

/-- Lookup in a task table keyed by the task's own id. -/
def findTask : List Task → TaskId → Option Task
  | [], _ => none
  | t :: ts, id => if t.id = id then some t else findTask ts id

/-- `this.tasks.get(taskId)`. -/
def taskGet (s : SingleRoundStore) (id : TaskId) : Option Task :=
  findTask s.tasks id

def statusOf (s : SingleRoundStore) (id : TaskId) : Option TStatus :=
  (s.taskGet id).map (fun t => t.status)

/-- In-place mutation of the task record for `id` (JS object mutation through
the `Map` reference). -/
def updTask (ts : List Task) (id : TaskId) (f : Task → Task) : List Task :=
  ts.map (fun t => if t.id = id then f t else t)

/-- `enqueuePending`. -/
def enqueuePending (s : SingleRoundStore) (id : TaskId) : SingleRoundStore :=
  if id ∈ s.pendingSet then s
  else { s with pendingSet := s.pendingSet ++ [id], pendingQueue := s.pendingQueue ++ [id] }

/-- `getCounts`. -/
def getCounts (s : SingleRoundStore) : TaskCounts :=
  { total := s.tasks.length
    pending := s.pendingSet.length
    processing := s.processingSet.length
    completed := s.completedSet.length
    failed := s.failedSet.length }

/-- `detachTaskFromNode` of `SingleRoundStore`: clear the task's node field
and detach in the node store. -/
def detachTaskFromNode (s : SingleRoundStore) (ns : NodeStatisticsStore) (taskId : TaskId)
    (explicitNodeId : Option String) (now : Int) :
    SingleRoundStore × NodeStatisticsStore :=
  let task := s.taskGet taskId
  let nodeId :=
    match explicitNodeId with
    | some n => some n
    | none => task.bind (fun t => t.processingNodeId)
  let s := { s with tasks := updTask s.tasks taskId (fun t => { t with processingNodeId := none }) }
  (s, ns.detachTask taskId nodeId now)

/-- One trimmed path of `enqueueTasksFromPaths`. -/
def enqueueOnePath (s : SingleRoundStore) (acc : Nat × Nat × List TaskId) (rawPath : String)
    (now : Int) : SingleRoundStore × Nat × Nat × List TaskId :=
  let (added, skipped, addedIds) := acc
  let path := rawPath.trim
  if path = "" then (s, added, skipped + 1, addedIds)
  else
    let step2 : SingleRoundStore × Bool :=
      match alookup s.pathToTaskId path with
      | none => (s, false)
      | some existingId =>
        match s.taskGet existingId with
        | none => (s, false)
        | some existingTask =>
          if existingTask.status ≠ TStatus.failed then (s, true)
          else
            ({ s with
                failedSet := s.failedSet.erase existingId
                failedList := removeAll s.failedList existingId
                tasks := s.tasks.filter (fun t => decide (t.id ≠ existingId)) }, false)
    let (s, skip) := step2
    if skip then (s, added, skipped + 1, addedIds)
    else
      let id := s.nextTaskId
      let task : Task :=
        { id := id, roundId := s.roundId, path := path, status := TStatus.pending
          failureCount := 0, message := none, createdAt := now, updatedAt := now
          processingStartedAt := none, processingNodeId := none }
      let s := { s with
        tasks := s.tasks ++ [task]
        pathToTaskId := aset s.pathToTaskId path id
        nextTaskId := s.nextTaskId + 1 }
      let s := s.enqueuePending id
      (s, added + 1, skipped, addedIds ++ [id])

/-- `enqueueTasksFromPaths`. -/
def enqueueTasksFromPaths (s : SingleRoundStore) (paths : List String) (now : Int) :
    SingleRoundStore × Nat × Nat × List TaskId :=
  paths.foldl (fun acc p => enqueueOnePath acc.1 acc.2 p now) (s, 0, 0, [])

/-- The lease loop of `getTasksForProcessing`: repeatedly pop the pending
FIFO head (`dequeueNextPending` inlined: a popped id not in the pending set
is stale and skipped), transition survivors to `processing`. -/
def leaseGo (s : SingleRoundStore) (batchSize : Nat) (now : Int) (nodeId : Option String)
    (acc : List Task) : SingleRoundStore × List Task :=
  if acc.length < batchSize then
    match hq : s.pendingQueue with
    | [] => (s, acc)
    | id :: rest =>
      if id ∈ s.pendingSet then
        let s1 := { s with pendingQueue := rest, pendingSet := s.pendingSet.erase id }
        match s1.taskGet id with
        | none => leaseGo s1 batchSize now nodeId acc
        | some task =>
          let task' := { task with
            status := TStatus.processing
            processingStartedAt := some now
            updatedAt := now
            processingNodeId := nodeId }
          let s2 := { s1 with
            tasks := updTask s1.tasks id (fun t => { t with
              status := TStatus.processing
              processingStartedAt := some now
              updatedAt := now
              processingNodeId := nodeId })
            processingSet := sadd s1.processingSet id
            processingStartedAt := aset s1.processingStartedAt id now }
          leaseGo s2 batchSize now nodeId (acc ++ [task'])
      else leaseGo { s with pendingQueue := rest } batchSize now nodeId acc
  else (s, acc)
termination_by s.pendingQueue.length
decreasing_by
  · simp_all
  · simp_all
  · simp_all

/-- `getTasksForProcessing` of `SingleRoundStore`. -/
def getTasksForProcessing (s : SingleRoundStore) (ns : NodeStatisticsStore) (batchSize : Nat)
    (nodeId : Option String) (now : Int) :
    List Task × SingleRoundStore × NodeStatisticsStore :=
  let normalizedNodeId := nodeId.bind (fun n => if n.trim = "" then none else some n.trim)
  let ns :=
    match normalizedNodeId with
    | some n => ns.recordRequest n now
    | none => ns
  let (s, results) := leaseGo s batchSize now normalizedNodeId []
  let ns :=
    match normalizedNodeId with
    | some n => ns.recordAssignment n (results.map (fun t => t.id)) now
    | none => ns
  (results, s, ns)

inductive ReportOutcome
  | notFound
  | ok (status : TStatus)
deriving DecidableEq, Repr

/-- `updateTaskStatus` of `SingleRoundStore`. -/
def updateTaskStatus (s : SingleRoundStore) (ns : NodeStatisticsStore) (taskId : TaskId)
    (success : Bool) (message : String) (now : Int) :
    ReportOutcome × SingleRoundStore × NodeStatisticsStore :=
  match s.taskGet taskId with
  | none => (ReportOutcome.notFound, s, ns)
  | some task =>
    let previousNodeId := task.processingNodeId
    let s := { s with
      processingSet := s.processingSet.erase taskId
      processingStartedAt := adel s.processingStartedAt taskId
      pendingSet := s.pendingSet.erase taskId
      pendingQueue := removeAll s.pendingQueue taskId }
    let (s, ns) := s.detachTaskFromNode ns taskId previousNodeId now
    if task.status = TStatus.completed ∧ success = false then
      (ReportOutcome.ok TStatus.completed, s, ns)
    else
      let msg := if message = "" then none else some message
      if success then
        let s := { s with tasks := updTask s.tasks taskId (fun t =>
          { t with updatedAt := now, message := msg, status := TStatus.completed
                   failureCount := 0, processingStartedAt := none }) }
        let s :=
          if taskId ∈ s.failedSet then
            { s with failedSet := s.failedSet.erase taskId
                     failedList := removeAll s.failedList taskId }
          else s
        let s :=
          if taskId ∈ s.completedSet then s
          else { s with completedSet := s.completedSet ++ [taskId]
                        completedList := taskId :: s.completedList }
        (ReportOutcome.ok TStatus.completed, s, ns)
      else
        let s := { s with tasks := updTask s.tasks taskId (fun t =>
          { t with updatedAt := now, message := msg, status := TStatus.failed
                   failureCount := t.failureCount + 1, processingStartedAt := none }) }
        let s := { s with failedList := removeAll s.failedList taskId }
        let s :=
          if taskId ∈ s.failedSet then s
          else { s with failedSet := s.failedSet ++ [taskId] }
        let s := { s with failedList := taskId :: s.failedList }
        (ReportOutcome.ok TStatus.failed, s, ns)

def retryMessage (retryCount : Nat) : String :=
  s!"任务超时，已重新排入队列进行第{retryCount}次重试"

def maxRetriesMessage : String := "任务超时失败（已达到最大重试次数）"

/-- One iteration of the sweep loop of `markTimedOutTasksAsFailed`; the
`startedAt = 0` skip mirrors the JS falsiness of `!startedAt`. -/
def sweepStep (st : SingleRoundStore × NodeStatisticsStore × Nat) (safeTimeout : Int)
    (now : Int) (taskId : TaskId) : SingleRoundStore × NodeStatisticsStore × Nat :=
  let (s, ns, handled) := st
  match s.taskGet taskId, alookup s.processingStartedAt taskId with
  | some task, some startedAt =>
    if startedAt = 0 then (s, ns, handled)
    else if 0 < safeTimeout ∧ now - startedAt ≤ safeTimeout then (s, ns, handled)
    else
      let previousNodeId := task.processingNodeId
      let s := { s with
        processingSet := s.processingSet.erase taskId
        processingStartedAt := adel s.processingStartedAt taskId
        pendingSet := s.pendingSet.erase taskId
        pendingQueue := removeAll s.pendingQueue taskId }
      let (s, ns) := s.detachTaskFromNode ns taskId previousNodeId now
      let s := { s with tasks := updTask s.tasks taskId (fun t =>
        { t with processingStartedAt := none, updatedAt := now }) }
      if task.failureCount < 1 then
        let retryCount := task.failureCount + 1
        let s := { s with tasks := updTask s.tasks taskId (fun t =>
          { t with failureCount := retryCount, status := TStatus.pending
                   message := some (retryMessage retryCount) }) }
        let s := { s with failedSet := s.failedSet.erase taskId
                          failedList := removeAll s.failedList taskId }
        let s := s.enqueuePending taskId
        (s, ns, handled + 1)
      else
        let s := { s with tasks := updTask s.tasks taskId (fun t =>
          { t with failureCount := t.failureCount + 1, status := TStatus.failed
                   message := some maxRetriesMessage }) }
        let s :=
          if taskId ∈ s.failedSet then s
          else { s with failedSet := s.failedSet ++ [taskId] }
        let s := { s with failedList := taskId :: removeAll s.failedList taskId }
        (s, ns, handled + 1)
  | _, _ => (s, ns, handled)

/-- `markTimedOutTasksAsFailed`: sweep over a snapshot of the processing
set; a first timeout re-queues the task once, a second fails it. -/
def markTimedOutTasksAsFailed (s : SingleRoundStore) (ns : NodeStatisticsStore)
    (timeoutMs : Int) (now : Int) : SingleRoundStore × NodeStatisticsStore × Nat :=
  let safeTimeout := if 0 < timeoutMs then timeoutMs else 0
  s.processingSet.foldl (fun acc id => sweepStep acc safeTimeout now id) (s, ns, 0)

/-- `clearAllTasks`. -/
def clearAllTasks (s : SingleRoundStore) (ns : NodeStatisticsStore) (now : Int) :
    SingleRoundStore × NodeStatisticsStore × Nat :=
  let clearedCount := s.tasks.length
  let ns := s.tasks.foldl (fun acc t =>
    match t.processingNodeId with
    | some n => acc.detachTask t.id (some n) now
    | none => acc.detachTask t.id none now) ns
  let s := { s with
    tasks := [], pathToTaskId := [], pendingQueue := [], pendingSet := []
    processingSet := [], processingStartedAt := [], completedSet := [], completedList := []
    failedSet := [], failedList := [], totalProcessedItemNum := 0
    totalProcessedRunningTime := 0, lastProcessedAt := none }
  (s, ns, clearedCount)

/-- `recordNodeProcessedInfo` of `SingleRoundStore`. -/
def recordNodeProcessedInfo (s : SingleRoundStore) (ns : NodeStatisticsStore)
    (info : ProcessedInfo) (recordNodeStats : Bool) (now : Int) :
    SingleRoundStore × NodeStatisticsStore :=
  let ns := if recordNodeStats then ns.recordProcessedInfo info now else ns
  ({ s with
      totalProcessedItemNum := s.totalProcessedItemNum + info.item_num
      totalProcessedRunningTime := s.totalProcessedRunningTime + info.running_time
      lastProcessedAt := some now }, ns)

end SingleRoundStore

namespace SingleRoundStore

/-- `SerializedRoundData`: the persisted shape of one round store. -/
structure SerializedRoundData where
  roundId : String
  tasks : List Task
  pendingQueue : List TaskId
  processingStartedAt : List (TaskId × Int)
  completedList : List TaskId
  failedList : List TaskId
  totalProcessedItemNum : ℚ
  totalProcessedRunningTime : ℚ
  lastProcessedAt : Option Int
deriving DecidableEq, Repr

/-- `toSnapshot`. -/
def toSnapshot (s : SingleRoundStore) : SerializedRoundData :=
  { roundId := s.roundId
    tasks := s.tasks
    pendingQueue := s.pendingQueue
    processingStartedAt := s.processingStartedAt
    completedList := s.completedList
    failedList := s.failedList
    totalProcessedItemNum := s.totalProcessedItemNum
    totalProcessedRunningTime := s.totalProcessedRunningTime
    lastProcessedAt := s.lastProcessedAt }

/-- `new Set(list)`: duplicate-free copy keeping first occurrences. -/
def jsSetOf (l : List TaskId) : List TaskId :=
  l.foldl (fun acc id => sadd acc id) []

/-- `Map.set` keyed on the task's own id (used when rebuilding the task
table from a snapshot). -/
def taskPut (ts : List Task) (t : Task) : List Task :=
  if (findTask ts t.id).isSome then ts.map (fun u => if u.id = t.id then t else u)
  else ts ++ [t]

/-- `fromSnapshot`. The source's `filter(Boolean)` only drops empty-string
ids, which do not exist in the natural-number id model; `nextTaskId` is set
past every restored id, standing for the freshness of `randomUUID` across a
restore. -/
def fromSnapshot (snapshot : SerializedRoundData) : SingleRoundStore :=
  let tasks : List Task := snapshot.tasks.foldl (fun acc t => taskPut acc t) []
  let pathToTaskId : List (String × TaskId) := snapshot.tasks.foldl (fun acc t => aset acc t.path t.id) []
  let pendingSet : List TaskId := (snapshot.tasks.filter (fun t => decide (t.status = TStatus.pending))).map
    (fun t => t.id) |>.foldl (fun acc id => sadd acc id) []
  let processingSet0 : List TaskId := (snapshot.tasks.filter
    (fun t => decide (t.status = TStatus.processing))).map (fun t => t.id)
    |>.foldl (fun acc id => sadd acc id) []
  let completedSet : List TaskId := (snapshot.tasks.filter
    (fun t => decide (t.status = TStatus.completed))).map (fun t => t.id)
    |>.foldl (fun acc id => sadd acc id) (jsSetOf snapshot.completedList)
  let failedSet : List TaskId := (snapshot.tasks.filter (fun t => decide (t.status = TStatus.failed))).map
    (fun t => t.id) |>.foldl (fun acc id => sadd acc id) (jsSetOf snapshot.failedList)
  let taskHas := fun id => ((findTask tasks id).isSome : Bool)
  let pendingQueue := snapshot.pendingQueue.filter
    (fun id => taskHas id && decide (id ∈ pendingSet))
  let completedList := snapshot.completedList.filter
    (fun id => taskHas id && decide (id ∈ completedSet))
  let failedList := snapshot.failedList.filter
    (fun id => taskHas id && decide (id ∈ failedSet))
  let processingStartedAt := snapshot.processingStartedAt.filter
    (fun p => taskHas p.1 && decide (p.1 ∈ processingSet0))
  let processingSet := jsSetOf (processingStartedAt.map (fun p => p.1))
  { tasks := tasks
    pathToTaskId := pathToTaskId
    pendingQueue := pendingQueue
    pendingSet := pendingSet
    processingSet := processingSet
    processingStartedAt := processingStartedAt
    completedSet := completedSet
    completedList := completedList
    failedSet := failedSet
    failedList := failedList
    totalProcessedItemNum := snapshot.totalProcessedItemNum
    totalProcessedRunningTime := snapshot.totalProcessedRunningTime
    lastProcessedAt := snapshot.lastProcessedAt
    roundId := snapshot.roundId
    nextTaskId := (snapshot.tasks.map (fun t => t.id)).foldr max 0 + 1 }

/-- All the observable facts about one task id that the sweep of other ids
must preserve. -/
def targetView (s : SingleRoundStore) (id : TaskId) :
    Option Task × Bool × Bool × Bool × Bool × Bool × Option Int :=
  (findTask s.tasks id, decide (id ∈ s.pendingSet), decide (id ∈ s.pendingQueue),
   decide (id ∈ s.failedSet), decide (id ∈ s.failedList), decide (id ∈ s.processingSet),
   alookup s.processingStartedAt id)

/-- The pending-FIFO entries that the lease loop will actually serve: still
in the pending set and present in the task table. -/
def liveB (s : SingleRoundStore) (id : TaskId) : Bool :=
  decide (id ∈ s.pendingSet) && (findTask s.tasks id).isSome

/-- The in-place mutation a lease applies to a served task. -/
def leaseTag (now : Int) (nid : Option String) (t : Task) : Task :=
  { t with status := TStatus.processing, processingStartedAt := some now
           updatedAt := now, processingNodeId := nid }

/-- The per-status bucket characterization: every member of the bucket is a
task of that status and every task of that status is in the bucket. -/
def bucketOK (s : SingleRoundStore) (set : List TaskId) (st : TStatus) : Prop :=
  (∀ id ∈ set, s.statusOf id = some st) ∧ (∀ t ∈ s.tasks, t.status = st → t.id ∈ set)

/-- Consistency invariant of a round store, maintained by every operation. -/
def sInv (s : SingleRoundStore) : Prop :=
  (s.tasks.map Task.id).Nodup ∧
  (∀ t ∈ s.tasks, t.id < s.nextTaskId) ∧
  s.pendingQueue.Nodup ∧
  s.pendingSet.Nodup ∧
  s.processingSet.Nodup ∧
  s.completedSet.Nodup ∧
  s.failedSet.Nodup ∧
  (∀ id ∈ s.pendingQueue, id ∈ s.pendingSet) ∧
  (∀ id ∈ s.pendingSet, id ∈ s.pendingQueue) ∧
  bucketOK s s.pendingSet TStatus.pending ∧
  bucketOK s s.processingSet TStatus.processing ∧
  bucketOK s s.completedSet TStatus.completed ∧
  bucketOK s s.failedSet TStatus.failed ∧
  (∀ p ∈ s.processingStartedAt, p.1 ∈ s.processingSet) ∧
  (∀ id ∈ s.processingSet, (alookup s.processingStartedAt id).isSome) ∧
  (∀ id ∈ s.completedList, id ∈ s.completedSet) ∧
  (∀ id ∈ s.failedList, id ∈ s.failedSet) ∧
  (∀ t ∈ s.tasks, t.status ≠ TStatus.processing →
    t.processingStartedAt = none ∧ t.processingNodeId = none)

/-- One public operation on a round, as the dispatcher invokes them. -/
inductive ROp
  | enqueue (paths : List String) (now : Int)
  | lease (batchSize : Nat) (nodeId : Option String) (now : Int)
  | report (taskId : TaskId) (success : Bool) (message : String) (now : Int)
  | sweep (timeoutMs : Int) (now : Int)
  | clear (now : Int)

/-- Apply one operation to a round store paired with the node-statistics store,
keeping only the state (return values dropped). -/
def applyOp (x : SingleRoundStore × NodeStatisticsStore) :
    ROp → SingleRoundStore × NodeStatisticsStore
  | ROp.enqueue paths now => ((enqueueTasksFromPaths x.1 paths now).1, x.2)
  | ROp.lease b nid now =>
      ((getTasksForProcessing x.1 x.2 b nid now).2.1,
       (getTasksForProcessing x.1 x.2 b nid now).2.2)
  | ROp.report tid succ msg now =>
      ((updateTaskStatus x.1 x.2 tid succ msg now).2.1,
       (updateTaskStatus x.1 x.2 tid succ msg now).2.2)
  | ROp.sweep t now =>
      ((markTimedOutTasksAsFailed x.1 x.2 t now).1,
       (markTimedOutTasksAsFailed x.1 x.2 t now).2.1)
  | ROp.clear now =>
      ((clearAllTasks x.1 x.2 now).1, (clearAllTasks x.1 x.2 now).2.1)

/-- The state of one round after a sequence of operations starting from a
freshly created round. -/
def applyOps (roundId : String) (ops : List ROp) :
    SingleRoundStore × NodeStatisticsStore :=
  ops.foldl applyOp (emptyStore roundId, NodeStatisticsStore.empty)

end SingleRoundStore

/-! ### The dispatcher (`TaskStore`): rounds, lifecycle, completion detector -/

/-- Round lifecycle (`TaskRoundLifecycle`). -/
inductive RLife
  | pending
  | active
  | completed
deriving DecidableEq, Repr

/-- One round entry of the dispatcher (`RoundEntry`), in the always-hot model:
the store is always loaded, so the counts/processed snapshots are read directly
from it and persistence is the identity (backed by the snapshot
round-trip). -/
structure RoundEntry where
  id : String
  status : RLife
  activatedAt : Option Int
  completedAt : Option Int
  store : SingleRoundStore
  isDirty : Bool
deriving Repr

/-- Dispatcher state (`TaskStore`). -/
structure DState where
  rounds : List (String × RoundEntry)
  roundOrder : List String
  activeRoundId : Option String
  taskIdToRoundId : List (TaskId × String)
  nodeStore : NodeStatisticsStore
  completionDigest : Option String
deriving Repr

namespace TaskStore

/-- `refreshRoundStatus`: recompute the lifecycle of one entry from its
counts; returns the updated entry and the (possibly cleared) active round
id. -/
def refreshEntry (entry : RoundEntry) (activeId : Option String) (now : Int) :
    RoundEntry × Option String :=
  let counts := entry.store.getCounts
  let remainingWork := counts.pending + counts.processing
  if counts.total = 0 then
    ({ entry with status := RLife.completed
                  completedAt := some (entry.completedAt.getD now) }, activeId)
  else if remainingWork = 0 then
    ({ entry with status := RLife.completed
                  completedAt := some (entry.completedAt.getD now) },
     if activeId = some entry.id then none else activeId)
  else if 0 < counts.processing then
    ({ entry with status := RLife.active
                  activatedAt := some (entry.activatedAt.getD now)
                  completedAt := none }, activeId)
  else
    ({ entry with
        status := if entry.status = RLife.active ∨ entry.status = RLife.completed
          then RLife.pending else entry.status
        completedAt := if 0 < counts.pending then none else entry.completedAt },
     activeId)

/-- The scan loop of `ensureActiveRound`: first non-completed round in
creation order. -/
def scanRounds (d : DState) : List String → Int → Option String × DState
  | [], _ => (none, d)
  | rid :: rest, now =>
    match alookup d.rounds rid with
    | none => scanRounds d rest now
    | some entry =>
      let p := refreshEntry entry d.activeRoundId now
      let d1 := { d with rounds := aset d.rounds rid p.1, activeRoundId := p.2 }
      if p.1.status = RLife.completed then scanRounds d1 rest now
      else (some rid, d1)

/-- `ensureActiveRound`. -/
def ensureActiveRound (d : DState) (now : Int) : Option String × DState :=
  match d.activeRoundId with
  | some aid =>
    match alookup d.rounds aid with
    | some entry =>
      let p := refreshEntry entry d.activeRoundId now
      let d1 := { d with rounds := aset d.rounds aid p.1, activeRoundId := p.2 }
      if ¬ p.1.status = RLife.completed then (some aid, d1)
      else scanRounds { d1 with activeRoundId := none } d1.roundOrder now
    | none => scanRounds { d with activeRoundId := none } d.roundOrder now
  | none => scanRounds d d.roundOrder now

/-- The running state of one `getTasksForProcessing` call. -/
structure FetchState where
  d : DState
  collected : List Task
  processedRounds : List String
  shouldStop : Bool
deriving Repr

/-- `fetchFromEntry` (the inner closure of `TaskStore.getTasksForProcessing`).
`prepareRoundForProcessing` reduces to adopting the round as active when none
is set (the store is always loaded). -/
def fetchFromEntry (fs : FetchState) (rid : String) (limit : Nat)
    (nodeId : Option String) (now : Int) : FetchState :=
  match alookup fs.d.rounds rid with
  | none => fs
  | some entry =>
    if rid ∈ fs.processedRounds then fs
    else
      let p := refreshEntry entry fs.d.activeRoundId now
      let e1 := p.1
      let d1 := { fs.d with rounds := aset fs.d.rounds rid e1, activeRoundId := p.2 }
      if e1.status = RLife.completed then { fs with d := d1 }
      else
        let d2 := match d1.activeRoundId with
          | none => { d1 with activeRoundId := some rid }
          | some _ => d1
        if limit = 0 then
          { fs with d := d2, processedRounds := fs.processedRounds ++ [rid] }
        else
          let lr := e1.store.getTasksForProcessing d2.nodeStore limit nodeId now
          let tasks := lr.1
          let e2 := { e1 with store := lr.2.1
                              isDirty := if tasks = [] then e1.isDirty else true }
          let d3 := { d2 with
            rounds := aset d2.rounds rid e2
            nodeStore := lr.2.2
            taskIdToRoundId :=
              tasks.foldl (fun m (t : Task) => aset m t.id rid)
                d2.taskIdToRoundId }
          let p2 := refreshEntry e2 d3.activeRoundId now
          let e3 := p2.1
          let d4 := { d3 with rounds := aset d3.rounds rid e3, activeRoundId := p2.2 }
          let counts := e3.store.getCounts
          let hasFetched : Bool := ¬ tasks = []
          let hasRemainingPending : Bool := 0 < counts.pending
          let d5 := if hasFetched then { d4 with activeRoundId := some rid } else d4
          { d := d5
            collected := fs.collected ++ tasks
            processedRounds := fs.processedRounds ++ [rid]
            shouldStop := fs.shouldStop || hasFetched || hasRemainingPending }

/-- The round-order distribution loop of `TaskStore.getTasksForProcessing`. -/
def distLoop (fs : FetchState) (order : List String) (safe : Nat)
    (nodeId : Option String) (now : Int) : FetchState :=
  match order with
  | [] => fs
  | rid :: rest =>
    if fs.shouldStop then fs
    else if safe ≤ fs.collected.length then fs
    else distLoop (fetchFromEntry fs rid (safe - fs.collected.length) nodeId now)
      rest safe nodeId now

/-- `TaskStore.getTasksForProcessing`. -/
def dGetTasksForProcessing (d : DState) (batchSize : Nat) (roundId : Option String)
    (nodeId : Option String) (now : Int) : List Task × DState :=
  let safe := max 1 batchSize
  match roundId with
  | some rid =>
    let fs := fetchFromEntry ⟨d, [], [], false⟩ rid safe nodeId now
    (fs.collected.take safe, fs.d)
  | none =>
    let ar := ensureActiveRound d now
    let fs0 : FetchState := ⟨ar.2, [], [], false⟩
    let fs1 := match ar.1 with
      | some aid => fetchFromEntry fs0 aid safe nodeId now
      | none => fs0
    if fs1.shouldStop then (fs1.collected.take safe, fs1.d)
    else if safe ≤ fs1.collected.length then (fs1.collected.take safe, fs1.d)
    else
      let fs2 := distLoop fs1 fs1.d.roundOrder safe nodeId now
      (fs2.collected.take safe, fs2.d)

/-- `GlobalCompletionStats`. -/
structure GStats where
  totalRounds : Nat
  completedRounds : Nat
  totalTasks : Nat
  completedTasks : Nat
  failedTasks : Nat
  totalProcessedItems : ℚ
  totalRunningTime : ℚ
  averageTimePerItem : Option ℚ
  averageTimePer100Items : Option ℚ
  allRoundsCompleted : Bool
  generatedAt : Int
deriving DecidableEq, Repr

/-- The accumulation loop of `getGlobalCompletionStats`: refresh every round,
and sum counts and processed aggregates. Returns
(completedRounds, totalTasks, completedTasks, failedTasks,
totalProcessedItems, totalRunningTime, state). -/
def statsPass : List (String × RoundEntry) → DState → Int →
    Nat × Nat × Nat × Nat × ℚ × ℚ × DState
  | [], d, _ => (0, 0, 0, 0, 0, 0, d)
  | (rid, _) :: rest, d, now =>
    match alookup d.rounds rid with
    | none => statsPass rest d now
    | some e =>
      let p := refreshEntry e d.activeRoundId now
      let e1 := p.1
      let d1 := { d with rounds := aset d.rounds rid e1, activeRoundId := p.2 }
      let counts := e1.store.getCounts
      let r := statsPass rest d1 now
      ((if e1.status = RLife.completed then 1 else 0) + r.1,
       counts.total + r.2.1,
       counts.completed + r.2.2.1,
       counts.failed + r.2.2.2.1,
       e1.store.totalProcessedItemNum + r.2.2.2.2.1,
       e1.store.totalProcessedRunningTime + r.2.2.2.2.2.1,
       r.2.2.2.2.2.2)

/-- `getGlobalCompletionStats`. -/
def computeGlobalStats (d : DState) (now : Int) : GStats × DState :=
  if d.rounds.length = 0 then
    ({ totalRounds := 0, completedRounds := 0, totalTasks := 0, completedTasks := 0
       failedTasks := 0, totalProcessedItems := 0, totalRunningTime := 0
       averageTimePerItem := none, averageTimePer100Items := none
       allRoundsCompleted := false, generatedAt := now }, d)
  else
    let r := statsPass d.rounds d now
    let totalProcessedItems := r.2.2.2.2.1
    let totalRunningTime := r.2.2.2.2.2.1
    let averageTimePerItem : Option ℚ :=
      if 0 < totalProcessedItems then some (totalRunningTime / totalProcessedItems)
      else none
    ({ totalRounds := d.rounds.length
       completedRounds := r.1
       totalTasks := r.2.1
       completedTasks := r.2.2.1
       failedTasks := r.2.2.2.1
       totalProcessedItems := totalProcessedItems
       totalRunningTime := totalRunningTime
       averageTimePerItem := averageTimePerItem
       averageTimePer100Items := averageTimePerItem.map (fun q => q * 100)
       allRoundsCompleted :=
         decide (r.1 = d.rounds.length) && decide (0 < d.rounds.length)
       generatedAt := now }, r.2.2.2.2.2.2)

/-- `Number(x.toFixed(2))`: rounding to two decimal places. -/
def roundCenti (q : ℚ) : ℚ := (⌊q * 100 + 1 / 2⌋ : ℚ) / 100

/-- `buildCompletionDigest`: the JSON string of the identifying completion
counters (progress figures rounded to two decimals). -/
def buildCompletionDigest (stats : GStats) : String :=
  toString stats.totalRounds ++ "|" ++ toString stats.completedRounds ++ "|" ++
  toString stats.totalTasks ++ "|" ++ toString stats.completedTasks ++ "|" ++
  toString stats.failedTasks ++ "|" ++
  toString (roundCenti stats.totalProcessedItems) ++ "|" ++
  toString (roundCenti stats.totalRunningTime)

/-- The digest automaton at the heart of `handleRoundsStateChange`: one step,
given the freshly computed stats and whether a webhook url is configured.
Returns the stored digest and whether the webhook fires. -/
def digestStep (prev : Option String) (stats : GStats) (url : Bool) :
    Option String × Bool :=
  if ¬ stats.allRoundsCompleted = true then (none, false)
  else
    let digest := buildCompletionDigest stats
    if prev = some digest then (prev, false)
    else (some digest, url)

/-- Run the digest automaton over a sequence of observed stats, counting
webhook firings. -/
def digestRun (prev : Option String) (l : List GStats) (url : Bool) :
    Option String × Nat :=
  match l with
  | [] => (prev, 0)
  | s :: rest =>
    let p := digestStep prev s url
    let r := digestRun p.1 rest url
    (r.1, (if p.2 then 1 else 0) + r.2)

/-- `handleRoundsStateChange`: recompute global stats, then update the stored
digest and fire the webhook on a fresh completion edge. -/
def handleRoundsStateChange (d : DState) (now : Int) (url : Bool) :
    DState × Bool :=
  let sp := computeGlobalStats d now
  let stats := sp.1
  let d1 := sp.2
  if ¬ stats.allRoundsCompleted = true then
    ({ d1 with completionDigest := none }, false)
  else
    let digest := buildCompletionDigest stats
    if d1.completionDigest = some digest then (d1, false)
    else ({ d1 with completionDigest := some digest }, url)

/-- `TaskStore.updateTaskStatus`. -/
def dUpdateTaskStatus (d : DState) (taskId : TaskId) (success : Bool)
    (msg : String) (now : Int) (url : Bool) :
    SingleRoundStore.ReportOutcome × DState × Bool :=
  match alookup d.taskIdToRoundId taskId with
  | none => (SingleRoundStore.ReportOutcome.notFound, d, false)
  | some roundId =>
    match alookup d.rounds roundId with
    | none =>
      (SingleRoundStore.ReportOutcome.notFound,
       { d with taskIdToRoundId := adel d.taskIdToRoundId taskId }, false)
    | some entry =>
      let r := entry.store.updateTaskStatus d.nodeStore taskId success msg now
      let outcome := r.1
      let entry1 := { entry with
        store := r.2.1
        isDirty := match outcome with
          | SingleRoundStore.ReportOutcome.ok _ => true
          | SingleRoundStore.ReportOutcome.notFound => entry.isDirty }
      let d1 := { d with
        rounds := aset d.rounds roundId entry1
        nodeStore := r.2.2
        taskIdToRoundId := match outcome with
          | SingleRoundStore.ReportOutcome.notFound =>
              adel d.taskIdToRoundId taskId
          | SingleRoundStore.ReportOutcome.ok _ => d.taskIdToRoundId }
      let d2 := match alookup d1.rounds roundId with
        | none => d1
        | some e2 =>
          let p := refreshEntry e2 d1.activeRoundId now
          { d1 with rounds := aset d1.rounds roundId p.1, activeRoundId := p.2 }
      let hr := handleRoundsStateChange d2 now url
      (outcome, hr.1, hr.2)

end TaskStore

/-! ### Basic lemmas about the JS collection model -/

theorem alookup_cons {α β : Type} [DecidableEq α] (p : α × β) (l : List (α × β)) (k : α) :
    alookup (p :: l) k = if p.1 = k then some p.2 else alookup l k := rfl

theorem alookup_eq_none_iff {α β : Type} [DecidableEq α] (l : List (α × β)) (k : α) :
    alookup l k = none ↔ ∀ p ∈ l, p.1 ≠ k := by
  induction l with
  | nil => simp [alookup]
  | cons p l ih =>
    rw [alookup_cons]
    by_cases h : p.1 = k <;> simp [h, ih]

theorem alookup_isSome_iff {α β : Type} [DecidableEq α] (l : List (α × β)) (k : α) :
    (alookup l k).isSome = true ↔ ∃ p ∈ l, p.1 = k := by
  induction l with
  | nil => simp [alookup]
  | cons p l ih =>
    rw [alookup_cons]
    by_cases h : p.1 = k <;> simp [h, ih]

theorem aset_cons {α β : Type} [DecidableEq α] (p : α × β) (l : List (α × β)) (k : α) (v : β) :
    aset (p :: l) k v = if p.1 = k then (k, v) :: l else p :: aset l k v := rfl

theorem alookup_aset {α β : Type} [DecidableEq α] (l : List (α × β)) (k : α) (v : β)
    (k' : α) : alookup (aset l k v) k' = if k = k' then some v else alookup l k' := by
  induction l with
  | nil => rfl
  | cons p l ih =>
    rw [aset_cons]
    by_cases h : p.1 = k
    · subst h
      rw [if_pos rfl]
      by_cases h' : p.1 = k' <;> simp [alookup_cons, h']
    · rw [if_neg h, alookup_cons]
      by_cases h' : p.1 = k'
      · have hkk : ¬ k = k' := fun he => h (h'.trans he.symm)
        rw [if_pos h', if_neg hkk, alookup_cons, if_pos h']
      · rw [if_neg h', ih, alookup_cons, if_neg h']

theorem adel_cons {α β : Type} [DecidableEq α] (p : α × β) (l : List (α × β)) (k : α) :
    adel (p :: l) k = if p.1 = k then adel l k else p :: adel l k := by
  by_cases h : p.1 = k <;> simp [adel, List.filter_cons, h]

theorem alookup_adel {α β : Type} [DecidableEq α] (l : List (α × β)) (k k' : α) :
    alookup (adel l k) k' = if k = k' then none else alookup l k' := by
  induction l with
  | nil => by_cases h : k = k' <;> simp [adel, alookup, h]
  | cons p l ih =>
    rw [adel_cons]
    by_cases h : p.1 = k
    · subst h
      rw [if_pos rfl, ih]
      by_cases h' : p.1 = k' <;> simp [alookup_cons, h']
    · rw [if_neg h, alookup_cons]
      by_cases h' : p.1 = k'
      · have hkk : ¬ k = k' := fun he => h (h'.trans he.symm)
        rw [if_pos h', if_neg hkk, alookup_cons, if_pos h']
      · rw [if_neg h', ih, alookup_cons, if_neg h']

theorem adel_eq_self_of_none {α β : Type} [DecidableEq α] {l : List (α × β)} {k : α}
    (h : alookup l k = none) : adel l k = l := by
  rw [alookup_eq_none_iff] at h
  exact List.filter_eq_self.mpr (fun p hp => by simpa using h p hp)

theorem mem_adel {α β : Type} [DecidableEq α] {l : List (α × β)} {k : α} {p : α × β} :
    p ∈ adel l k ↔ p ∈ l ∧ p.1 ≠ k := by
  simp [adel, List.mem_filter]

theorem mem_sadd {α : Type} [DecidableEq α] {s : List α} {a b : α} :
    a ∈ sadd s b ↔ a ∈ s ∨ a = b := by
  by_cases h : b ∈ s
  · simp only [sadd, if_pos h]
    exact ⟨fun h' => Or.inl h', fun h' => h'.elim id (fun he => he ▸ h)⟩
  · simp [sadd, if_neg h]

theorem nodup_sadd {α : Type} [DecidableEq α] {s : List α} (b : α) (h : s.Nodup) :
    (sadd s b).Nodup := by
  by_cases hb : b ∈ s
  · simpa [sadd, if_pos hb] using h
  · simp [sadd, if_neg hb, List.nodup_append, h, hb]

theorem mem_removeAll {α : Type} [DecidableEq α] {l : List α} {a b : α} :
    a ∈ removeAll l b ↔ a ∈ l ∧ a ≠ b := by
  simp [removeAll, List.mem_filter]

theorem removeAll_eq_self {α : Type} [DecidableEq α] {l : List α} {b : α} (h : b ∉ l) :
    removeAll l b = l :=
  List.filter_eq_self.mpr (fun a ha => by
    simp only [decide_eq_true_eq]
    exact fun he => h (he ▸ ha))

theorem nodup_removeAll {α : Type} [DecidableEq α] {l : List α} (b : α) (h : l.Nodup) :
    (removeAll l b).Nodup :=
  h.filter _

namespace SingleRoundStore

theorem findTask_cons (t : Task) (ts : List Task) (id : TaskId) :
    findTask (t :: ts) id = if t.id = id then some t else findTask ts id := rfl

theorem updTask_cons (u : Task) (ts : List Task) (id : TaskId) (f : Task → Task) :
    updTask (u :: ts) id f = (if u.id = id then f u else u) :: updTask ts id f := rfl

theorem findTask_eq_some_imp :
    ∀ {ts : List Task} {id : TaskId} {t : Task},
      findTask ts id = some t → t ∈ ts ∧ t.id = id := by
  intro ts
  induction ts with
  | nil => intro id t h; simp [findTask] at h
  | cons u ts ih =>
    intro id t h
    rw [findTask_cons] at h
    by_cases hu : u.id = id
    · rw [if_pos hu] at h
      cases h
      exact ⟨List.mem_cons_self _ _, hu⟩
    · rw [if_neg hu] at h
      obtain ⟨hm, hi⟩ := ih h
      exact ⟨List.mem_cons_of_mem _ hm, hi⟩

theorem findTask_eq_none_iff {ts : List Task} {id : TaskId} :
    findTask ts id = none ↔ ∀ t ∈ ts, t.id ≠ id := by
  induction ts with
  | nil => simp [findTask]
  | cons u ts ih =>
    rw [findTask_cons]
    by_cases hu : u.id = id <;> simp [hu, ih]

theorem findTask_isSome_iff {ts : List Task} {id : TaskId} :
    (findTask ts id).isSome = true ↔ ∃ t ∈ ts, t.id = id := by
  induction ts with
  | nil => simp [findTask]
  | cons u ts ih =>
    rw [findTask_cons]
    by_cases hu : u.id = id <;> simp [hu, ih]

theorem findTask_mem {ts : List Task} (hn : (ts.map Task.id).Nodup) {t : Task}
    (ht : t ∈ ts) : findTask ts t.id = some t := by
  induction ts with
  | nil => simp at ht
  | cons u ts ih =>
    simp only [List.map_cons, List.nodup_cons] at hn
    rcases List.mem_cons.mp ht with rfl | hmem
    · simp [findTask_cons]
    · rw [findTask_cons]
      have : u.id ≠ t.id := by
        intro he
        exact hn.1 (he ▸ List.mem_map_of_mem Task.id hmem)
      rw [if_neg this]
      exact ih hn.2 hmem

theorem mem_of_findTask_eq_some {ts : List Task} {id : TaskId} {t : Task}
    (h : findTask ts id = some t) : t ∈ ts :=
  (findTask_eq_some_imp h).1

theorem findTask_append_of_none :
    ∀ {ts : List Task}, ∀ (us : List Task) {id : TaskId},
      findTask ts id = none → findTask (ts ++ us) id = findTask us id := by
  intro ts
  induction ts with
  | nil => intro us id _; rfl
  | cons u ts ih =>
    intro us id h
    rw [findTask_cons] at h
    by_cases hu : u.id = id
    · simp [hu] at h
    · rw [List.cons_append, findTask_cons, if_neg hu]
      exact ih us (by simpa [hu] using h)

theorem findTask_append_of_some :
    ∀ {ts : List Task}, ∀ (us : List Task) {id : TaskId} {t : Task},
      findTask ts id = some t → findTask (ts ++ us) id = some t := by
  intro ts
  induction ts with
  | nil => intro us id t h; simp [findTask] at h
  | cons u ts ih =>
    intro us id t h
    rw [findTask_cons] at h
    by_cases hu : u.id = id
    · rw [if_pos hu] at h
      rw [List.cons_append, findTask_cons, if_pos hu, h]
    · rw [if_neg hu] at h
      rw [List.cons_append, findTask_cons, if_neg hu]
      exact ih us h

theorem findTask_updTask {ts : List Task} {id : TaskId} {f : Task → Task}
    (hf : ∀ t, (f t).id = t.id) (id' : TaskId) :
    findTask (updTask ts id f) id' =
      (findTask ts id').map (fun t => if t.id = id then f t else t) := by
  induction ts with
  | nil => rfl
  | cons u ts ih =>
    rw [updTask_cons]
    by_cases hu : u.id = id
    · rw [if_pos hu, findTask_cons, findTask_cons, hf u]
      by_cases hu' : u.id = id'
      · rw [if_pos hu', if_pos hu']
        simp [hu]
      · rw [if_neg hu', if_neg hu']
        exact ih
    · rw [if_neg hu, findTask_cons, findTask_cons]
      by_cases hu' : u.id = id'
      · rw [if_pos hu', if_pos hu']
        simp [hu]
      · rw [if_neg hu', if_neg hu']
        exact ih

theorem updTask_eq_self {ts : List Task} {id : TaskId} {f : Task → Task}
    (h : ∀ t ∈ ts, t.id = id → f t = t) : updTask ts id f = ts := by
  unfold updTask
  conv_rhs => rw [← List.map_id ts]
  refine List.map_congr_left (fun t ht => ?_)
  by_cases hid : t.id = id
  · simp [hid, h t ht hid]
  · simp [hid]

theorem map_id_updTask {ts : List Task} {id : TaskId} {f : Task → Task}
    (hf : ∀ t, (f t).id = t.id) :
    (updTask ts id f).map Task.id = ts.map Task.id := by
  unfold updTask
  rw [List.map_map]
  refine List.map_congr_left (fun t _ => ?_)
  by_cases hid : t.id = id <;> simp [hid, hf]

theorem mem_updTask {ts : List Task} {id : TaskId} {f : Task → Task} {t' : Task} :
    t' ∈ updTask ts id f ↔ ∃ t ∈ ts, t' = if t.id = id then f t else t := by
  simp only [updTask, List.mem_map]
  constructor
  · rintro ⟨t, ht, rfl⟩
    exact ⟨t, ht, rfl⟩
  · rintro ⟨t, ht, rfl⟩
    exact ⟨t, ht, rfl⟩

theorem length_updTask {ts : List Task} {id : TaskId} {f : Task → Task} :
    (updTask ts id f).length = ts.length := by
  simp [updTask]

theorem mem_foldl_sadd {l : List TaskId} {init : List TaskId} {a : TaskId} :
    a ∈ l.foldl (fun acc id => sadd acc id) init ↔ a ∈ init ∨ a ∈ l := by
  induction l generalizing init with
  | nil => simp
  | cons b l ih =>
    simp only [List.foldl_cons, ih, mem_sadd, List.mem_cons]
    tauto

theorem nodup_foldl_sadd {l : List TaskId} {init : List TaskId} (h : init.Nodup) :
    (l.foldl (fun acc id => sadd acc id) init).Nodup := by
  induction l generalizing init with
  | nil => simpa
  | cons b l ih => exact ih (nodup_sadd b h)

theorem mem_jsSetOf {l : List TaskId} {a : TaskId} : a ∈ jsSetOf l ↔ a ∈ l := by
  simp [jsSetOf, mem_foldl_sadd]

theorem nodup_jsSetOf (l : List TaskId) : (jsSetOf l).Nodup :=
  nodup_foldl_sadd List.nodup_nil

end SingleRoundStore

namespace SingleRoundStore

/-! ### Derived facts about the invariant -/

theorem statusOf_eq_some_iff {s : SingleRoundStore} (hn : (s.tasks.map Task.id).Nodup)
    {id : TaskId} {st : TStatus} :
    s.statusOf id = some st ↔ ∃ t ∈ s.tasks, t.id = id ∧ t.status = st := by
  constructor
  · intro h
    simp only [statusOf, taskGet, Option.map_eq_some'] at h
    obtain ⟨t, hfind, hst⟩ := h
    obtain ⟨hmem, hid⟩ := findTask_eq_some_imp hfind
    exact ⟨t, hmem, hid, hst⟩
  · rintro ⟨t, hmem, rfl, rfl⟩
    simp only [statusOf, taskGet, findTask_mem hn hmem, Option.map_some']

theorem bucket_iff {s : SingleRoundStore} {b : List TaskId} {st : TStatus}
    (hn : (s.tasks.map Task.id).Nodup) (hb : bucketOK s b st) (id : TaskId) :
    id ∈ b ↔ s.statusOf id = some st := by
  constructor
  · exact hb.1 id
  · intro h
    obtain ⟨t, hmem, hid, hst⟩ := (statusOf_eq_some_iff hn).mp h
    exact hid ▸ hb.2 t hmem hst

/-- Count of tasks by status partitions the task table. -/
theorem count_partition (ts : List Task) :
    (ts.filter (fun t => decide (t.status = TStatus.pending))).length +
      (ts.filter (fun t => decide (t.status = TStatus.processing))).length +
      (ts.filter (fun t => decide (t.status = TStatus.completed))).length +
      (ts.filter (fun t => decide (t.status = TStatus.failed))).length = ts.length := by
  induction ts with
  | nil => rfl
  | cons t ts ih =>
    cases h : t.status <;> simp [List.filter_cons, h] <;> omega

theorem bucket_length {s : SingleRoundStore} {b : List TaskId} {st : TStatus}
    (hn : (s.tasks.map Task.id).Nodup) (hset : b.Nodup) (hb : bucketOK s b st) :
    b.length = (s.tasks.filter (fun t => decide (t.status = st))).length := by
  have hperm : List.Perm b ((s.tasks.filter (fun t => decide (t.status = st))).map Task.id) := by
    apply List.perm_of_nodup_nodup_toFinset_eq hset
    · exact ((s.tasks.filter_sublist.map Task.id)).nodup hn
    · ext id
      simp only [List.mem_toFinset, List.mem_map, List.mem_filter, decide_eq_true_eq]
      rw [bucket_iff hn hb id, statusOf_eq_some_iff hn]
      constructor
      · rintro ⟨t, hmem, hid, hst⟩
        exact ⟨t, ⟨hmem, hst⟩, hid⟩
      · rintro ⟨t, ⟨hmem, hst⟩, hid⟩
        exact ⟨t, hmem, hid, hst⟩
  simpa using hperm.length_eq

end SingleRoundStore

namespace SingleRoundStore

/-! ### Branch characterizations of `updateTaskStatus` -/

theorem updateTaskStatus_not_found {s : SingleRoundStore} {ns : NodeStatisticsStore}
    {taskId : TaskId} {success : Bool} {msg : String} {now : Int}
    (h : s.taskGet taskId = none) :
    updateTaskStatus s ns taskId success msg now = (ReportOutcome.notFound, s, ns) := by
  unfold updateTaskStatus
  rw [h]

theorem detachTaskFromNode_fst (s : SingleRoundStore) (ns : NodeStatisticsStore)
    (taskId : TaskId) (x : Option String) (now : Int) :
    (s.detachTaskFromNode ns taskId x now).1 =
      { s with tasks := updTask s.tasks taskId (fun t => { t with processingNodeId := none }) } :=
  rfl

theorem updateTaskStatus_completed_stays {s : SingleRoundStore} {ns : NodeStatisticsStore}
    {taskId : TaskId} {task : Task} {msg : String} {now : Int}
    (h : s.taskGet taskId = some task) (hc : task.status = TStatus.completed) :
    updateTaskStatus s ns taskId false msg now =
      (ReportOutcome.ok TStatus.completed,
       { s with
          processingSet := s.processingSet.erase taskId
          processingStartedAt := adel s.processingStartedAt taskId
          pendingSet := s.pendingSet.erase taskId
          pendingQueue := removeAll s.pendingQueue taskId
          tasks := updTask s.tasks taskId (fun t => { t with processingNodeId := none }) },
       ns.detachTask taskId task.processingNodeId now) := by
  have h2 : taskGet { s with
      processingSet := s.processingSet.erase taskId
      processingStartedAt := adel s.processingStartedAt taskId
      pendingSet := s.pendingSet.erase taskId
      pendingQueue := removeAll s.pendingQueue taskId } taskId = some task := h
  cases hpn : task.processingNodeId <;>
    simp only [updateTaskStatus, detachTaskFromNode, h, h2, hpn, hc, Option.bind_some,
      Option.some_bind, and_self, if_true, eq_self_iff_true, true_and, and_true]

theorem updateTaskStatus_success {s : SingleRoundStore} {ns : NodeStatisticsStore}
    {taskId : TaskId} {task : Task} {msg : String} {now : Int}
    (h : s.taskGet taskId = some task) :
    updateTaskStatus s ns taskId true msg now =
      (ReportOutcome.ok TStatus.completed,
       { s with
          processingSet := s.processingSet.erase taskId
          processingStartedAt := adel s.processingStartedAt taskId
          pendingSet := s.pendingSet.erase taskId
          pendingQueue := removeAll s.pendingQueue taskId
          tasks := updTask
            (updTask s.tasks taskId (fun t => { t with processingNodeId := none })) taskId
            (fun t => { t with updatedAt := now
                               message := if msg = "" then none else some msg
                               status := TStatus.completed, failureCount := 0
                               processingStartedAt := none })
          failedSet := if taskId ∈ s.failedSet then s.failedSet.erase taskId else s.failedSet
          failedList := if taskId ∈ s.failedSet then removeAll s.failedList taskId
            else s.failedList
          completedSet := if taskId ∈ s.completedSet then s.completedSet
            else s.completedSet ++ [taskId]
          completedList := if taskId ∈ s.completedSet then s.completedList
            else taskId :: s.completedList },
       ns.detachTask taskId task.processingNodeId now) := by
  have h2 : taskGet { s with
      processingSet := s.processingSet.erase taskId
      processingStartedAt := adel s.processingStartedAt taskId
      pendingSet := s.pendingSet.erase taskId
      pendingQueue := removeAll s.pendingQueue taskId } taskId = some task := h
  cases hpn : task.processingNodeId <;>
  · simp only [updateTaskStatus, detachTaskFromNode, h, h2, hpn, Option.bind_some,
      Option.some_bind, and_false, if_false, Bool.true_eq_false, if_true, ite_false,
      ite_true, reduceIte]
    by_cases hf : taskId ∈ s.failedSet <;>
      by_cases hco : taskId ∈ s.completedSet <;> simp [hf, hco]

theorem updateTaskStatus_failure {s : SingleRoundStore} {ns : NodeStatisticsStore}
    {taskId : TaskId} {task : Task} {msg : String} {now : Int}
    (h : s.taskGet taskId = some task) (hnc : task.status ≠ TStatus.completed) :
    updateTaskStatus s ns taskId false msg now =
      (ReportOutcome.ok TStatus.failed,
       { s with
          processingSet := s.processingSet.erase taskId
          processingStartedAt := adel s.processingStartedAt taskId
          pendingSet := s.pendingSet.erase taskId
          pendingQueue := removeAll s.pendingQueue taskId
          tasks := updTask
            (updTask s.tasks taskId (fun t => { t with processingNodeId := none })) taskId
            (fun t => { t with updatedAt := now
                               message := if msg = "" then none else some msg
                               status := TStatus.failed, failureCount := t.failureCount + 1
                               processingStartedAt := none })
          failedSet := if taskId ∈ s.failedSet then s.failedSet else s.failedSet ++ [taskId]
          failedList := taskId :: removeAll s.failedList taskId },
       ns.detachTask taskId task.processingNodeId now) := by
  have h2 : taskGet { s with
      processingSet := s.processingSet.erase taskId
      processingStartedAt := adel s.processingStartedAt taskId
      pendingSet := s.pendingSet.erase taskId
      pendingQueue := removeAll s.pendingQueue taskId } taskId = some task := h
  cases hpn : task.processingNodeId <;>
  · simp only [updateTaskStatus, detachTaskFromNode, h, h2, hpn, hnc, Option.bind_some,
      Option.some_bind, false_and, and_false, if_false, if_true, ite_false, ite_true,
      reduceIte, Bool.false_eq_true]
    by_cases hf : taskId ∈ s.failedSet <;> simp [hf, hnc]

end SingleRoundStore

namespace SingleRoundStore

/-! ### Invariant preservation -/

theorem bucketOK_of_iff {s : SingleRoundStore} {b : List TaskId} {st : TStatus}
    (hn : (s.tasks.map Task.id).Nodup)
    (hiff : ∀ id, id ∈ b ↔ s.statusOf id = some st) : bucketOK s b st := by
  refine ⟨fun id hid => (hiff id).mp hid, fun t ht hst => ?_⟩
  refine (hiff t.id).mpr ?_
  simp [statusOf, taskGet, findTask_mem hn ht, hst]

theorem findTask_upd2 {ts : List Task} {taskId : TaskId} {f g : Task → Task}
    (hf : ∀ t, (f t).id = t.id) (hg : ∀ t, (g t).id = t.id) (id' : TaskId) :
    findTask (updTask (updTask ts taskId f) taskId g) id' =
      (findTask ts id').map (fun t => if t.id = taskId then g (f t) else t) := by
  rw [findTask_updTask hg, findTask_updTask hf]
  cases hft : findTask ts id' with
  | none => rfl
  | some t =>
    simp only [Option.map_some']
    by_cases ht : t.id = taskId <;> simp [ht, hf]

theorem eq_of_mem_id {ts : List Task} {taskId : TaskId} {task t : Task}
    (hn : (ts.map Task.id).Nodup) (h : findTask ts taskId = some task) (ht : t ∈ ts)
    (hid : t.id = taskId) : t = task := by
  have h2 := findTask_mem hn ht
  rw [hid, h] at h2
  exact (Option.some_inj.mp h2).symm

theorem task_clear_node_eq {t : Task} (h : t.processingNodeId = none) :
    { t with processingNodeId := none } = t := by
  cases t
  simp_all

/-- Reporting success moves the task into the completed bucket and preserves
the invariant. -/
theorem sInv_report_success {s : SingleRoundStore} {ns : NodeStatisticsStore}
    {taskId : TaskId} {task : Task} {msg : String} {now : Int}
    (hInv : sInv s) (h : s.taskGet taskId = some task) :
    sInv (s.updateTaskStatus ns taskId true msg now).2.1 := by
  obtain ⟨hids, hbound, hqN, hpsN, hprN, hcsN, hfsN, hqp, hpq, hbp, hbr, hbc, hbf,
    hsp, hpsome, hcl, hfl, hclean⟩ := hInv
  rw [updateTaskStatus_success h]
  set f : Task → Task := fun t => { t with processingNodeId := none } with hfdef
  set g : Task → Task := fun t =>
    { t with updatedAt := now, message := if msg = "" then none else some msg
             status := TStatus.completed, failureCount := 0
             processingStartedAt := none } with hgdef
  have hfid : ∀ t, (f t).id = t.id := fun t => rfl
  have hgid : ∀ t, (g t).id = t.id := fun t => rfl
  have hmap : (updTask (updTask s.tasks taskId f) taskId g).map Task.id =
      s.tasks.map Task.id := by
    rw [map_id_updTask hgid, map_id_updTask hfid]
  have hstat : ∀ id', findTask (updTask (updTask s.tasks taskId f) taskId g) id' =
      (findTask s.tasks id').map (fun t => if t.id = taskId then g (f t) else t) :=
    findTask_upd2 hfid hgid
  have hstatusNew : ∀ id', (Option.map Task.status
      (findTask (updTask (updTask s.tasks taskId f) taskId g) id')) =
      if id' = taskId then some TStatus.completed else s.statusOf id' := by
    intro id'
    rw [hstat id']
    by_cases hid : id' = taskId
    · subst hid
      rw [show findTask s.tasks id' = some task from h]
      have htid : task.id = id' := (findTask_eq_some_imp (h : findTask s.tasks id' = some task)).2
      simp [htid, hgdef]
    · cases hft : findTask s.tasks id' with
      | none => simp [hid, statusOf, taskGet, hft]
      | some t =>
        have : t.id = id' := (findTask_eq_some_imp hft).2
        simp [hid, statusOf, taskGet, hft, this]
  constructor
  · exact hmap ▸ hids
  constructor
  · intro t ht
    have : t.id ∈ s.tasks.map Task.id := hmap ▸ List.mem_map_of_mem Task.id ht
    obtain ⟨u, hu, he⟩ := List.mem_map.mp this
    exact he ▸ hbound u hu
  constructor
  · exact nodup_removeAll _ hqN
  constructor
  · exact hpsN.erase _
  constructor
  · exact hprN.erase _
  constructor
  · show (if taskId ∈ s.completedSet then s.completedSet
      else s.completedSet ++ [taskId]).Nodup
    by_cases hc : taskId ∈ s.completedSet
    · simpa [hc] using hcsN
    · simp only [hc, if_false, ite_false]
      simp [List.nodup_append, hcsN, hc]
  constructor
  · show (if taskId ∈ s.failedSet then s.failedSet.erase taskId else s.failedSet).Nodup
    by_cases hfc : taskId ∈ s.failedSet
    · simpa [hfc] using hfsN.erase taskId
    · simpa [hfc] using hfsN
  constructor
  · intro id hid
    obtain ⟨hmem, hne⟩ := mem_removeAll.mp hid
    exact (List.Nodup.mem_erase_iff hpsN).mpr ⟨hne, hqp id hmem⟩
  constructor
  · intro id hid
    obtain ⟨hne, hmem⟩ := (List.Nodup.mem_erase_iff hpsN).mp hid
    exact mem_removeAll.mpr ⟨hpq id hmem, hne⟩
  constructor
  · refine bucketOK_of_iff (by simpa using hmap ▸ hids) (fun id => ?_)
    show id ∈ s.pendingSet.erase taskId ↔ _
    rw [List.Nodup.mem_erase_iff hpsN]
    show _ ↔ Option.map Task.status (findTask _ id) = some TStatus.pending
    rw [hstatusNew id]
    by_cases hid : id = taskId
    · simp [hid]
    · simp only [hid, if_false, ite_false]
      rw [bucket_iff hids hbp id]
      simp [hid]
  constructor
  · refine bucketOK_of_iff (by simpa using hmap ▸ hids) (fun id => ?_)
    show id ∈ s.processingSet.erase taskId ↔ _
    rw [List.Nodup.mem_erase_iff hprN]
    show _ ↔ Option.map Task.status (findTask _ id) = some TStatus.processing
    rw [hstatusNew id]
    by_cases hid : id = taskId
    · simp [hid]
    · simp only [hid, if_false, ite_false]
      rw [bucket_iff hids hbr id]
      simp [hid]
  constructor
  · refine bucketOK_of_iff (by simpa using hmap ▸ hids) (fun id => ?_)
    show id ∈ (if taskId ∈ s.completedSet then s.completedSet
      else s.completedSet ++ [taskId]) ↔ _
    show _ ↔ Option.map Task.status (findTask _ id) = some TStatus.completed
    rw [hstatusNew id]
    by_cases hid : id = taskId
    · subst hid
      split <;> simp_all
    · have : id ∈ (if taskId ∈ s.completedSet then s.completedSet
          else s.completedSet ++ [taskId]) ↔ id ∈ s.completedSet := by
        split <;> simp [hid]
      rw [this]
      simp only [hid, ite_false, if_false]
      rw [bucket_iff hids hbc id]
  constructor
  · refine bucketOK_of_iff (by simpa using hmap ▸ hids) (fun id => ?_)
    show id ∈ (if taskId ∈ s.failedSet then s.failedSet.erase taskId
      else s.failedSet) ↔ _
    show _ ↔ Option.map Task.status (findTask _ id) = some TStatus.failed
    rw [hstatusNew id]
    have hmemiff : id ∈ (if taskId ∈ s.failedSet then s.failedSet.erase taskId
        else s.failedSet) ↔ id ∈ s.failedSet ∧ id ≠ taskId := by
      split
      · rw [List.Nodup.mem_erase_iff hfsN]
        tauto
      · rename_i hnot
        constructor
        · intro hm
          exact ⟨hm, fun he => hnot (he ▸ hm)⟩
        · tauto
    rw [hmemiff]
    by_cases hid : id = taskId
    · simp [hid]
    · simp only [hid, ite_false, if_false]
      rw [bucket_iff hids hbf id]
      simp [hid]
  constructor
  · intro p hp
    obtain ⟨hmem, hne⟩ := mem_adel.mp hp
    exact (List.Nodup.mem_erase_iff hprN).mpr ⟨hne, hsp p hmem⟩
  constructor
  · intro id hid
    obtain ⟨hne, hmem⟩ := (List.Nodup.mem_erase_iff hprN).mp hid
    rw [alookup_adel]
    simp only [show ¬ taskId = id from fun he => hne he.symm, if_false, ite_false]
    exact hpsome id hmem
  constructor
  · intro id hid
    by_cases hc : taskId ∈ s.completedSet
    · simp only [hc, if_true, ite_true] at hid ⊢
      exact hcl id hid
    · simp only [hc, if_false, ite_false] at hid ⊢
      rcases List.mem_cons.mp hid with rfl | hm
      · simp
      · exact List.mem_append_left _ (hcl id hm)
  constructor
  · intro id hid
    by_cases hfc : taskId ∈ s.failedSet
    · simp only [hfc, if_true, ite_true] at hid ⊢
      obtain ⟨hm, hne⟩ := mem_removeAll.mp hid
      exact (List.Nodup.mem_erase_iff hfsN).mpr ⟨hne, hfl id hm⟩
    · simp only [hfc, if_false, ite_false] at hid ⊢
      exact hfl id hid
  · intro t' ht' hst'
    have hn' : ((updTask (updTask s.tasks taskId f) taskId g).map Task.id).Nodup :=
      hmap ▸ hids
    have hft' := findTask_mem hn' ht'
    rw [hstat] at hft'
    obtain ⟨t, hfeq, hteq⟩ := Option.map_eq_some'.mp hft'
    rw [← hteq] at hst' ⊢
    by_cases hid : t.id = taskId
    · simp [hid, hfdef, hgdef]
    · simp only [hid, ite_false, if_false] at hst' ⊢
      exact hclean t (mem_of_findTask_eq_some hfeq) hst' 

end SingleRoundStore

namespace SingleRoundStore

/-- A failure report on an already-completed task leaves the round store
entirely unchanged (the pre-return deletions are all no-ops). -/
theorem updateTaskStatus_completed_noop {s : SingleRoundStore} {ns : NodeStatisticsStore}
    {taskId : TaskId} {task : Task} {msg : String} {now : Int}
    (hInv : sInv s) (h : s.taskGet taskId = some task)
    (hc : task.status = TStatus.completed) :
    s.updateTaskStatus ns taskId false msg now =
      (ReportOutcome.ok TStatus.completed, s,
       ns.detachTask taskId task.processingNodeId now) := by
  obtain ⟨hids, hbound, hqN, hpsN, hprN, hcsN, hfsN, hqp, hpq, hbp, hbr, hbc, hbf,
    hsp, hpsome, hcl, hfl, hclean⟩ := hInv
  rw [updateTaskStatus_completed_stays h hc]
  have hfind : findTask s.tasks taskId = some task := h
  have hstat : s.statusOf taskId = some TStatus.completed := by
    simp only [statusOf, taskGet, hfind, Option.map_some', hc]
  have hnp : taskId ∉ s.pendingSet := by
    intro hm
    have := (bucket_iff hids hbp taskId).mp hm
    rw [hstat] at this
    cases this
  have hnpr : taskId ∉ s.processingSet := by
    intro hm
    have := (bucket_iff hids hbr taskId).mp hm
    rw [hstat] at this
    cases this
  have hnq : taskId ∉ s.pendingQueue := fun hm => hnp (hqp _ hm)
  have e1 : s.processingSet.erase taskId = s.processingSet := List.erase_of_not_mem hnpr
  have e2 : adel s.processingStartedAt taskId = s.processingStartedAt := by
    apply adel_eq_self_of_none
    rw [alookup_eq_none_iff]
    intro p hp he
    exact hnpr (he ▸ hsp p hp)
  have e3 : s.pendingSet.erase taskId = s.pendingSet := List.erase_of_not_mem hnp
  have e4 : removeAll s.pendingQueue taskId = s.pendingQueue := removeAll_eq_self hnq
  have e5 : updTask s.tasks taskId (fun t => { t with processingNodeId := none }) = s.tasks := by
    apply updTask_eq_self
    intro t ht hid
    have he : t = task := eq_of_mem_id hids h ht hid
    subst he
    exact task_clear_node_eq (hclean t ht (by rw [hc]; intro hx; cases hx)).2
  rw [e1, e2, e3, e4, e5]

/-- Reporting failure on a non-completed task moves it into the failed
bucket and preserves the invariant. -/
theorem sInv_report_failure {s : SingleRoundStore} {ns : NodeStatisticsStore}
    {taskId : TaskId} {task : Task} {msg : String} {now : Int}
    (hInv : sInv s) (h : s.taskGet taskId = some task)
    (hnc : task.status ≠ TStatus.completed) :
    sInv (s.updateTaskStatus ns taskId false msg now).2.1 := by
  obtain ⟨hids, hbound, hqN, hpsN, hprN, hcsN, hfsN, hqp, hpq, hbp, hbr, hbc, hbf,
    hsp, hpsome, hcl, hfl, hclean⟩ := hInv
  rw [updateTaskStatus_failure h hnc]
  set f : Task → Task := fun t => { t with processingNodeId := none } with hfdef
  set g : Task → Task := fun t =>
    { t with updatedAt := now, message := if msg = "" then none else some msg
             status := TStatus.failed, failureCount := t.failureCount + 1
             processingStartedAt := none } with hgdef
  have hfid : ∀ t, (f t).id = t.id := fun t => rfl
  have hgid : ∀ t, (g t).id = t.id := fun t => rfl
  have hmap : (updTask (updTask s.tasks taskId f) taskId g).map Task.id =
      s.tasks.map Task.id := by
    rw [map_id_updTask hgid, map_id_updTask hfid]
  have hstat : ∀ id', findTask (updTask (updTask s.tasks taskId f) taskId g) id' =
      (findTask s.tasks id').map (fun t => if t.id = taskId then g (f t) else t) :=
    findTask_upd2 hfid hgid
  have hstatusNew : ∀ id', (Option.map Task.status
      (findTask (updTask (updTask s.tasks taskId f) taskId g) id')) =
      if id' = taskId then some TStatus.failed else s.statusOf id' := by
    intro id'
    rw [hstat id']
    by_cases hid : id' = taskId
    · subst hid
      rw [show findTask s.tasks id' = some task from h]
      have htid : task.id = id' := (findTask_eq_some_imp (h : findTask s.tasks id' = some task)).2
      simp [htid, hgdef]
    · cases hft : findTask s.tasks id' with
      | none => simp [hid, statusOf, taskGet, hft]
      | some t =>
        have : t.id = id' := (findTask_eq_some_imp hft).2
        simp [hid, statusOf, taskGet, hft, this]
  constructor
  · exact hmap ▸ hids
  constructor
  · intro t ht
    have : t.id ∈ s.tasks.map Task.id := hmap ▸ List.mem_map_of_mem Task.id ht
    obtain ⟨u, hu, he⟩ := List.mem_map.mp this
    exact he ▸ hbound u hu
  constructor
  · exact nodup_removeAll _ hqN
  constructor
  · exact hpsN.erase _
  constructor
  · exact hprN.erase _
  constructor
  · exact hcsN
  constructor
  · show (if taskId ∈ s.failedSet then s.failedSet else s.failedSet ++ [taskId]).Nodup
    by_cases hfc : taskId ∈ s.failedSet
    · simpa [hfc] using hfsN
    · simp only [hfc, if_false, ite_false]
      simp [List.nodup_append, hfsN, hfc]
  constructor
  · intro id hid
    obtain ⟨hmem, hne⟩ := mem_removeAll.mp hid
    exact (List.Nodup.mem_erase_iff hpsN).mpr ⟨hne, hqp id hmem⟩
  constructor
  · intro id hid
    obtain ⟨hne, hmem⟩ := (List.Nodup.mem_erase_iff hpsN).mp hid
    exact mem_removeAll.mpr ⟨hpq id hmem, hne⟩
  constructor
  · refine bucketOK_of_iff (by simpa using hmap ▸ hids) (fun id => ?_)
    show id ∈ s.pendingSet.erase taskId ↔ _
    rw [List.Nodup.mem_erase_iff hpsN]
    show _ ↔ Option.map Task.status (findTask _ id) = some TStatus.pending
    rw [hstatusNew id]
    by_cases hid : id = taskId
    · simp [hid]
    · simp only [hid, if_false, ite_false]
      rw [bucket_iff hids hbp id]
      simp [hid]
  constructor
  · refine bucketOK_of_iff (by simpa using hmap ▸ hids) (fun id => ?_)
    show id ∈ s.processingSet.erase taskId ↔ _
    rw [List.Nodup.mem_erase_iff hprN]
    show _ ↔ Option.map Task.status (findTask _ id) = some TStatus.processing
    rw [hstatusNew id]
    by_cases hid : id = taskId
    · simp [hid]
    · simp only [hid, if_false, ite_false]
      rw [bucket_iff hids hbr id]
      simp [hid]
  constructor
  · refine bucketOK_of_iff (by simpa using hmap ▸ hids) (fun id => ?_)
    show id ∈ s.completedSet ↔ _
    show _ ↔ Option.map Task.status (findTask _ id) = some TStatus.completed
    rw [hstatusNew id]
    by_cases hid : id = taskId
    · subst hid
      have hnotin : id ∉ s.completedSet := by
        intro hm
        have h2 := (bucket_iff hids hbc id).mp hm
        have hfind : findTask s.tasks id = some task := h
        rw [show s.statusOf id = some task.status from by
          simp only [statusOf, taskGet, hfind, Option.map_some']] at h2
        exact hnc (Option.some_inj.mp h2)
      simp [hnotin]
    · simp only [hid, if_false, ite_false]
      rw [bucket_iff hids hbc id]
  constructor
  · refine bucketOK_of_iff (by simpa using hmap ▸ hids) (fun id => ?_)
    show id ∈ (if taskId ∈ s.failedSet then s.failedSet
      else s.failedSet ++ [taskId]) ↔ _
    show _ ↔ Option.map Task.status (findTask _ id) = some TStatus.failed
    rw [hstatusNew id]
    have hmemiff : id ∈ (if taskId ∈ s.failedSet then s.failedSet
        else s.failedSet ++ [taskId]) ↔ id ∈ s.failedSet ∨ id = taskId := by
      by_cases hfc : taskId ∈ s.failedSet
      · simp only [hfc, if_true, ite_true]
        constructor
        · exact fun hm => Or.inl hm
        · rintro (hm | rfl)
          · exact hm
          · exact hfc
      · simp [hfc]
    rw [hmemiff]
    by_cases hid : id = taskId
    · simp [hid]
    · simp only [hid, if_false, ite_false, or_false]
      rw [bucket_iff hids hbf id]
  constructor
  · intro p hp
    obtain ⟨hmem, hne⟩ := mem_adel.mp hp
    exact (List.Nodup.mem_erase_iff hprN).mpr ⟨hne, hsp p hmem⟩
  constructor
  · intro id hid
    obtain ⟨hne, hmem⟩ := (List.Nodup.mem_erase_iff hprN).mp hid
    rw [alookup_adel]
    simp only [show ¬ taskId = id from fun he => hne he.symm, if_false, ite_false]
    exact hpsome id hmem
  constructor
  · exact hcl
  constructor
  · intro id hid
    show id ∈ (if taskId ∈ s.failedSet then s.failedSet else s.failedSet ++ [taskId])
    rcases List.mem_cons.mp hid with rfl | hm
    · by_cases hfc : id ∈ s.failedSet <;> simp [hfc]
    · obtain ⟨hmem, hne⟩ := mem_removeAll.mp hm
      by_cases hfc : taskId ∈ s.failedSet <;> simp [hfc, hfl id hmem]
  · intro t' ht' hst'
    have hn' : ((updTask (updTask s.tasks taskId f) taskId g).map Task.id).Nodup :=
      hmap ▸ hids
    have hft' := findTask_mem hn' ht'
    rw [hstat] at hft'
    obtain ⟨t, hfeq, hteq⟩ := Option.map_eq_some'.mp hft'
    rw [← hteq] at hst' ⊢
    by_cases hid : t.id = taskId
    · simp [hid, hfdef, hgdef]
    · simp only [hid, ite_false, if_false] at hst' ⊢
      exact hclean t (mem_of_findTask_eq_some hfeq) hst'

/-- `updateTaskStatus` preserves the invariant. -/
theorem sInv_updateTaskStatus {s : SingleRoundStore} {ns : NodeStatisticsStore}
    {taskId : TaskId} {success : Bool} {msg : String} {now : Int} (hInv : sInv s) :
    sInv (s.updateTaskStatus ns taskId success msg now).2.1 := by
  cases hfind : s.taskGet taskId with
  | none => rw [updateTaskStatus_not_found hfind]; exact hInv
  | some task =>
    cases success with
    | true => exact sInv_report_success hInv hfind
    | false =>
      by_cases hc : task.status = TStatus.completed
      · rw [updateTaskStatus_completed_noop hInv hfind hc]
        exact hInv
      · exact sInv_report_failure hInv hfind hc

end SingleRoundStore

namespace SingleRoundStore

/-! ### Characterization of the sweep step -/

theorem findTask_upd3 {ts : List Task} {i : TaskId} {f g k : Task → Task}
    (hf : ∀ t, (f t).id = t.id) (hg : ∀ t, (g t).id = t.id) (hk : ∀ t, (k t).id = t.id)
    (id' : TaskId) :
    findTask (updTask (updTask (updTask ts i f) i g) i k) id' =
      (findTask ts id').map (fun t => if t.id = i then k (g (f t)) else t) := by
  rw [findTask_updTask hk, findTask_upd2 hf hg]
  cases hft : findTask ts id' with
  | none => rfl
  | some t =>
    simp only [Option.map_some']
    by_cases ht : t.id = i <;> simp [ht, hf, hg]

theorem sweepStep_no_task {s : SingleRoundStore} {ns : NodeStatisticsStore} {n : Nat}
    {safeT now : Int} {taskId : TaskId} (h : s.taskGet taskId = none) :
    sweepStep (s, ns, n) safeT now taskId = (s, ns, n) := by
  simp only [sweepStep, h]

theorem sweepStep_no_start {s : SingleRoundStore} {ns : NodeStatisticsStore} {n : Nat}
    {safeT now : Int} {taskId : TaskId} {task : Task} (h : s.taskGet taskId = some task)
    (h2 : alookup s.processingStartedAt taskId = none) :
    sweepStep (s, ns, n) safeT now taskId = (s, ns, n) := by
  simp only [sweepStep, h, h2]

theorem sweepStep_zero_start {s : SingleRoundStore} {ns : NodeStatisticsStore} {n : Nat}
    {safeT now : Int} {taskId : TaskId} {task : Task} (h : s.taskGet taskId = some task)
    (h2 : alookup s.processingStartedAt taskId = some 0) :
    sweepStep (s, ns, n) safeT now taskId = (s, ns, n) := by
  simp only [sweepStep, h, h2]
  simp

theorem sweepStep_in_time {s : SingleRoundStore} {ns : NodeStatisticsStore} {n : Nat}
    {safeT now : Int} {taskId : TaskId} {task : Task} {startedAt : Int}
    (h : s.taskGet taskId = some task)
    (h2 : alookup s.processingStartedAt taskId = some startedAt) (hz : startedAt ≠ 0)
    (ht : 0 < safeT ∧ now - startedAt ≤ safeT) :
    sweepStep (s, ns, n) safeT now taskId = (s, ns, n) := by
  simp only [sweepStep, h, h2, if_neg hz, if_pos ht]

theorem sweepStep_retry {s : SingleRoundStore} {ns : NodeStatisticsStore} {n : Nat}
    {safeT now : Int} {taskId : TaskId} {task : Task} {startedAt : Int}
    (h : s.taskGet taskId = some task)
    (h2 : alookup s.processingStartedAt taskId = some startedAt) (hz : startedAt ≠ 0)
    (ht : ¬ (0 < safeT ∧ now - startedAt ≤ safeT)) (hfc : task.failureCount < 1) :
    sweepStep (s, ns, n) safeT now taskId =
      (enqueuePending
        { s with
          tasks := updTask (updTask (updTask s.tasks taskId
              (fun t => { t with processingNodeId := none })) taskId
              (fun t => { t with processingStartedAt := none, updatedAt := now })) taskId
              (fun t => { t with failureCount := task.failureCount + 1
                                 status := TStatus.pending
                                 message := some (retryMessage (task.failureCount + 1)) })
          processingSet := s.processingSet.erase taskId
          processingStartedAt := adel s.processingStartedAt taskId
          pendingSet := s.pendingSet.erase taskId
          pendingQueue := removeAll s.pendingQueue taskId
          failedSet := s.failedSet.erase taskId
          failedList := removeAll s.failedList taskId } taskId,
       ns.detachTask taskId task.processingNodeId now, n + 1) := by
  have hpr : taskGet { s with
      processingSet := s.processingSet.erase taskId
      processingStartedAt := adel s.processingStartedAt taskId
      pendingSet := s.pendingSet.erase taskId
      pendingQueue := removeAll s.pendingQueue taskId } taskId = some task := h
  cases hpn : task.processingNodeId <;>
    simp only [sweepStep, detachTaskFromNode, h, h2, hpr, hpn, if_neg hz, if_neg ht,
      if_pos hfc, Option.bind_some, Option.some_bind]

theorem sweepStep_fail {s : SingleRoundStore} {ns : NodeStatisticsStore} {n : Nat}
    {safeT now : Int} {taskId : TaskId} {task : Task} {startedAt : Int}
    (h : s.taskGet taskId = some task)
    (h2 : alookup s.processingStartedAt taskId = some startedAt) (hz : startedAt ≠ 0)
    (ht : ¬ (0 < safeT ∧ now - startedAt ≤ safeT)) (hfc : ¬ task.failureCount < 1) :
    sweepStep (s, ns, n) safeT now taskId =
      ({ s with
          tasks := updTask (updTask (updTask s.tasks taskId
              (fun t => { t with processingNodeId := none })) taskId
              (fun t => { t with processingStartedAt := none, updatedAt := now })) taskId
              (fun t => { t with failureCount := t.failureCount + 1
                                 status := TStatus.failed
                                 message := some maxRetriesMessage })
          processingSet := s.processingSet.erase taskId
          processingStartedAt := adel s.processingStartedAt taskId
          pendingSet := s.pendingSet.erase taskId
          pendingQueue := removeAll s.pendingQueue taskId
          failedSet := if taskId ∈ s.failedSet then s.failedSet else s.failedSet ++ [taskId]
          failedList := taskId :: removeAll s.failedList taskId },
       ns.detachTask taskId task.processingNodeId now, n + 1) := by
  have hpr : taskGet { s with
      processingSet := s.processingSet.erase taskId
      processingStartedAt := adel s.processingStartedAt taskId
      pendingSet := s.pendingSet.erase taskId
      pendingQueue := removeAll s.pendingQueue taskId } taskId = some task := h
  cases hpn : task.processingNodeId <;>
  · simp only [sweepStep, detachTaskFromNode, h, h2, hpr, hpn, if_neg hz, if_neg ht,
      if_neg hfc, Option.bind_some, Option.some_bind]
    by_cases hfs : taskId ∈ s.failedSet <;> simp [hfs]

end SingleRoundStore

namespace SingleRoundStore

theorem enqueuePending_not_mem {s : SingleRoundStore} {id : TaskId}
    (h : id ∉ s.pendingSet) :
    s.enqueuePending id =
      { s with pendingSet := s.pendingSet ++ [id], pendingQueue := s.pendingQueue ++ [id] } := by
  simp [enqueuePending, h]

theorem enqueuePending_mem {s : SingleRoundStore} {id : TaskId} (h : id ∈ s.pendingSet) :
    s.enqueuePending id = s := by
  simp [enqueuePending, h]

/-- The sweep step preserves the invariant, whatever task id is handled. -/
theorem sInv_sweepStep {s : SingleRoundStore} {ns : NodeStatisticsStore} {n : Nat}
    {safeT now : Int} {taskId : TaskId} (hInv : sInv s) :
    sInv (sweepStep (s, ns, n) safeT now taskId).1 := by
  cases hfind : s.taskGet taskId with
  | none => rw [sweepStep_no_task hfind]; exact hInv
  | some task =>
  cases hlook : alookup s.processingStartedAt taskId with
  | none => rw [sweepStep_no_start hfind hlook]; exact hInv
  | some startedAt =>
  by_cases hz : startedAt = 0
  · subst hz
    rw [sweepStep_zero_start hfind hlook]
    exact hInv
  by_cases htime : 0 < safeT ∧ now - startedAt ≤ safeT
  · rw [sweepStep_in_time hfind hlook hz htime]
    exact hInv
  obtain ⟨hids, hbound, hqN, hpsN, hprN, hcsN, hfsN, hqp, hpq, hbp, hbr, hbc, hbf,
    hsp, hpsome, hcl, hfl, hclean⟩ := hInv
  have hfind' : findTask s.tasks taskId = some task := hfind
  have hproc : taskId ∈ s.processingSet := by
    have : (alookup s.processingStartedAt taskId).isSome = true := by rw [hlook]; rfl
    obtain ⟨p, hp, hpk⟩ := (alookup_isSome_iff _ _).mp this
    exact hpk ▸ hsp p hp
  have hstpr : task.status = TStatus.processing := by
    have := (bucket_iff hids hbr taskId).mp hproc
    simp only [statusOf, taskGet, hfind', Option.map_some', Option.some_inj] at this
    exact this
  have hnp : taskId ∉ s.pendingSet := by
    intro hm
    have := (bucket_iff hids hbp taskId).mp hm
    simp only [statusOf, taskGet, hfind', Option.map_some', Option.some_inj, hstpr] at this
    cases this
  have hnc : taskId ∉ s.completedSet := by
    intro hm
    have := (bucket_iff hids hbc taskId).mp hm
    simp only [statusOf, taskGet, hfind', Option.map_some', Option.some_inj, hstpr] at this
    cases this
  have hnf : taskId ∉ s.failedSet := by
    intro hm
    have := (bucket_iff hids hbf taskId).mp hm
    simp only [statusOf, taskGet, hfind', Option.map_some', Option.some_inj, hstpr] at this
    cases this
  set f : Task → Task := fun t => { t with processingNodeId := none } with hfdef
  set g : Task → Task := fun t =>
    { t with processingStartedAt := none, updatedAt := now } with hgdef
  have hfid : ∀ t, (f t).id = t.id := fun t => rfl
  have hgid : ∀ t, (g t).id = t.id := fun t => rfl
  by_cases hfc : task.failureCount < 1
  · rw [sweepStep_retry hfind hlook hz htime hfc]
    set k : Task → Task := fun t =>
      { t with failureCount := task.failureCount + 1, status := TStatus.pending
               message := some (retryMessage (task.failureCount + 1)) } with hkdef
    have hkid : ∀ t, (k t).id = t.id := fun t => rfl
    have hmap : (updTask (updTask (updTask s.tasks taskId f) taskId g) taskId k).map Task.id =
        s.tasks.map Task.id := by
      rw [map_id_updTask hkid, map_id_updTask hgid, map_id_updTask hfid]
    have hstat := @findTask_upd3 s.tasks taskId f g k hfid hgid hkid
    have hstatusNew : ∀ id', (Option.map Task.status
        (findTask (updTask (updTask (updTask s.tasks taskId f) taskId g) taskId k) id')) =
        if id' = taskId then some TStatus.pending else s.statusOf id' := by
      intro id'
      rw [hstat id']
      by_cases hid : id' = taskId
      · subst hid
        rw [hfind']
        have htid : task.id = id' := (findTask_eq_some_imp hfind').2
        simp [htid, hkdef]
      · cases hft : findTask s.tasks id' with
        | none => simp [hid, statusOf, taskGet, hft]
        | some t =>
          have : t.id = id' := (findTask_eq_some_imp hft).2
          simp [hid, statusOf, taskGet, hft, this]
    have hnp1 : taskId ∉ s.pendingSet.erase taskId := fun hm => hnp (List.mem_of_mem_erase hm)
    rw [show enqueuePending { s with
        tasks := updTask (updTask (updTask s.tasks taskId f) taskId g) taskId k
        processingSet := s.processingSet.erase taskId
        processingStartedAt := adel s.processingStartedAt taskId
        pendingSet := s.pendingSet.erase taskId
        pendingQueue := removeAll s.pendingQueue taskId
        failedSet := s.failedSet.erase taskId
        failedList := removeAll s.failedList taskId } taskId = _ from
      enqueuePending_not_mem hnp1]
    constructor
    · exact hmap ▸ hids
    constructor
    · intro t ht
      have : t.id ∈ s.tasks.map Task.id := hmap ▸ List.mem_map_of_mem Task.id ht
      obtain ⟨u, hu, he⟩ := List.mem_map.mp this
      exact he ▸ hbound u hu
    constructor
    · refine List.Nodup.append (nodup_removeAll _ hqN) (List.nodup_singleton _) ?_
      intro a ha hb
      simp only [List.mem_singleton] at hb
      subst hb
      exact (mem_removeAll.mp ha).2 rfl
    constructor
    · refine List.Nodup.append (hpsN.erase _) (List.nodup_singleton _) ?_
      intro a ha hb
      simp only [List.mem_singleton] at hb
      subst hb
      exact hnp1 ha
    constructor
    · exact hprN.erase _
    constructor
    · exact hcsN
    constructor
    · exact hfsN.erase _
    constructor
    · intro id hid
      rcases List.mem_append.mp hid with hm | hm
      · obtain ⟨hmem, hne⟩ := mem_removeAll.mp hm
        exact List.mem_append_left _ ((List.Nodup.mem_erase_iff hpsN).mpr ⟨hne, hqp id hmem⟩)
      · exact List.mem_append_right _ hm
    constructor
    · intro id hid
      rcases List.mem_append.mp hid with hm | hm
      · obtain ⟨hne, hmem⟩ := (List.Nodup.mem_erase_iff hpsN).mp hm
        exact List.mem_append_left _ (mem_removeAll.mpr ⟨hpq id hmem, hne⟩)
      · exact List.mem_append_right _ hm
    constructor
    · refine bucketOK_of_iff (by simpa using hmap ▸ hids) (fun id => ?_)
      show id ∈ s.pendingSet.erase taskId ++ [taskId] ↔ _
      show _ ↔ Option.map Task.status (findTask _ id) = some TStatus.pending
      rw [hstatusNew id]
      by_cases hid : id = taskId
      · simp [hid]
      · rw [List.mem_append]
        simp only [List.mem_singleton, hid, or_false, if_false, ite_false]
        rw [List.Nodup.mem_erase_iff hpsN]
        simp only [hid, ne_eq, not_false_iff, true_and]
        rw [bucket_iff hids hbp id]
    constructor
    · refine bucketOK_of_iff (by simpa using hmap ▸ hids) (fun id => ?_)
      show id ∈ s.processingSet.erase taskId ↔ _
      rw [List.Nodup.mem_erase_iff hprN]
      show _ ↔ Option.map Task.status (findTask _ id) = some TStatus.processing
      rw [hstatusNew id]
      by_cases hid : id = taskId
      · simp [hid]
      · simp only [hid, if_false, ite_false]
        rw [bucket_iff hids hbr id]
        simp [hid]
    constructor
    · refine bucketOK_of_iff (by simpa using hmap ▸ hids) (fun id => ?_)
      show id ∈ s.completedSet ↔ _
      show _ ↔ Option.map Task.status (findTask _ id) = some TStatus.completed
      rw [hstatusNew id]
      by_cases hid : id = taskId
      · subst hid
        simp [hnc]
      · simp only [hid, if_false, ite_false]
        rw [bucket_iff hids hbc id]
    constructor
    · refine bucketOK_of_iff (by simpa using hmap ▸ hids) (fun id => ?_)
      show id ∈ s.failedSet.erase taskId ↔ _
      rw [List.Nodup.mem_erase_iff hfsN]
      show _ ↔ Option.map Task.status (findTask _ id) = some TStatus.failed
      rw [hstatusNew id]
      by_cases hid : id = taskId
      · simp [hid]
      · simp only [hid, if_false, ite_false]
        rw [bucket_iff hids hbf id]
        simp [hid]
    constructor
    · intro p hp
      obtain ⟨hmem, hne⟩ := mem_adel.mp hp
      exact (List.Nodup.mem_erase_iff hprN).mpr ⟨hne, hsp p hmem⟩
    constructor
    · intro id hid
      obtain ⟨hne, hmem⟩ := (List.Nodup.mem_erase_iff hprN).mp hid
      rw [alookup_adel]
      simp only [show ¬ taskId = id from fun he => hne he.symm, if_false, ite_false]
      exact hpsome id hmem
    constructor
    · exact hcl
    constructor
    · intro id hid
      obtain ⟨hmem, hne⟩ := mem_removeAll.mp hid
      exact (List.Nodup.mem_erase_iff hfsN).mpr ⟨hne, hfl id hmem⟩
    · intro t' ht' hst'
      have hn' : ((updTask (updTask (updTask s.tasks taskId f) taskId g) taskId k).map
          Task.id).Nodup := hmap ▸ hids
      have hft' := findTask_mem hn' ht'
      rw [hstat] at hft'
      obtain ⟨t, hfeq, hteq⟩ := Option.map_eq_some'.mp hft'
      rw [← hteq] at hst' ⊢
      by_cases hid : t.id = taskId
      · simp [hid, hfdef, hgdef, hkdef]
      · simp only [hid, ite_false, if_false] at hst' ⊢
        exact hclean t (mem_of_findTask_eq_some hfeq) hst'
  · rw [sweepStep_fail hfind hlook hz htime hfc]
    set k : Task → Task := fun t =>
      { t with failureCount := t.failureCount + 1, status := TStatus.failed
               message := some maxRetriesMessage } with hkdef
    have hkid : ∀ t, (k t).id = t.id := fun t => rfl
    have hmap : (updTask (updTask (updTask s.tasks taskId f) taskId g) taskId k).map Task.id =
        s.tasks.map Task.id := by
      rw [map_id_updTask hkid, map_id_updTask hgid, map_id_updTask hfid]
    have hstat := @findTask_upd3 s.tasks taskId f g k hfid hgid hkid
    have hstatusNew : ∀ id', (Option.map Task.status
        (findTask (updTask (updTask (updTask s.tasks taskId f) taskId g) taskId k) id')) =
        if id' = taskId then some TStatus.failed else s.statusOf id' := by
      intro id'
      rw [hstat id']
      by_cases hid : id' = taskId
      · subst hid
        rw [hfind']
        have htid : task.id = id' := (findTask_eq_some_imp hfind').2
        simp [htid, hkdef]
      · cases hft : findTask s.tasks id' with
        | none => simp [hid, statusOf, taskGet, hft]
        | some t =>
          have : t.id = id' := (findTask_eq_some_imp hft).2
          simp [hid, statusOf, taskGet, hft, this]
    constructor
    · exact hmap ▸ hids
    constructor
    · intro t ht
      have : t.id ∈ s.tasks.map Task.id := hmap ▸ List.mem_map_of_mem Task.id ht
      obtain ⟨u, hu, he⟩ := List.mem_map.mp this
      exact he ▸ hbound u hu
    constructor
    · exact nodup_removeAll _ hqN
    constructor
    · exact hpsN.erase _
    constructor
    · exact hprN.erase _
    constructor
    · exact hcsN
    constructor
    · show (if taskId ∈ s.failedSet then s.failedSet else s.failedSet ++ [taskId]).Nodup
      simp only [hnf, if_false, ite_false]
      simp [List.nodup_append, hfsN, hnf]
    constructor
    · intro id hid
      obtain ⟨hmem, hne⟩ := mem_removeAll.mp hid
      exact (List.Nodup.mem_erase_iff hpsN).mpr ⟨hne, hqp id hmem⟩
    constructor
    · intro id hid
      obtain ⟨hne, hmem⟩ := (List.Nodup.mem_erase_iff hpsN).mp hid
      exact mem_removeAll.mpr ⟨hpq id hmem, hne⟩
    constructor
    · refine bucketOK_of_iff (by simpa using hmap ▸ hids) (fun id => ?_)
      show id ∈ s.pendingSet.erase taskId ↔ _
      rw [List.Nodup.mem_erase_iff hpsN]
      show _ ↔ Option.map Task.status (findTask _ id) = some TStatus.pending
      rw [hstatusNew id]
      by_cases hid : id = taskId
      · simp [hid]
      · simp only [hid, if_false, ite_false]
        rw [bucket_iff hids hbp id]
        simp [hid]
    constructor
    · refine bucketOK_of_iff (by simpa using hmap ▸ hids) (fun id => ?_)
      show id ∈ s.processingSet.erase taskId ↔ _
      rw [List.Nodup.mem_erase_iff hprN]
      show _ ↔ Option.map Task.status (findTask _ id) = some TStatus.processing
      rw [hstatusNew id]
      by_cases hid : id = taskId
      · simp [hid]
      · simp only [hid, if_false, ite_false]
        rw [bucket_iff hids hbr id]
        simp [hid]
    constructor
    · refine bucketOK_of_iff (by simpa using hmap ▸ hids) (fun id => ?_)
      show id ∈ s.completedSet ↔ _
      show _ ↔ Option.map Task.status (findTask _ id) = some TStatus.completed
      rw [hstatusNew id]
      by_cases hid : id = taskId
      · subst hid
        simp [hnc]
      · simp only [hid, if_false, ite_false]
        rw [bucket_iff hids hbc id]
    constructor
    · refine bucketOK_of_iff (by simpa using hmap ▸ hids) (fun id => ?_)
      show id ∈ (if taskId ∈ s.failedSet then s.failedSet
        else s.failedSet ++ [taskId]) ↔ _
      show _ ↔ Option.map Task.status (findTask _ id) = some TStatus.failed
      rw [hstatusNew id]
      simp only [hnf, if_false, ite_false]
      rw [List.mem_append]
      by_cases hid : id = taskId
      · simp [hid]
      · simp only [List.mem_singleton, hid, or_false, if_false, ite_false]
        rw [bucket_iff hids hbf id]
    constructor
    · intro p hp
      obtain ⟨hmem, hne⟩ := mem_adel.mp hp
      exact (List.Nodup.mem_erase_iff hprN).mpr ⟨hne, hsp p hmem⟩
    constructor
    · intro id hid
      obtain ⟨hne, hmem⟩ := (List.Nodup.mem_erase_iff hprN).mp hid
      rw [alookup_adel]
      simp only [show ¬ taskId = id from fun he => hne he.symm, if_false, ite_false]
      exact hpsome id hmem
    constructor
    · exact hcl
    constructor
    · intro id hid
      show id ∈ (if taskId ∈ s.failedSet then s.failedSet else s.failedSet ++ [taskId])
      simp only [hnf, if_false, ite_false]
      rcases List.mem_cons.mp hid with rfl | hm
      · exact List.mem_append_right _ (List.mem_singleton_self _)
      · obtain ⟨hmem, hne⟩ := mem_removeAll.mp hm
        exact List.mem_append_left _ (hfl id hmem)
    · intro t' ht' hst'
      have hn' : ((updTask (updTask (updTask s.tasks taskId f) taskId g) taskId k).map
          Task.id).Nodup := hmap ▸ hids
      have hft' := findTask_mem hn' ht'
      rw [hstat] at hft'
      obtain ⟨t, hfeq, hteq⟩ := Option.map_eq_some'.mp hft'
      rw [← hteq] at hst' ⊢
      by_cases hid : t.id = taskId
      · simp [hid, hfdef, hgdef, hkdef]
      · simp only [hid, ite_false, if_false] at hst' ⊢
        exact hclean t (mem_of_findTask_eq_some hfeq) hst'

end SingleRoundStore

namespace SingleRoundStore

theorem sInv_sweepFold {safeT now : Int} {L : List TaskId}
    {x : SingleRoundStore × NodeStatisticsStore × Nat} (hInv : sInv x.1) :
    sInv ((L.foldl (fun acc id => sweepStep acc safeT now id) x)).1 := by
  induction L generalizing x with
  | nil => exact hInv
  | cons a L ih =>
    refine @ih (sweepStep x safeT now a) ?_
    obtain ⟨s, ns, n⟩ := x
    exact sInv_sweepStep hInv

/-- The sweep preserves the invariant. -/
theorem sInv_markTimedOutTasksAsFailed {s : SingleRoundStore} {ns : NodeStatisticsStore}
    {timeoutMs now : Int} (hInv : sInv s) :
    sInv (s.markTimedOutTasksAsFailed ns timeoutMs now).1 := by
  unfold markTimedOutTasksAsFailed
  exact sInv_sweepFold hInv

theorem enqueuePending_tasks (s : SingleRoundStore) (i : TaskId) :
    (s.enqueuePending i).tasks = s.tasks := by
  unfold enqueuePending
  split <;> rfl

theorem enqueuePending_processingSet (s : SingleRoundStore) (i : TaskId) :
    (s.enqueuePending i).processingSet = s.processingSet := by
  unfold enqueuePending
  split <;> rfl

theorem enqueuePending_processingStartedAt (s : SingleRoundStore) (i : TaskId) :
    (s.enqueuePending i).processingStartedAt = s.processingStartedAt := by
  unfold enqueuePending
  split <;> rfl

theorem enqueuePending_failedSet (s : SingleRoundStore) (i : TaskId) :
    (s.enqueuePending i).failedSet = s.failedSet := by
  unfold enqueuePending
  split <;> rfl

theorem enqueuePending_failedList (s : SingleRoundStore) (i : TaskId) :
    (s.enqueuePending i).failedList = s.failedList := by
  unfold enqueuePending
  split <;> rfl

theorem enqueuePending_mem_pendingSet {s : SingleRoundStore} {i id : TaskId} (hne : id ≠ i) :
    (id ∈ (s.enqueuePending i).pendingSet) ↔ id ∈ s.pendingSet := by
  unfold enqueuePending
  split
  · exact Iff.rfl
  · simp [hne]

theorem enqueuePending_mem_pendingQueue {s : SingleRoundStore} {i id : TaskId} (hne : id ≠ i) :
    (id ∈ (s.enqueuePending i).pendingQueue) ↔ id ∈ s.pendingQueue := by
  unfold enqueuePending
  split
  · exact Iff.rfl
  · simp [hne]

theorem findTask_upd3_ne {ts : List Task} {i : TaskId} {f g k : Task → Task}
    (hf : ∀ t, (f t).id = t.id) (hg : ∀ t, (g t).id = t.id) (hk : ∀ t, (k t).id = t.id)
    {id : TaskId} (hne : id ≠ i) :
    findTask (updTask (updTask (updTask ts i f) i g) i k) id = findTask ts id := by
  rw [findTask_upd3 hf hg hk]
  cases hft : findTask ts id with
  | none => rfl
  | some t =>
    have ht : t.id = id := (findTask_eq_some_imp hft).2
    simp [ht, hne]

/-- Sweeping some other task id does not change any of the observable facts
about `id`. -/
theorem sweepStep_targetView_ne {x : SingleRoundStore × NodeStatisticsStore × Nat}
    {safeT now : Int} {taskId id : TaskId} (hne : id ≠ taskId) :
    targetView (sweepStep x safeT now taskId).1 id = targetView x.1 id := by
  obtain ⟨s, ns, n⟩ := x
  cases hfind : s.taskGet taskId with
  | none => rw [sweepStep_no_task hfind]
  | some task =>
  cases hlook : alookup s.processingStartedAt taskId with
  | none => rw [sweepStep_no_start hfind hlook]
  | some startedAt =>
  by_cases hz : startedAt = 0
  · subst hz
    rw [sweepStep_zero_start hfind hlook]
  by_cases htime : 0 < safeT ∧ now - startedAt ≤ safeT
  · rw [sweepStep_in_time hfind hlook hz htime]
  by_cases hfc : task.failureCount < 1
  · rw [sweepStep_retry hfind hlook hz htime hfc]
    unfold targetView
    simp only [enqueuePending_tasks, enqueuePending_processingSet,
      enqueuePending_processingStartedAt, enqueuePending_failedSet,
      enqueuePending_failedList]
    refine congrArg₂ Prod.mk ?_ ?_
    · refine findTask_upd3_ne ?_ ?_ ?_ hne <;> intro t <;> rfl
    refine congrArg₂ Prod.mk ?_ ?_
    · simp only [decide_eq_decide]
      rw [enqueuePending_mem_pendingSet hne]
      exact List.mem_erase_of_ne hne
    refine congrArg₂ Prod.mk ?_ ?_
    · simp only [decide_eq_decide]
      rw [enqueuePending_mem_pendingQueue hne]
      exact mem_removeAll.trans (by simp [hne])
    refine congrArg₂ Prod.mk ?_ ?_
    · simp only [decide_eq_decide]
      exact List.mem_erase_of_ne hne
    refine congrArg₂ Prod.mk ?_ ?_
    · simp only [decide_eq_decide]
      exact mem_removeAll.trans (by simp [hne])
    refine congrArg₂ Prod.mk ?_ ?_
    · simp only [decide_eq_decide]
      exact List.mem_erase_of_ne hne
    · rw [alookup_adel]
      simp [show ¬ taskId = id from fun he => hne he.symm]
  · rw [sweepStep_fail hfind hlook hz htime hfc]
    unfold targetView
    refine congrArg₂ Prod.mk ?_ ?_
    · refine findTask_upd3_ne ?_ ?_ ?_ hne <;> intro t <;> rfl
    refine congrArg₂ Prod.mk ?_ ?_
    · simp only [decide_eq_decide]
      exact List.mem_erase_of_ne hne
    refine congrArg₂ Prod.mk ?_ ?_
    · simp only [decide_eq_decide]
      exact mem_removeAll.trans (by simp [hne])
    refine congrArg₂ Prod.mk ?_ ?_
    · simp only [decide_eq_decide]
      by_cases hfs : taskId ∈ s.failedSet
      · simp [hfs]
      · simp [hfs, hne]
    refine congrArg₂ Prod.mk ?_ ?_
    · simp only [decide_eq_decide]
      constructor
      · intro hm
        rcases List.mem_cons.mp hm with rfl | hm2
        · exact absurd rfl hne
        · exact (mem_removeAll.mp hm2).1
      · intro hm
        exact List.mem_cons_of_mem _ (mem_removeAll.mpr ⟨hm, hne⟩)
    refine congrArg₂ Prod.mk ?_ ?_
    · simp only [decide_eq_decide]
      exact List.mem_erase_of_ne hne
    · rw [alookup_adel]
      simp [show ¬ taskId = id from fun he => hne he.symm]

theorem sweepFold_targetView {safeT now : Int} {L : List TaskId} {id : TaskId}
    (hnid : id ∉ L) (x : SingleRoundStore × NodeStatisticsStore × Nat) :
    targetView ((L.foldl (fun acc i => sweepStep acc safeT now i) x)).1 id =
      targetView x.1 id := by
  induction L generalizing x with
  | nil => rfl
  | cons a L ih =>
    have hne : id ≠ a := fun he => hnid (he ▸ List.mem_cons_self a L)
    have hnid2 : id ∉ L := fun hm => hnid (List.mem_cons_of_mem _ hm)
    rw [List.foldl_cons, ih hnid2, sweepStep_targetView_ne hne]

end SingleRoundStore

namespace SingleRoundStore

theorem targetView_congr {s₁ s₂ : SingleRoundStore} {id : TaskId}
    (h : targetView s₁ id = targetView s₂ id) :
    findTask s₁.tasks id = findTask s₂.tasks id ∧
    (id ∈ s₁.pendingSet ↔ id ∈ s₂.pendingSet) ∧
    (id ∈ s₁.pendingQueue ↔ id ∈ s₂.pendingQueue) ∧
    (id ∈ s₁.failedSet ↔ id ∈ s₂.failedSet) ∧
    (id ∈ s₁.failedList ↔ id ∈ s₂.failedList) ∧
    (id ∈ s₁.processingSet ↔ id ∈ s₂.processingSet) ∧
    alookup s₁.processingStartedAt id = alookup s₂.processingStartedAt id := by
  unfold targetView at h
  simp only [Prod.mk.injEq, decide_eq_decide] at h
  exact ⟨h.1, h.2.1, h.2.2.1, h.2.2.2.1, h.2.2.2.2.1, h.2.2.2.2.2.1, h.2.2.2.2.2.2⟩

end SingleRoundStore

open SingleRoundStore in
/-- **C1.** Every processing task whose elapsed time exceeds the threshold
(or any processing task, when the threshold is ≤ 0) is swept: if its
failureCount was 0 it is re-tagged `pending` with failureCount 1, a retry
message, and re-enqueued into the pending FIFO; if its failureCount was
already ≥ 1 it is failed with an incremented failureCount and the
max-retries message, entering the failed list, and is not re-queued. -/
theorem sweep_one_retry_policy {s : SingleRoundStore} {ns : NodeStatisticsStore}
    {timeoutMs now startedAt : Int} {taskId : TaskId} {task : Task}
    (hInv : sInv s)
    (hmem : taskId ∈ s.processingSet)
    (htask : s.taskGet taskId = some task)
    (hstart : alookup s.processingStartedAt taskId = some startedAt)
    (hz : startedAt ≠ 0)
    (hswept : timeoutMs ≤ 0 ∨ timeoutMs < now - startedAt) :
    (task.failureCount = 0 →
      ((s.markTimedOutTasksAsFailed ns timeoutMs now).1.taskGet taskId =
        some { task with status := TStatus.pending, failureCount := 1
                         message := some (retryMessage 1)
                         updatedAt := now, processingStartedAt := none
                         processingNodeId := none }) ∧
      taskId ∈ (s.markTimedOutTasksAsFailed ns timeoutMs now).1.pendingSet ∧
      taskId ∈ (s.markTimedOutTasksAsFailed ns timeoutMs now).1.pendingQueue) ∧
    (1 ≤ task.failureCount →
      ((s.markTimedOutTasksAsFailed ns timeoutMs now).1.taskGet taskId =
        some { task with status := TStatus.failed, failureCount := task.failureCount + 1
                         message := some maxRetriesMessage
                         updatedAt := now, processingStartedAt := none
                         processingNodeId := none }) ∧
      taskId ∈ (s.markTimedOutTasksAsFailed ns timeoutMs now).1.failedSet ∧
      taskId ∈ (s.markTimedOutTasksAsFailed ns timeoutMs now).1.failedList ∧
      taskId ∉ (s.markTimedOutTasksAsFailed ns timeoutMs now).1.pendingSet ∧
      taskId ∉ (s.markTimedOutTasksAsFailed ns timeoutMs now).1.pendingQueue) := by
  have hprN : s.processingSet.Nodup := by
    obtain ⟨_, _, _, _, h5, _⟩ := hInv
    exact h5
  obtain ⟨l₁, l₂, hL⟩ := List.append_of_mem hmem
  have hsplit := hL ▸ hprN
  rw [List.nodup_append] at hsplit
  obtain ⟨hn1, hn2, hdisj⟩ := hsplit
  have hnot1 : taskId ∉ l₁ := fun hm => hdisj hm (List.mem_cons_self _ _)
  have hnot2 : taskId ∉ l₂ := (List.nodup_cons.mp hn2).1
  have hsafe : ¬ (0 < (if 0 < timeoutMs then timeoutMs else 0) ∧
      now - startedAt ≤ (if 0 < timeoutMs then timeoutMs else 0)) := by
    rcases hswept with hle | hlt
    · rw [if_neg (by omega)]
      intro hcon
      omega
    · by_cases hp : 0 < timeoutMs
      · rw [if_pos hp]
        intro hcon
        omega
      · rw [if_neg hp]
        intro hcon
        omega
  unfold markTimedOutTasksAsFailed
  rw [hL, List.foldl_append, List.foldl_cons]
  have hview : targetView (List.foldl
      (fun acc i => sweepStep acc (if 0 < timeoutMs then timeoutMs else 0) now i)
      (s, ns, 0) l₁).1 taskId = targetView s taskId := sweepFold_targetView hnot1 _
  have hInv1 : sInv (List.foldl
      (fun acc i => sweepStep acc (if 0 < timeoutMs then timeoutMs else 0) now i)
      (s, ns, 0) l₁).1 := sInv_sweepFold hInv
  obtain ⟨hfind1, hps1, hpq1, hfs1, hfl1, hpr1, hal1⟩ := targetView_congr hview
  set x₁ := List.foldl
      (fun acc i => sweepStep acc (if 0 < timeoutMs then timeoutMs else 0) now i)
      (s, ns, 0) l₁ with hx₁def
  have hfindx : x₁.1.taskGet taskId = some task := by
    show findTask x₁.1.tasks taskId = some task
    rw [hfind1]
    exact htask
  have hlookx : alookup x₁.1.processingStartedAt taskId = some startedAt := by
    rw [hal1]
    exact hstart
  have htid : task.id = taskId := (findTask_eq_some_imp (htask : findTask s.tasks taskId = some task)).2
  have hprNx : x₁.1.pendingSet.Nodup := by
    obtain ⟨_, _, _, h4, _⟩ := hInv1
    exact h4
  have hqNx : x₁.1.pendingQueue.Nodup := by
    obtain ⟨_, _, h3, _⟩ := hInv1
    exact h3
  constructor
  · intro hfc0
    have hfc : task.failureCount < 1 := by omega
    have hstep := @sweepStep_retry x₁.1 x₁.2.1 x₁.2.2 _ _ _ _ _
      hfindx hlookx hz hsafe hfc
    rw [show (x₁.1, x₁.2.1, x₁.2.2) = x₁ from rfl] at hstep
    have hpost := @sweepFold_targetView (if 0 < timeoutMs then timeoutMs else 0) now
      _ taskId hnot2
      (sweepStep x₁ (if 0 < timeoutMs then timeoutMs else 0) now taskId)
    obtain ⟨hfind2, hps2, hpq2, _, _, _, _⟩ := targetView_congr hpost
    have hnotmem : taskId ∉ x₁.1.pendingSet.erase taskId := hprNx.not_mem_erase
    refine ⟨?_, ?_, ?_⟩
    · show findTask _ taskId = _
      rw [hfind2, hstep]
      show findTask (enqueuePending _ taskId).tasks taskId = _
      rw [enqueuePending_tasks]
      have h3 := @findTask_upd3 x₁.1.tasks taskId
        (fun t => { t with processingNodeId := none })
        (fun t => { t with processingStartedAt := none, updatedAt := now })
        (fun t => { t with failureCount := task.failureCount + 1
                           status := TStatus.pending
                           message := some (retryMessage (task.failureCount + 1)) })
        (fun t => rfl) (fun t => rfl) (fun t => rfl) taskId
      rw [h3, show findTask x₁.1.tasks taskId = some task from hfindx]
      simp [htid, hfc0]
    · rw [hps2, hstep]
      show taskId ∈ (enqueuePending _ taskId).pendingSet
      rw [enqueuePending_not_mem hnotmem]
      show taskId ∈ _ ++ [taskId]
      exact List.mem_append_right _ (List.mem_singleton_self _)
    · rw [hpq2, hstep]
      show taskId ∈ (enqueuePending _ taskId).pendingQueue
      rw [enqueuePending_not_mem hnotmem]
      show taskId ∈ _ ++ [taskId]
      exact List.mem_append_right _ (List.mem_singleton_self _)
  · intro hfc1
    have hfc : ¬ task.failureCount < 1 := by omega
    have hstep := @sweepStep_fail x₁.1 x₁.2.1 x₁.2.2 _ _ _ _ _
      hfindx hlookx hz hsafe hfc
    rw [show (x₁.1, x₁.2.1, x₁.2.2) = x₁ from rfl] at hstep
    have hpost := @sweepFold_targetView (if 0 < timeoutMs then timeoutMs else 0) now
      _ taskId hnot2
      (sweepStep x₁ (if 0 < timeoutMs then timeoutMs else 0) now taskId)
    obtain ⟨hfind2, hps2, hpq2, hfs2, hfl2, _, _⟩ := targetView_congr hpost
    refine ⟨?_, ?_, ?_, ?_, ?_⟩
    · show findTask _ taskId = _
      rw [hfind2, hstep]
      have h3 := @findTask_upd3 x₁.1.tasks taskId
        (fun t => { t with processingNodeId := none })
        (fun t => { t with processingStartedAt := none, updatedAt := now })
        (fun t => { t with failureCount := t.failureCount + 1
                           status := TStatus.failed
                           message := some maxRetriesMessage })
        (fun t => rfl) (fun t => rfl) (fun t => rfl) taskId
      rw [h3, show findTask x₁.1.tasks taskId = some task from hfindx]
      simp [htid]
    · rw [hfs2, hstep]
      show taskId ∈ (if taskId ∈ x₁.1.failedSet then x₁.1.failedSet
        else x₁.1.failedSet ++ [taskId])
      by_cases hfs : taskId ∈ x₁.1.failedSet <;> simp [hfs]
    · rw [hfl2, hstep]
      show taskId ∈ taskId :: removeAll x₁.1.failedList taskId
      exact List.mem_cons_self _ _
    · rw [hps2, hstep]
      show taskId ∉ x₁.1.pendingSet.erase taskId
      exact hprNx.not_mem_erase
    · rw [hpq2, hstep]
      show taskId ∉ removeAll x₁.1.pendingQueue taskId
      intro hm
      exact (mem_removeAll.mp hm).2 rfl

open SingleRoundStore in
/-- **C6.** Once a task is completed it stays completed: a later
`report(success=false)` returns `completed` and leaves the whole round store
unchanged, and a later timeout sweep leaves the task record unchanged (a
completed task is not in the processing set, so the sweep never touches
it). -/
theorem completed_is_terminal {s : SingleRoundStore} {ns : NodeStatisticsStore}
    {taskId : TaskId} {task : Task} {msg : String} {now timeoutMs : Int}
    (hInv : sInv s) (htask : s.taskGet taskId = some task)
    (hc : task.status = TStatus.completed) :
    ((s.updateTaskStatus ns taskId false msg now).1 = ReportOutcome.ok TStatus.completed ∧
     (s.updateTaskStatus ns taskId false msg now).2.1 = s) ∧
    (s.markTimedOutTasksAsFailed ns timeoutMs now).1.taskGet taskId = some task := by
  refine ⟨?_, ?_⟩
  · rw [updateTaskStatus_completed_noop hInv htask hc]
    exact ⟨rfl, rfl⟩
  · have hnpr : taskId ∉ s.processingSet := by
      obtain ⟨hids, _, _, _, _, _, _, _, _, _, hbr, _⟩ := hInv
      intro hm
      have := (bucket_iff hids hbr taskId).mp hm
      have hfind : findTask s.tasks taskId = some task := htask
      simp only [statusOf, taskGet, hfind, Option.map_some', Option.some_inj] at this
      rw [hc] at this
      cases this
    unfold markTimedOutTasksAsFailed
    have hview := @sweepFold_targetView (if 0 < timeoutMs then timeoutMs else 0) now
      _ taskId hnpr (s, ns, 0)
    obtain ⟨hfind2, _⟩ := targetView_congr hview
    show findTask _ taskId = _
    rw [hfind2]
    exact htask

open SingleRoundStore in
/-- **C10.** A report is accepted for a task in any non-completed status,
with no requirement that it was leased first: success marks any existing
task completed, removing it from the pending and failed structures; failure
marks a pending or processing task failed and increments its failure
count. -/
theorem report_accepted_any_status {s : SingleRoundStore} {ns : NodeStatisticsStore}
    {taskId : TaskId} {task : Task} {msg : String} {now : Int}
    (hInv : sInv s) (htask : s.taskGet taskId = some task) :
    ((s.updateTaskStatus ns taskId true msg now).1 = ReportOutcome.ok TStatus.completed ∧
     ((s.updateTaskStatus ns taskId true msg now).2.1.statusOf taskId =
       some TStatus.completed) ∧
     taskId ∉ (s.updateTaskStatus ns taskId true msg now).2.1.pendingSet ∧
     taskId ∉ (s.updateTaskStatus ns taskId true msg now).2.1.pendingQueue ∧
     taskId ∉ (s.updateTaskStatus ns taskId true msg now).2.1.failedSet ∧
     taskId ∉ (s.updateTaskStatus ns taskId true msg now).2.1.failedList ∧
     taskId ∈ (s.updateTaskStatus ns taskId true msg now).2.1.completedSet) ∧
    (task.status = TStatus.pending ∨ task.status = TStatus.processing →
     (s.updateTaskStatus ns taskId false msg now).1 = ReportOutcome.ok TStatus.failed ∧
     ∃ t', (s.updateTaskStatus ns taskId false msg now).2.1.taskGet taskId = some t' ∧
       t'.status = TStatus.failed ∧ t'.failureCount = task.failureCount + 1) := by
  obtain ⟨hids, hbound, hqN, hpsN, hprN, hcsN, hfsN, hqp, hpq, hbp, hbr, hbc, hbf,
    hsp, hpsome, hcl, hfl, hclean⟩ := hInv
  have hfind : findTask s.tasks taskId = some task := htask
  have htid : task.id = taskId := (findTask_eq_some_imp hfind).2
  constructor
  · rw [updateTaskStatus_success htask]
    refine ⟨rfl, ?_, ?_, ?_, ?_, ?_, ?_⟩
    · show Option.map Task.status (findTask _ taskId) = _
      have h2 := @findTask_upd2 s.tasks taskId
        (fun t => { t with processingNodeId := none })
        (fun t => { t with updatedAt := now
                           message := if msg = "" then none else some msg
                           status := TStatus.completed, failureCount := 0
                           processingStartedAt := none })
        (fun t => rfl) (fun t => rfl) taskId
      rw [h2, hfind]
      simp [htid]
    · exact hpsN.not_mem_erase
    · intro hm
      exact (mem_removeAll.mp hm).2 rfl
    · show taskId ∉ (if taskId ∈ s.failedSet then s.failedSet.erase taskId else s.failedSet)
      by_cases hf : taskId ∈ s.failedSet
      · rw [if_pos hf]
        exact hfsN.not_mem_erase
      · rw [if_neg hf]
        exact hf
    · show taskId ∉ (if taskId ∈ s.failedSet then removeAll s.failedList taskId
        else s.failedList)
      by_cases hf : taskId ∈ s.failedSet
      · rw [if_pos hf]
        intro hm
        exact (mem_removeAll.mp hm).2 rfl
      · rw [if_neg hf]
        intro hm
        exact hf (hfl taskId hm)
    · show taskId ∈ (if taskId ∈ s.completedSet then s.completedSet
        else s.completedSet ++ [taskId])
      by_cases hco : taskId ∈ s.completedSet
      · rw [if_pos hco]
        exact hco
      · rw [if_neg hco]
        exact List.mem_append_right _ (List.mem_singleton_self _)
  · intro hst
    have hnc : task.status ≠ TStatus.completed := by
      rcases hst with h | h <;> rw [h] <;> intro hx <;> cases hx
    rw [updateTaskStatus_failure htask hnc]
    refine ⟨rfl, ?_⟩
    refine ⟨{ task with updatedAt := now, message := if msg = "" then none else some msg
                        status := TStatus.failed, failureCount := task.failureCount + 1
                        processingStartedAt := none, processingNodeId := none }, ?_, rfl, rfl⟩
    show findTask _ taskId = _
    have h2 := @findTask_upd2 s.tasks taskId
      (fun t => { t with processingNodeId := none })
      (fun t => { t with updatedAt := now
                         message := if msg = "" then none else some msg
                         status := TStatus.failed
                         failureCount := t.failureCount + 1
                         processingStartedAt := none })
      (fun t => rfl) (fun t => rfl) taskId
    rw [h2, hfind]
    simp [htid]

namespace SingleRoundStore

theorem leaseGo_nil {s : SingleRoundStore} {k : Nat} {now : Int} {nid : Option String}
    {acc : List Task} (hq : s.pendingQueue = []) :
    leaseGo s k now nid acc = (s, acc) := by
  rw [leaseGo, hq]
  by_cases hk : acc.length < k <;> simp [hk]

theorem leaseGo_full {s : SingleRoundStore} {k : Nat} {now : Int} {nid : Option String}
    {acc : List Task} (hk : ¬ acc.length < k) :
    leaseGo s k now nid acc = (s, acc) := by
  rw [leaseGo]
  simp [hk]

theorem leaseGo_stale {s : SingleRoundStore} {k : Nat} {now : Int} {nid : Option String}
    {acc : List Task} {id : TaskId} {rest : List TaskId} (hk : acc.length < k)
    (hq : s.pendingQueue = id :: rest) (hmem : id ∉ s.pendingSet) :
    leaseGo s k now nid acc = leaseGo { s with pendingQueue := rest } k now nid acc := by
  rw [leaseGo, hq]
  simp [hk, hmem]

theorem leaseGo_skip_missing {s : SingleRoundStore} {k : Nat} {now : Int}
    {nid : Option String} {acc : List Task} {id : TaskId} {rest : List TaskId}
    (hk : acc.length < k) (hq : s.pendingQueue = id :: rest) (hmem : id ∈ s.pendingSet)
    (hft : findTask s.tasks id = none) :
    leaseGo s k now nid acc =
      leaseGo { s with pendingQueue := rest, pendingSet := s.pendingSet.erase id }
        k now nid acc := by
  rw [leaseGo, hq]
  have hft2 :
      taskGet { s with pendingQueue := rest, pendingSet := s.pendingSet.erase id } id =
        none := hft
  simp [hk, hmem, hft2]

theorem leaseGo_serve {s : SingleRoundStore} {k : Nat} {now : Int}
    {nid : Option String} {acc : List Task} {id : TaskId} {rest : List TaskId}
    {task : Task} (hk : acc.length < k) (hq : s.pendingQueue = id :: rest)
    (hmem : id ∈ s.pendingSet) (hft : findTask s.tasks id = some task) :
    leaseGo s k now nid acc =
      leaseGo { s with
          pendingQueue := rest
          pendingSet := s.pendingSet.erase id
          tasks := updTask s.tasks id (fun t => { t with
            status := TStatus.processing
            processingStartedAt := some now
            updatedAt := now
            processingNodeId := nid })
          processingSet := sadd s.processingSet id
          processingStartedAt := aset s.processingStartedAt id now }
        k now nid (acc ++ [leaseTag now nid task]) := by
  rw [leaseGo, hq]
  have hft2 :
      taskGet { s with pendingQueue := rest, pendingSet := s.pendingSet.erase id } id =
        some task := hft
  simp [hk, hmem, hft2, leaseTag]

theorem leaseGo_spec : ∀ (n : Nat) (s : SingleRoundStore) (k : Nat) (now : Int)
    (nid : Option String) (acc : List Task), s.pendingQueue.length ≤ n →
    s.pendingQueue.Nodup →
    ((leaseGo s k now nid acc).2 = acc ++
      ((s.pendingQueue.filter (liveB s)).take (k - acc.length)).filterMap
        (fun id => (findTask s.tasks id).map (leaseTag now nid))) ∧
    (∀ t' ∈ (leaseGo s k now nid acc).2, t' ∈ acc ∨
      t'.id ∈ (leaseGo s k now nid acc).1.processingSet) ∧
    (∀ id', id' ∈ s.processingSet → id' ∈ (leaseGo s k now nid acc).1.processingSet) := by
  intro n
  induction n with
  | zero =>
    intro s k now nid acc hlen hnd
    have hq : s.pendingQueue = [] := List.eq_nil_of_length_eq_zero (Nat.le_zero.mp hlen)
    rw [leaseGo_nil hq, hq]
    exact ⟨by simp, fun t' ht' => Or.inl ht', fun id' h => h⟩
  | succ n ih =>
    intro s k now nid acc hlen hnd
    by_cases hk : acc.length < k
    · cases hq : s.pendingQueue with
      | nil =>
        rw [leaseGo_nil hq]
        exact ⟨by simp [hq], fun t' ht' => Or.inl ht', fun id' h => h⟩
      | cons id rest =>
        rw [hq] at hlen hnd
        simp only [List.length_cons, Nat.add_le_add_iff_right] at hlen
        have hndrest : rest.Nodup := (List.nodup_cons.mp hnd).2
        have hidrest : id ∉ rest := (List.nodup_cons.mp hnd).1
        by_cases hmem : id ∈ s.pendingSet
        · cases hft : findTask s.tasks id with
          | none =>
            rw [leaseGo_skip_missing hk hq hmem hft]
            have hlive : liveB s id = false := by
              simp only [liveB, Bool.and_eq_false_iff]
              right
              rw [hft]
              rfl
            obtain ⟨ih1, ih2, ih3⟩ :=
              ih { s with pendingQueue := rest, pendingSet := s.pendingSet.erase id }
                k now nid acc hlen hndrest
            have hfilter :
                List.filter
                  (liveB { s with pendingQueue := rest
                                  pendingSet := s.pendingSet.erase id }) rest =
                List.filter (liveB s) rest := by
              refine List.filter_congr (fun x hx => ?_)
              have hne : x ≠ id := fun he => hidrest (he ▸ hx)
              have hset : (x ∈ s.pendingSet.erase id) ↔ (x ∈ s.pendingSet) :=
                List.mem_erase_of_ne hne
              simp [liveB, hset]
            refine ⟨?_, ih2, ih3⟩
            rw [ih1]
            show acc ++
                List.filterMap (fun i => Option.map (leaseTag now nid) (findTask s.tasks i))
                  (List.take (k - acc.length)
                    (List.filter
                      (liveB { s with pendingQueue := rest
                                      pendingSet := s.pendingSet.erase id }) rest)) =
              acc ++
                List.filterMap (fun i => Option.map (leaseTag now nid) (findTask s.tasks i))
                  (List.take (k - acc.length) (List.filter (liveB s) (id :: rest)))
            rw [hfilter, List.filter_cons_of_neg (by simp [hlive])]
          | some task =>
            have htid : task.id = id := (findTask_eq_some_imp hft).2
            have hlive : liveB s id = true := by
              simp only [liveB, Bool.and_eq_true]
              refine ⟨by simpa using hmem, ?_⟩
              rw [hft]
              rfl
            rw [leaseGo_serve hk hq hmem hft]
            set s2 : SingleRoundStore := { s with
              pendingQueue := rest
              pendingSet := s.pendingSet.erase id
              tasks := updTask s.tasks id (fun t => { t with
                status := TStatus.processing
                processingStartedAt := some now
                updatedAt := now
                processingNodeId := nid })
              processingSet := sadd s.processingSet id
              processingStartedAt := aset s.processingStartedAt id now } with hs2def
            obtain ⟨ih1, ih2, ih3⟩ := ih s2 k now nid
              (acc ++ [leaseTag now nid task]) (by simpa [hs2def] using hlen)
              (by simpa [hs2def] using hndrest)
            obtain ⟨m, hm⟩ : ∃ m, k - acc.length = m + 1 :=
              ⟨k - acc.length - 1, by omega⟩
            have hlen2 : k - (acc ++ [leaseTag now nid task]).length = m := by
              simp only [List.length_append, List.length_singleton]
              omega
            have hshift : ∀ x, x ≠ id → findTask s2.tasks x = findTask s.tasks x := by
              intro x hne
              have h1 : findTask s2.tasks x =
                  (findTask s.tasks x).map (fun t => if t.id = id then
                    { t with status := TStatus.processing
                             processingStartedAt := some now
                             updatedAt := now
                             processingNodeId := nid } else t) :=
                @findTask_updTask s.tasks id
                  (fun t => { t with status := TStatus.processing
                                     processingStartedAt := some now
                                     updatedAt := now
                                     processingNodeId := nid })
                  (fun t => rfl) x
              rw [h1]
              cases hfx : findTask s.tasks x with
              | none => rfl
              | some t =>
                have hti : t.id = x := (findTask_eq_some_imp hfx).2
                simp [hti, hne]
            have hfilter : s2.pendingQueue.filter (liveB s2) =
                rest.filter (liveB s) := by
              show rest.filter _ = _
              refine List.filter_congr (fun x hx => ?_)
              have hne : x ≠ id := fun he => hidrest (he ▸ hx)
              have hset : (x ∈ s2.pendingSet) ↔ (x ∈ s.pendingSet) := by
                rw [hs2def]
                exact List.mem_erase_of_ne hne
              simp [liveB, hset, hshift x hne]
            have hmap : ∀ x ∈ (rest.filter (liveB s)).take m,
                (findTask s2.tasks x).map (leaseTag now nid) =
                (findTask s.tasks x).map (leaseTag now nid) := by
              intro x hx
              have hxrest : x ∈ rest := List.mem_of_mem_filter (List.mem_of_mem_take hx)
              have hne : x ≠ id := fun he => hidrest (he ▸ hxrest)
              rw [hshift x hne]
            refine ⟨?_, ?_, ?_⟩
            · rw [ih1, hlen2, hfilter]
              rw [List.filter_cons_of_pos (by simp [hlive]), hm, List.take_succ_cons]
              simp only [List.filterMap_cons, hft, Option.map_some']
              rw [List.filterMap_congr hmap]
              simp
            · intro t' ht'
              rcases ih2 t' ht' with hacc | hproc
              · rcases List.mem_append.mp hacc with h1 | h1
                · exact Or.inl h1
                · right
                  rw [List.mem_singleton] at h1
                  subst h1
                  refine ih3 (leaseTag now nid task).id ?_
                  show (leaseTag now nid task).id ∈ sadd s.processingSet id
                  rw [mem_sadd]
                  right
                  show task.id = id
                  exact htid
              · exact Or.inr hproc
            · intro id' hid'
              refine ih3 id' ?_
              show id' ∈ sadd s.processingSet id
              rw [mem_sadd]
              exact Or.inl hid'
        · rw [leaseGo_stale hk hq hmem]
          obtain ⟨ih1, ih2, ih3⟩ := ih { s with pendingQueue := rest } k now nid acc
            hlen hndrest
          have hfilter : List.filter (liveB { s with pendingQueue := rest }) rest =
              List.filter (liveB s) rest :=
            List.filter_congr (fun x hx => rfl)
          refine ⟨?_, ih2, ih3⟩
          rw [ih1]
          show acc ++
              List.filterMap (fun i => Option.map (leaseTag now nid) (findTask s.tasks i))
                (List.take (k - acc.length)
                  (List.filter (liveB { s with pendingQueue := rest }) rest)) =
            acc ++
              List.filterMap (fun i => Option.map (leaseTag now nid) (findTask s.tasks i))
                (List.take (k - acc.length) (List.filter (liveB s) (id :: rest)))
          rw [hfilter, List.filter_cons_of_neg (by simp [liveB, hmem])]
    · rw [leaseGo_full hk]
      have h0 : k - acc.length = 0 := by omega
      rw [h0]
      exact ⟨by simp, fun t' ht' => Or.inl ht', fun id' h => h⟩

theorem mem_aset {α β : Type} [DecidableEq α] {l : List (α × β)} {k : α} {v : β}
    {p : α × β} (h : p ∈ aset l k v) : p = (k, v) ∨ p ∈ l := by
  induction l with
  | nil =>
    simp only [aset, List.mem_singleton] at h
    exact Or.inl h
  | cons q l ih =>
    rw [aset_cons] at h
    by_cases hq : q.1 = k
    · rw [if_pos hq] at h
      rcases List.mem_cons.mp h with h1 | h1
      · exact Or.inl h1
      · exact Or.inr (List.mem_cons_of_mem _ h1)
    · rw [if_neg hq] at h
      rcases List.mem_cons.mp h with h1 | h1
      · exact Or.inr (h1 ▸ List.mem_cons_self _ _)
      · rcases ih h1 with h2 | h2
        · exact Or.inl h2
        · exact Or.inr (List.mem_cons_of_mem _ h2)

theorem sInv_leaseGo : ∀ (n : Nat) (s : SingleRoundStore) (k : Nat) (now : Int)
    (nid : Option String) (acc : List Task), s.pendingQueue.length ≤ n → sInv s →
    sInv (leaseGo s k now nid acc).1 := by
  intro n
  induction n with
  | zero =>
    intro s k now nid acc hlen hInv
    have hq : s.pendingQueue = [] := List.eq_nil_of_length_eq_zero (Nat.le_zero.mp hlen)
    rw [leaseGo_nil hq]
    exact hInv
  | succ n ih =>
    intro s k now nid acc hlen hInv
    by_cases hk : acc.length < k
    · cases hq : s.pendingQueue with
      | nil =>
        rw [leaseGo_nil hq]
        exact hInv
      | cons id rest =>
        rw [hq] at hlen
        simp only [List.length_cons, Nat.add_le_add_iff_right] at hlen
        obtain ⟨hids, hbound, hqN, hpsN, hprN, hcsN, hfsN, hqp, hpq, hbp, hbr, hbc,
          hbf, hsp, hpsome, hcl, hfl, hclean⟩ := hInv
        rw [hq] at hqN
        have hndrest : rest.Nodup := (List.nodup_cons.mp hqN).2
        have hidrest : id ∉ rest := (List.nodup_cons.mp hqN).1
        by_cases hmem : id ∈ s.pendingSet
        · cases hft : findTask s.tasks id with
          | none =>
            exfalso
            have hst := hbp.1 id hmem
            simp [statusOf, taskGet, hft] at hst
          | some task =>
            have htid : task.id = id := (findTask_eq_some_imp hft).2
            have hstatid : s.statusOf id = some TStatus.pending := hbp.1 id hmem
            rw [leaseGo_serve hk hq hmem hft]
            refine ih _ k now nid _ (by simpa using hlen) ?_
            have hshift : ∀ x, x ≠ id →
                findTask (updTask s.tasks id (fun t => { t with
                  status := TStatus.processing
                  processingStartedAt := some now
                  updatedAt := now
                  processingNodeId := nid })) x = findTask s.tasks x := by
              intro x hne
              rw [@findTask_updTask s.tasks id
                (fun t => { t with status := TStatus.processing
                                   processingStartedAt := some now
                                   updatedAt := now
                                   processingNodeId := nid })
                (fun t => rfl) x]
              cases hfx : findTask s.tasks x with
              | none => rfl
              | some t =>
                have hti : t.id = x := (findTask_eq_some_imp hfx).2
                simp [hti, hne]
            have hshiftid :
                findTask (updTask s.tasks id (fun t => { t with
                  status := TStatus.processing
                  processingStartedAt := some now
                  updatedAt := now
                  processingNodeId := nid })) id =
                some { task with status := TStatus.processing
                                 processingStartedAt := some now
                                 updatedAt := now
                                 processingNodeId := nid } := by
              rw [@findTask_updTask s.tasks id
                (fun t => { t with status := TStatus.processing
                                   processingStartedAt := some now
                                   updatedAt := now
                                   processingNodeId := nid })
                (fun t => rfl) id, hft]
              simp [htid]
            set s2 : SingleRoundStore := { s with
              pendingQueue := rest
              pendingSet := s.pendingSet.erase id
              tasks := updTask s.tasks id (fun t => { t with
                status := TStatus.processing
                processingStartedAt := some now
                updatedAt := now
                processingNodeId := nid })
              processingSet := sadd s.processingSet id
              processingStartedAt := aset s.processingStartedAt id now } with hs2def
            have hids2 : (s2.tasks.map Task.id).Nodup := by
              show ((updTask s.tasks id _).map Task.id).Nodup
              rw [@map_id_updTask s.tasks id
                (fun t => { t with status := TStatus.processing
                                   processingStartedAt := some now
                                   updatedAt := now
                                   processingNodeId := nid })
                (fun t => rfl)]
              exact hids
            have hstat2 : ∀ x, s2.statusOf x =
                if x = id then some TStatus.processing else s.statusOf x := by
              intro x
              by_cases hx : x = id
              · subst hx
                show (findTask _ x).map Task.status = _
                rw [hshiftid]
                simp
              · show (findTask _ x).map Task.status = _
                rw [hshift x hx, if_neg hx]
                rfl
            refine ⟨hids2, ?_, hndrest, hpsN.erase id, nodup_sadd id hprN, hcsN, hfsN,
              ?_, ?_, ?_, ?_, ?_, ?_, ?_, ?_, hcl, hfl, ?_⟩
            · intro t ht
              rcases mem_updTask.mp ht with ⟨t0, ht0, heq⟩
              by_cases h0 : t0.id = id
              · rw [heq, if_pos h0]
                exact hbound t0 ht0
              · rw [heq, if_neg h0]
                exact hbound t0 ht0
            · intro x hx
              have hx2 : x ∈ s.pendingQueue := by
                rw [hq]
                exact List.mem_cons_of_mem _ hx
              have hxp : x ∈ s.pendingSet := hqp x hx2
              have hne : x ≠ id := fun he => hidrest (he ▸ hx)
              exact (hpsN.mem_erase_iff.mpr ⟨hne, hxp⟩)
            · intro x hx
              obtain ⟨hne, hxp⟩ := hpsN.mem_erase_iff.mp hx
              have := hpq x hxp
              rw [hq] at this
              rcases List.mem_cons.mp this with h1 | h1
              · exact absurd h1 hne
              · exact h1
            · refine bucketOK_of_iff hids2 (fun x => ?_)
              rw [hstat2 x]
              by_cases hx : x = id
              · subst hx
                rw [if_pos rfl]
                simp only [hpsN.mem_erase_iff]
                constructor
                · intro h
                  exact absurd rfl h.1
                · intro h
                  cases h
              · rw [if_neg hx]
                rw [show (x ∈ s2.pendingSet) = (x ∈ s.pendingSet.erase id) from rfl]
                rw [show (x ∈ s.pendingSet.erase id) ↔ (x ≠ id ∧ x ∈ s.pendingSet) from
                  hpsN.mem_erase_iff]
                rw [bucket_iff hids hbp x]
                exact ⟨fun h => h.2, fun h => ⟨hx, h⟩⟩
            · refine bucketOK_of_iff hids2 (fun x => ?_)
              rw [hstat2 x]
              show x ∈ sadd s.processingSet id ↔ _
              rw [mem_sadd]
              by_cases hx : x = id
              · subst hx
                simp
              · rw [if_neg hx, bucket_iff hids hbr x]
                exact ⟨fun h => h.elim (fun h1 => h1) (fun h1 => absurd h1 hx),
                  fun h => Or.inl h⟩
            · refine bucketOK_of_iff hids2 (fun x => ?_)
              rw [hstat2 x]
              show x ∈ s.completedSet ↔ _
              by_cases hx : x = id
              · subst hx
                rw [if_pos rfl, bucket_iff hids hbc x]
                rw [hstatid]
                simp
              · rw [if_neg hx]
                exact bucket_iff hids hbc x
            · refine bucketOK_of_iff hids2 (fun x => ?_)
              rw [hstat2 x]
              show x ∈ s.failedSet ↔ _
              by_cases hx : x = id
              · subst hx
                rw [if_pos rfl, bucket_iff hids hbf x]
                rw [hstatid]
                simp
              · rw [if_neg hx]
                exact bucket_iff hids hbf x
            · intro p hp
              show p.1 ∈ sadd s.processingSet id
              rw [mem_sadd]
              rcases mem_aset hp with h1 | h1
              · right
                rw [h1]
              · exact Or.inl (hsp p h1)
            · intro x hx
              show (alookup (aset s.processingStartedAt id now) x).isSome
              rw [alookup_aset]
              by_cases hxid : id = x
              · rw [if_pos hxid]
                rfl
              · rw [if_neg hxid]
                rcases mem_sadd.mp hx with h1 | h1
                · exact hpsome x h1
                · exact absurd h1.symm hxid
            · intro t ht hst
              rcases mem_updTask.mp ht with ⟨t0, ht0, heq⟩
              by_cases h0 : t0.id = id
              · rw [heq, if_pos h0] at hst
                exact absurd rfl hst
              · rw [heq, if_neg h0]
                rw [heq, if_neg h0] at hst
                exact hclean t0 ht0 hst
        · rw [leaseGo_stale hk hq hmem]
          refine ih _ k now nid _ (by simpa using hlen) ?_
          refine ⟨hids, hbound, hndrest, hpsN, hprN, hcsN, hfsN,
            ?_, ?_, hbp, hbr, hbc, hbf, hsp, hpsome, hcl, hfl, hclean⟩
          · intro x hx
            have hx2 : x ∈ s.pendingQueue := by
              rw [hq]
              exact List.mem_cons_of_mem _ hx
            exact hqp x hx2
          · intro x hx
            have h5 := hpq x hx
            rw [hq] at h5
            rcases List.mem_cons.mp h5 with h1 | h1
            · exact absurd (h1 ▸ hx) hmem
            · exact h1
    · rw [leaseGo_full hk]
      exact hInv

/-- C4: Within one round, the lease operation returns tasks in pending-FIFO
(enqueue) order, skipping stale ids that are no longer in the pending set or the
task table; every returned task was `pending` (and in particular not in the
processing set) at lease time, and is transitioned to `processing` and into the
processing set of the resulting store, so no task can be leased twice
concurrently. -/
theorem lease_fifo_no_double_lease {s : SingleRoundStore} {ns : NodeStatisticsStore}
    {batchSize : Nat} {nodeId : Option String} {now : Int} (hInv : sInv s) :
    (getTasksForProcessing s ns batchSize nodeId now).1 =
      ((s.pendingQueue.filter (liveB s)).take batchSize).filterMap
        (fun id => (findTask s.tasks id).map (leaseTag now
          (nodeId.bind (fun n => if n.trim = "" then none else some n.trim)))) ∧
    (∀ t ∈ (getTasksForProcessing s ns batchSize nodeId now).1,
      s.statusOf t.id = some TStatus.pending ∧
      t.id ∉ s.processingSet ∧
      t.status = TStatus.processing ∧
      t.id ∈ (getTasksForProcessing s ns batchSize nodeId now).2.1.processingSet) ∧
    sInv (getTasksForProcessing s ns batchSize nodeId now).2.1 := by
  set nn := nodeId.bind (fun n => if n.trim = "" then none else some n.trim) with hnn
  have hqN : s.pendingQueue.Nodup := hInv.2.2.1
  obtain ⟨h1, h2, h3⟩ :=
    leaseGo_spec s.pendingQueue.length s batchSize now nn [] le_rfl hqN
  have hres : (getTasksForProcessing s ns batchSize nodeId now).1 =
      (leaseGo s batchSize now nn []).2 := rfl
  have hsto : (getTasksForProcessing s ns batchSize nodeId now).2.1 =
      (leaseGo s batchSize now nn []).1 := rfl
  have hmemfact : ∀ t ∈ (leaseGo s batchSize now nn []).2,
      s.statusOf t.id = some TStatus.pending ∧ t.id ∉ s.processingSet ∧
      t.status = TStatus.processing := by
    intro t ht
    rw [h1] at ht
    simp only [List.nil_append, List.length_nil, Nat.sub_zero] at ht
    rw [List.mem_filterMap] at ht
    obtain ⟨x, hxtake, hxeq⟩ := ht
    cases hfx : findTask s.tasks x with
    | none =>
      rw [hfx] at hxeq
      cases hxeq
    | some tx =>
      rw [hfx] at hxeq
      have htx : t = leaseTag now nn tx := by
        cases hxeq
        rfl
      have htxid : tx.id = x := (findTask_eq_some_imp hfx).2
      have hxfil : x ∈ s.pendingQueue.filter (liveB s) := List.mem_of_mem_take hxtake
      have hxlive : liveB s x = true := List.of_mem_filter hxfil
      have hxpend : x ∈ s.pendingSet := by
        simp only [liveB, Bool.and_eq_true, decide_eq_true_eq] at hxlive
        exact hxlive.1
      have htid : t.id = x := by
        rw [htx]
        show tx.id = x
        exact htxid
      have hstat : s.statusOf x = some TStatus.pending :=
        (hInv.2.2.2.2.2.2.2.2.2.1).1 x hxpend
      refine ⟨htid ▸ hstat, ?_, by rw [htx]; rfl⟩
      rw [htid]
      intro hxproc
      have hst2 : s.statusOf x = some TStatus.processing :=
        (hInv.2.2.2.2.2.2.2.2.2.2.1).1 x hxproc
      rw [hstat] at hst2
      cases hst2
  refine ⟨?_, ?_, ?_⟩
  · rw [hres, h1]
    simp
  · intro t ht
    rw [hres] at ht
    obtain ⟨ha, hb, hc⟩ := hmemfact t ht
    refine ⟨ha, hb, hc, ?_⟩
    rw [hsto]
    rcases h2 t ht with h4 | h4
    · cases h4
    · exact h4
  · rw [hsto]
    exact sInv_leaseGo s.pendingQueue.length s batchSize now nn [] le_rfl hInv

theorem findTask_filter_ne (ts : List Task) (eid : TaskId) :
    ∀ x, findTask (ts.filter (fun t => decide (t.id ≠ eid))) x =
      if x = eid then none else findTask ts x := by
  induction ts with
  | nil =>
    intro x
    by_cases hx : x = eid <;> simp [findTask, hx]
  | cons t ts ih =>
    intro x
    rw [List.filter_cons]
    by_cases ht : t.id = eid
    · rw [if_neg (by simp [ht])]
      rw [ih x]
      by_cases hx : x = eid
      · rw [if_pos hx, if_pos hx]
      · have hne : t.id ≠ x := fun he => hx (he ▸ ht)
        rw [if_neg hx, if_neg hx, findTask_cons, if_neg hne]
    · rw [if_pos (by simp [ht])]
      rw [findTask_cons]
      by_cases htx : t.id = x
      · rw [if_pos htx]
        have hx : ¬ x = eid := fun he => ht (htx.trans he)
        rw [if_neg hx, findTask_cons, if_pos htx]
      · rw [if_neg htx, ih x]
        by_cases hx : x = eid
        · rw [if_pos hx, if_pos hx]
        · rw [if_neg hx, if_neg hx, findTask_cons, if_neg htx]

/-- Adding a brand-new pending task (fresh id `s.nextTaskId`) preserves the
invariant. -/
theorem sInv_addNew {s : SingleRoundStore} (hInv : sInv s) (path : String) (now : Int) :
    sInv (({ s with
      tasks := s.tasks ++ [({
        id := s.nextTaskId, roundId := s.roundId, path := path
        status := TStatus.pending, failureCount := 0, message := none, createdAt := now
        updatedAt := now, processingStartedAt := none, processingNodeId := none } : Task)]
      pathToTaskId := aset s.pathToTaskId path s.nextTaskId
      nextTaskId := s.nextTaskId + 1 }).enqueuePending s.nextTaskId) := by
  obtain ⟨hids, hbound, hqN, hpsN, hprN, hcsN, hfsN, hqp, hpq, hbp, hbr, hbc,
    hbf, hsp, hpsome, hcl, hfl, hclean⟩ := hInv
  have hfree : findTask s.tasks s.nextTaskId = none :=
    findTask_eq_none_iff.mpr (fun t ht => (hbound t ht).ne)
  have hstatF : s.statusOf s.nextTaskId = none := by
    simp [statusOf, taskGet, hfree]
  have hnp : s.nextTaskId ∉ s.pendingSet := by
    intro hmem
    have h := hbp.1 _ hmem
    rw [hstatF] at h
    cases h
  set newT : Task := {
    id := s.nextTaskId, roundId := s.roundId, path := path
    status := TStatus.pending, failureCount := 0, message := none, createdAt := now
    updatedAt := now, processingStartedAt := none, processingNodeId := none } with hnewT
  have hnp2 : s.nextTaskId ∉ ({ s with
      tasks := s.tasks ++ [newT]
      pathToTaskId := aset s.pathToTaskId path s.nextTaskId
      nextTaskId := s.nextTaskId + 1 } : SingleRoundStore).pendingSet := hnp
  have henq : ({ s with
      tasks := s.tasks ++ [newT]
      pathToTaskId := aset s.pathToTaskId path s.nextTaskId
      nextTaskId := s.nextTaskId + 1 }).enqueuePending s.nextTaskId =
      { s with
        tasks := s.tasks ++ [newT]
        pathToTaskId := aset s.pathToTaskId path s.nextTaskId
        nextTaskId := s.nextTaskId + 1
        pendingSet := s.pendingSet ++ [s.nextTaskId]
        pendingQueue := s.pendingQueue ++ [s.nextTaskId] } := by
    rw [enqueuePending_not_mem hnp2]
  rw [henq]
  have hfind3 : ∀ x, findTask (s.tasks ++ [newT]) x =
      if x = s.nextTaskId then some newT else findTask s.tasks x := by
    intro x
    by_cases hx : x = s.nextTaskId
    · subst hx
      rw [if_pos rfl, findTask_append_of_none _ hfree, findTask_cons, if_pos rfl]
    · rw [if_neg hx]
      cases hfx : findTask s.tasks x with
      | none =>
        rw [findTask_append_of_none _ hfx, findTask_cons,
          if_neg (fun he => hx (he.symm.trans rfl))]
        rfl
      | some t => rw [findTask_append_of_some _ hfx]
  set s3 : SingleRoundStore := { s with
    tasks := s.tasks ++ [newT]
    pathToTaskId := aset s.pathToTaskId path s.nextTaskId
    nextTaskId := s.nextTaskId + 1
    pendingSet := s.pendingSet ++ [s.nextTaskId]
    pendingQueue := s.pendingQueue ++ [s.nextTaskId] } with hs3
  have hstat3 : ∀ x, s3.statusOf x =
      if x = s.nextTaskId then some TStatus.pending else s.statusOf x := by
    intro x
    show (findTask (s.tasks ++ [newT]) x).map Task.status = _
    rw [hfind3 x]
    by_cases hx : x = s.nextTaskId
    · rw [if_pos hx, if_pos hx]
      rfl
    · rw [if_neg hx, if_neg hx]
      rfl
  have hids3 : (s3.tasks.map Task.id).Nodup := by
    show ((s.tasks ++ [newT]).map Task.id).Nodup
    rw [List.map_append, List.nodup_append]
    refine ⟨hids, List.nodup_singleton _, ?_⟩
    intro a ha hb
    rw [List.mem_map] at ha
    obtain ⟨t, ht, hta⟩ := ha
    have : a = s.nextTaskId := by simpa using hb
    exact absurd (hta.symm ▸ this ▸ hbound t ht) (lt_irrefl _)
  have hfreshq : s.nextTaskId ∉ s.pendingQueue := fun hm => hnp (hqp _ hm)
  refine ⟨hids3, ?_, ?_, ?_, hprN, hcsN, hfsN, ?_, ?_, ?_, ?_, ?_, ?_, hsp, hpsome,
    hcl, hfl, ?_⟩
  · intro t ht
    show t.id < s.nextTaskId + 1
    rcases List.mem_append.mp ht with h1 | h1
    · exact Nat.lt_succ_of_lt (hbound t h1)
    · rw [List.mem_singleton] at h1
      subst h1
      exact Nat.lt_succ_self _
  · show (s.pendingQueue ++ [s.nextTaskId]).Nodup
    rw [List.nodup_append]
    exact ⟨hqN, List.nodup_singleton _, fun a ha hb => by
      rw [List.mem_singleton] at hb
      exact hfreshq (hb ▸ ha)⟩
  · show (s.pendingSet ++ [s.nextTaskId]).Nodup
    rw [List.nodup_append]
    exact ⟨hpsN, List.nodup_singleton _, fun a ha hb => by
      rw [List.mem_singleton] at hb
      exact hnp (hb ▸ ha)⟩
  · intro x hx
    show x ∈ s.pendingSet ++ [s.nextTaskId]
    rcases List.mem_append.mp hx with h1 | h1
    · exact List.mem_append_left _ (hqp x h1)
    · exact List.mem_append_right _ h1
  · intro x hx
    show x ∈ s.pendingQueue ++ [s.nextTaskId]
    rcases List.mem_append.mp hx with h1 | h1
    · exact List.mem_append_left _ (hpq x h1)
    · exact List.mem_append_right _ h1
  · refine bucketOK_of_iff hids3 (fun x => ?_)
    rw [hstat3 x]
    show x ∈ s.pendingSet ++ [s.nextTaskId] ↔ _
    rw [List.mem_append, List.mem_singleton]
    by_cases hx : x = s.nextTaskId
    · simp [hx]
    · rw [if_neg hx, bucket_iff hids hbp x]
      exact ⟨fun h => h.elim (fun h1 => h1) (fun h1 => absurd h1 hx), fun h => Or.inl h⟩
  · refine bucketOK_of_iff hids3 (fun x => ?_)
    rw [hstat3 x]
    show x ∈ s.processingSet ↔ _
    by_cases hx : x = s.nextTaskId
    · subst hx
      rw [if_pos rfl]
      constructor
      · intro hmem
        have h := hbr.1 _ hmem
        rw [hstatF] at h
        cases h
      · intro h
        cases h
    · rw [if_neg hx]
      exact bucket_iff hids hbr x
  · refine bucketOK_of_iff hids3 (fun x => ?_)
    rw [hstat3 x]
    show x ∈ s.completedSet ↔ _
    by_cases hx : x = s.nextTaskId
    · subst hx
      rw [if_pos rfl]
      constructor
      · intro hmem
        have h := hbc.1 _ hmem
        rw [hstatF] at h
        cases h
      · intro h
        cases h
    · rw [if_neg hx]
      exact bucket_iff hids hbc x
  · refine bucketOK_of_iff hids3 (fun x => ?_)
    rw [hstat3 x]
    show x ∈ s.failedSet ↔ _
    by_cases hx : x = s.nextTaskId
    · subst hx
      rw [if_pos rfl]
      constructor
      · intro hmem
        have h := hbf.1 _ hmem
        rw [hstatF] at h
        cases h
      · intro h
        cases h
    · rw [if_neg hx]
      exact bucket_iff hids hbf x
  · intro t ht hst
    rcases List.mem_append.mp ht with h1 | h1
    · exact hclean t h1 hst
    · rw [List.mem_singleton] at h1
      subst h1
      exact ⟨rfl, rfl⟩

/-- Pruning a failed task to re-enqueue its path preserves the invariant. -/
theorem sInv_prune {s : SingleRoundStore} {eid : TaskId} {et : Task} (hInv : sInv s)
    (hfind : findTask s.tasks eid = some et) (hst : et.status = TStatus.failed) :
    sInv { s with
      failedSet := s.failedSet.erase eid
      failedList := removeAll s.failedList eid
      tasks := s.tasks.filter (fun t => decide (t.id ≠ eid)) } := by
  obtain ⟨hids, hbound, hqN, hpsN, hprN, hcsN, hfsN, hqp, hpq, hbp, hbr, hbc,
    hbf, hsp, hpsome, hcl, hfl, hclean⟩ := hInv
  have hstatE : s.statusOf eid = some TStatus.failed := by
    simp [statusOf, taskGet, hfind, hst]
  set s2 : SingleRoundStore := { s with
    failedSet := s.failedSet.erase eid
    failedList := removeAll s.failedList eid
    tasks := s.tasks.filter (fun t => decide (t.id ≠ eid)) } with hs2
  have hids2 : (s2.tasks.map Task.id).Nodup := by
    show ((s.tasks.filter (fun t => decide (t.id ≠ eid))).map Task.id).Nodup
    exact ((s.tasks.filter_sublist).map Task.id).nodup hids
  have hstat2 : ∀ x, s2.statusOf x =
      if x = eid then none else s.statusOf x := by
    intro x
    show (findTask (s.tasks.filter (fun t => decide (t.id ≠ eid))) x).map Task.status = _
    rw [findTask_filter_ne s.tasks eid x]
    by_cases hx : x = eid
    · rw [if_pos hx, if_pos hx]
      rfl
    · rw [if_neg hx, if_neg hx]
      rfl
  refine ⟨hids2, ?_, hqN, hpsN, hprN, hcsN, hfsN.erase eid, hqp, hpq, ?_, ?_, ?_, ?_,
    hsp, hpsome, hcl, ?_, ?_⟩
  · intro t ht
    exact hbound t (List.mem_of_mem_filter ht)
  · refine bucketOK_of_iff hids2 (fun x => ?_)
    rw [hstat2 x]
    show x ∈ s.pendingSet ↔ _
    by_cases hx : x = eid
    · subst hx
      rw [if_pos rfl, bucket_iff hids hbp x, hstatE]
      simp
    · rw [if_neg hx]
      exact bucket_iff hids hbp x
  · refine bucketOK_of_iff hids2 (fun x => ?_)
    rw [hstat2 x]
    show x ∈ s.processingSet ↔ _
    by_cases hx : x = eid
    · subst hx
      rw [if_pos rfl, bucket_iff hids hbr x, hstatE]
      simp
    · rw [if_neg hx]
      exact bucket_iff hids hbr x
  · refine bucketOK_of_iff hids2 (fun x => ?_)
    rw [hstat2 x]
    show x ∈ s.completedSet ↔ _
    by_cases hx : x = eid
    · subst hx
      rw [if_pos rfl, bucket_iff hids hbc x, hstatE]
      simp
    · rw [if_neg hx]
      exact bucket_iff hids hbc x
  · refine bucketOK_of_iff hids2 (fun x => ?_)
    rw [hstat2 x]
    show x ∈ s.failedSet.erase eid ↔ _
    rw [hfsN.mem_erase_iff]
    by_cases hx : x = eid
    · subst hx
      rw [if_pos rfl]
      constructor
      · intro h
        exact absurd rfl h.1
      · intro h
        cases h
    · rw [if_neg hx, bucket_iff hids hbf x]
      exact ⟨fun h => h.2, fun h => ⟨hx, h⟩⟩
  · intro x hx
    show x ∈ s.failedSet.erase eid
    obtain ⟨h1, h2⟩ := mem_removeAll.mp hx
    exact hfsN.mem_erase_iff.mpr ⟨h2, hfl x h1⟩
  · intro t ht hst'
    exact hclean t (List.mem_of_mem_filter ht) hst'

theorem sInv_enqueueOnePath {s : SingleRoundStore} {acc : Nat × Nat × List TaskId}
    {rawPath : String} {now : Int} (hInv : sInv s) :
    sInv (enqueueOnePath s acc rawPath now).1 := by
  obtain ⟨a, sk, ids⟩ := acc
  by_cases hp : rawPath.trim = ""
  · simp only [enqueueOnePath, hp, if_true, ite_true]
    exact hInv
  · cases halook : alookup s.pathToTaskId rawPath.trim with
    | none =>
      simp only [enqueueOnePath, hp, halook, if_false, ite_false, Bool.false_eq_true]
      exact sInv_addNew hInv rawPath.trim now
    | some eid =>
      cases hfind : s.taskGet eid with
      | none =>
        simp only [enqueueOnePath, hp, halook, hfind, if_false, ite_false,
          Bool.false_eq_true]
        exact sInv_addNew hInv rawPath.trim now
      | some et =>
        by_cases hst : et.status = TStatus.failed
        · simp only [enqueueOnePath, hp, halook, hfind, hst, if_false, ite_false,
            ne_eq, not_true_eq_false, Bool.false_eq_true]
          exact sInv_addNew (sInv_prune hInv hfind hst) rawPath.trim now
        · simp only [enqueueOnePath, hp, halook, hfind, if_false, ite_false, ne_eq,
            hst, not_false_eq_true, if_true, ite_true]
          exact hInv

theorem sInv_enqueueFold {now : Int} : ∀ (paths : List String)
    (x : SingleRoundStore × Nat × Nat × List TaskId), sInv x.1 →
    sInv (paths.foldl (fun acc p => enqueueOnePath acc.1 acc.2 p now) x).1 := by
  intro paths
  induction paths with
  | nil => intro x h; exact h
  | cons p paths ih =>
    intro x h
    rw [List.foldl_cons]
    exact ih _ (sInv_enqueueOnePath h)

theorem sInv_enqueueTasksFromPaths {s : SingleRoundStore} {paths : List String}
    {now : Int} (hInv : sInv s) : sInv (enqueueTasksFromPaths s paths now).1 :=
  sInv_enqueueFold paths (s, 0, 0, []) hInv

/-- A store whose collections are all empty satisfies the invariant. -/
theorem sInv_of_empty {s : SingleRoundStore} (ht : s.tasks = [])
    (hq : s.pendingQueue = []) (hps : s.pendingSet = []) (hpr : s.processingSet = [])
    (hsa : s.processingStartedAt = []) (hcs : s.completedSet = [])
    (hcll : s.completedList = []) (hfs : s.failedSet = [])
    (hfll : s.failedList = []) : sInv s := by
  refine ⟨?_, ?_, ?_, ?_, ?_, ?_, ?_, ?_, ?_, ?_, ?_, ?_, ?_, ?_, ?_, ?_, ?_, ?_⟩
  · rw [ht]; exact List.nodup_nil
  · rw [ht]; intro t h; cases h
  · rw [hq]; exact List.nodup_nil
  · rw [hps]; exact List.nodup_nil
  · rw [hpr]; exact List.nodup_nil
  · rw [hcs]; exact List.nodup_nil
  · rw [hfs]; exact List.nodup_nil
  · rw [hq]; intro i h; cases h
  · rw [hps]; intro i h; cases h
  · exact ⟨(fun i h => (by rw [hps] at h; cases h)),
      (fun t h => (by rw [ht] at h; cases h))⟩
  · exact ⟨(fun i h => (by rw [hpr] at h; cases h)),
      (fun t h => (by rw [ht] at h; cases h))⟩
  · exact ⟨(fun i h => (by rw [hcs] at h; cases h)),
      (fun t h => (by rw [ht] at h; cases h))⟩
  · exact ⟨(fun i h => (by rw [hfs] at h; cases h)),
      (fun t h => (by rw [ht] at h; cases h))⟩
  · rw [hsa]; intro p h; cases h
  · rw [hpr]; intro i h; cases h
  · rw [hcll]; intro i h; cases h
  · rw [hfll]; intro i h; cases h
  · rw [ht]; intro t h; cases h

theorem sInv_emptyStore (roundId : String) : sInv (emptyStore roundId) :=
  sInv_of_empty rfl rfl rfl rfl rfl rfl rfl rfl rfl

theorem sInv_clearAllTasks {s : SingleRoundStore} {ns : NodeStatisticsStore}
    {now : Int} : sInv (clearAllTasks s ns now).1 :=
  sInv_of_empty rfl rfl rfl rfl rfl rfl rfl rfl rfl

theorem sInv_getTasksForProcessing {s : SingleRoundStore} {ns : NodeStatisticsStore}
    {b : Nat} {nid : Option String} {now : Int} (hInv : sInv s) :
    sInv (getTasksForProcessing s ns b nid now).2.1 := by
  have h : (getTasksForProcessing s ns b nid now).2.1 =
      (leaseGo s b now (nid.bind (fun n => if n.trim = "" then none else some n.trim))
        []).1 := rfl
  rw [h]
  exact sInv_leaseGo s.pendingQueue.length s b now _ [] le_rfl hInv

theorem sInv_applyOp {x : SingleRoundStore × NodeStatisticsStore} (hInv : sInv x.1)
    (op : ROp) : sInv (applyOp x op).1 := by
  cases op with
  | enqueue paths now => exact sInv_enqueueTasksFromPaths hInv
  | lease b nid now => exact sInv_getTasksForProcessing hInv
  | report tid succ msg now => exact sInv_updateTaskStatus hInv
  | sweep t now => exact sInv_markTimedOutTasksAsFailed hInv
  | clear now => exact @sInv_clearAllTasks x.1 x.2 now

theorem sInv_applyOps (roundId : String) (ops : List ROp) :
    sInv (applyOps roundId ops).1 := by
  have hgen : ∀ (l : List ROp) (x : SingleRoundStore × NodeStatisticsStore),
      sInv x.1 → sInv (l.foldl applyOp x).1 := by
    intro l
    induction l with
    | nil => intro x h; exact h
    | cons op l ih =>
      intro x h
      rw [List.foldl_cons]
      exact ih _ (sInv_applyOp h op)
  exact hgen ops _ (sInv_emptyStore roundId)

/-- Under the invariant the four status sets are pairwise disjoint. -/
theorem sInv_pairwise_disjoint {s : SingleRoundStore} (hInv : sInv s) :
    (∀ id ∈ s.pendingSet, id ∉ s.processingSet ∧ id ∉ s.completedSet ∧
      id ∉ s.failedSet) ∧
    (∀ id ∈ s.processingSet, id ∉ s.completedSet ∧ id ∉ s.failedSet) ∧
    (∀ id ∈ s.completedSet, id ∉ s.failedSet) := by
  obtain ⟨hids, _, _, _, _, _, _, _, _, hbp, hbr, hbc, hbf, _⟩ := hInv
  have hmix : ∀ {b1 b2 : List TaskId} {st1 st2 : TStatus}, bucketOK s b1 st1 →
      bucketOK s b2 st2 → st1 ≠ st2 → ∀ id ∈ b1, id ∉ b2 := by
    intro b1 b2 st1 st2 h1 h2 hne id hid hid2
    have e1 := h1.1 id hid
    have e2 := h2.1 id hid2
    rw [e1] at e2
    exact hne (Option.some.inj e2)
  refine ⟨fun id hid => ⟨?_, ?_, ?_⟩, fun id hid => ⟨?_, ?_⟩, fun id hid => ?_⟩
  · exact hmix hbp hbr (by decide) id hid
  · exact hmix hbp hbc (by decide) id hid
  · exact hmix hbp hbf (by decide) id hid
  · exact hmix hbr hbc (by decide) id hid
  · exact hmix hbr hbf (by decide) id hid
  · exact hmix hbc hbf (by decide) id hid

/-- C3: after any sequence of enqueue, lease, report, sweep and clear
operations on a fresh round, the four status buckets partition the task
population: pending + processing + completed + failed counts sum to the total
task count, and the four status sets are pairwise disjoint. -/
theorem status_partition_invariant (roundId : String) (ops : List ROp) :
    ((applyOps roundId ops).1.getCounts.pending +
      (applyOps roundId ops).1.getCounts.processing +
      (applyOps roundId ops).1.getCounts.completed +
      (applyOps roundId ops).1.getCounts.failed =
      (applyOps roundId ops).1.getCounts.total) ∧
    (∀ id ∈ (applyOps roundId ops).1.pendingSet,
      id ∉ (applyOps roundId ops).1.processingSet ∧
      id ∉ (applyOps roundId ops).1.completedSet ∧
      id ∉ (applyOps roundId ops).1.failedSet) ∧
    (∀ id ∈ (applyOps roundId ops).1.processingSet,
      id ∉ (applyOps roundId ops).1.completedSet ∧
      id ∉ (applyOps roundId ops).1.failedSet) ∧
    (∀ id ∈ (applyOps roundId ops).1.completedSet,
      id ∉ (applyOps roundId ops).1.failedSet) := by
  have hInv := sInv_applyOps roundId ops
  obtain ⟨hd1, hd2, hd3⟩ := sInv_pairwise_disjoint hInv
  refine ⟨?_, hd1, hd2, hd3⟩
  obtain ⟨hids, _, _, hpsN, hprN, hcsN, hfsN, _, _, hbp, hbr, hbc, hbf, _⟩ := hInv
  show (applyOps roundId ops).1.pendingSet.length +
    (applyOps roundId ops).1.processingSet.length +
    (applyOps roundId ops).1.completedSet.length +
    (applyOps roundId ops).1.failedSet.length = (applyOps roundId ops).1.tasks.length
  rw [bucket_length hids hpsN hbp, bucket_length hids hprN hbr,
    bucket_length hids hcsN hbc, bucket_length hids hfsN hbf]
  exact count_partition _

theorem foldl_taskPut_fresh : ∀ (ts : List Task) (acc : List Task),
    (ts.map Task.id).Nodup → (∀ t ∈ ts, findTask acc t.id = none) →
    ts.foldl (fun a t => taskPut a t) acc = acc ++ ts := by
  intro ts
  induction ts with
  | nil =>
    intro acc _ _
    simp
  | cons t ts ih =>
    intro acc hnd hacc
    rw [List.map_cons, List.nodup_cons] at hnd
    have hput : taskPut acc t = acc ++ [t] := by
      rw [taskPut, hacc t (List.mem_cons_self t ts)]
      rfl
    rw [List.foldl_cons, hput, ih (acc ++ [t]) hnd.2 ?_]
    · simp
    · intro u hu
      rw [findTask_append_of_none _ (hacc u (List.mem_cons_of_mem _ hu))]
      rw [findTask_cons, if_neg]
      · rfl
      · intro he
        exact hnd.1 (he ▸ (List.mem_map.mpr ⟨u, hu, rfl⟩))

theorem length_eq_of_nodup_iff {l1 l2 : List TaskId} (h1 : l1.Nodup) (h2 : l2.Nodup)
    (h : ∀ x, x ∈ l1 ↔ x ∈ l2) : l1.length = l2.length :=
  (List.perm_of_nodup_nodup_toFinset_eq h1 h2 (by
    ext x
    simp only [List.mem_toFinset]
    exact h x)).length_eq

/-- C8: for an invariant-satisfying round store, taking a snapshot and
restoring from it is an identity on the externally observable state: the task
table, the per-status counts, the processed aggregates, the per-status id
sets, and even the pending FIFO and completion/failure order lists are all
preserved (with no live ids, only stale interleavings could be dropped, and
the invariant rules those out). -/
theorem snapshot_roundtrip_identity {s : SingleRoundStore} (hInv : sInv s) :
    (fromSnapshot (toSnapshot s)).tasks = s.tasks ∧
    getCounts (fromSnapshot (toSnapshot s)) = getCounts s ∧
    ((fromSnapshot (toSnapshot s)).totalProcessedItemNum = s.totalProcessedItemNum ∧
     (fromSnapshot (toSnapshot s)).totalProcessedRunningTime =
       s.totalProcessedRunningTime ∧
     (fromSnapshot (toSnapshot s)).lastProcessedAt = s.lastProcessedAt ∧
     (fromSnapshot (toSnapshot s)).roundId = s.roundId) ∧
    (∀ id, (id ∈ (fromSnapshot (toSnapshot s)).pendingSet ↔ id ∈ s.pendingSet) ∧
      (id ∈ (fromSnapshot (toSnapshot s)).processingSet ↔ id ∈ s.processingSet) ∧
      (id ∈ (fromSnapshot (toSnapshot s)).completedSet ↔ id ∈ s.completedSet) ∧
      (id ∈ (fromSnapshot (toSnapshot s)).failedSet ↔ id ∈ s.failedSet)) ∧
    ((fromSnapshot (toSnapshot s)).pendingQueue = s.pendingQueue ∧
     (fromSnapshot (toSnapshot s)).completedList = s.completedList ∧
     (fromSnapshot (toSnapshot s)).failedList = s.failedList) := by
  obtain ⟨hids, hbound, hqN, hpsN, hprN, hcsN, hfsN, hqp, hpq, hbp, hbr, hbc,
    hbf, hsp, hpsome, hcl, hfl, hclean⟩ := hInv
  have hfold : s.tasks.foldl (fun a t => taskPut a t) [] = s.tasks := by
    rw [foldl_taskPut_fresh s.tasks [] hids (fun t _ => rfl)]
    rfl
  have hsome_of_stat : ∀ {x : TaskId} {st : TStatus}, s.statusOf x = some st →
      (findTask s.tasks x).isSome = true := by
    intro x st h
    simp only [statusOf, taskGet, Option.map_eq_some'] at h
    obtain ⟨t, ht, _⟩ := h
    rw [ht]
    rfl
  have hmemPexpr : ∀ x, x ∈
      ((s.tasks.filter (fun t => decide (t.status = TStatus.pending))).map
        (fun t => t.id)).foldl (fun acc id => sadd acc id) ([] : List TaskId) ↔
      x ∈ s.pendingSet := by
    intro x
    rw [mem_foldl_sadd]
    simp only [List.mem_map, List.mem_filter, decide_eq_true_eq, List.not_mem_nil,
      false_or]
    rw [bucket_iff hids hbp x, statusOf_eq_some_iff hids]
    constructor
    · rintro ⟨t, ⟨ht, hst⟩, hid⟩
      exact ⟨t, ht, hid, hst⟩
    · rintro ⟨t, ht, hid, hst⟩
      exact ⟨t, ⟨ht, hst⟩, hid⟩
  have hmemR0expr : ∀ x, x ∈
      ((s.tasks.filter (fun t => decide (t.status = TStatus.processing))).map
        (fun t => t.id)).foldl (fun acc id => sadd acc id) ([] : List TaskId) ↔
      x ∈ s.processingSet := by
    intro x
    rw [mem_foldl_sadd]
    simp only [List.mem_map, List.mem_filter, decide_eq_true_eq, List.not_mem_nil,
      false_or]
    rw [bucket_iff hids hbr x, statusOf_eq_some_iff hids]
    constructor
    · rintro ⟨t, ⟨ht, hst⟩, hid⟩
      exact ⟨t, ht, hid, hst⟩
    · rintro ⟨t, ht, hid, hst⟩
      exact ⟨t, ⟨ht, hst⟩, hid⟩
  have hmemCexpr : ∀ x, x ∈
      ((s.tasks.filter (fun t => decide (t.status = TStatus.completed))).map
        (fun t => t.id)).foldl (fun acc id => sadd acc id)
        (jsSetOf s.completedList) ↔ x ∈ s.completedSet := by
    intro x
    rw [mem_foldl_sadd, mem_jsSetOf]
    simp only [List.mem_map, List.mem_filter, decide_eq_true_eq]
    constructor
    · intro h
      rcases h with h | ⟨t, ⟨ht, hst⟩, hid⟩
      · exact hcl x h
      · rw [bucket_iff hids hbc x, statusOf_eq_some_iff hids]
        exact ⟨t, ht, hid, hst⟩
    · intro h
      right
      have h2 := (bucket_iff hids hbc x).mp h
      obtain ⟨t, ht, hid, hst⟩ := (statusOf_eq_some_iff hids).mp h2
      exact ⟨t, ⟨ht, hst⟩, hid⟩
  have hmemFexpr : ∀ x, x ∈
      ((s.tasks.filter (fun t => decide (t.status = TStatus.failed))).map
        (fun t => t.id)).foldl (fun acc id => sadd acc id)
        (jsSetOf s.failedList) ↔ x ∈ s.failedSet := by
    intro x
    rw [mem_foldl_sadd, mem_jsSetOf]
    simp only [List.mem_map, List.mem_filter, decide_eq_true_eq]
    constructor
    · intro h
      rcases h with h | ⟨t, ⟨ht, hst⟩, hid⟩
      · exact hfl x h
      · rw [bucket_iff hids hbf x, statusOf_eq_some_iff hids]
        exact ⟨t, ht, hid, hst⟩
    · intro h
      right
      have h2 := (bucket_iff hids hbf x).mp h
      obtain ⟨t, ht, hid, hst⟩ := (statusOf_eq_some_iff hids).mp h2
      exact ⟨t, ⟨ht, hst⟩, hid⟩
  have htasks : (fromSnapshot (toSnapshot s)).tasks = s.tasks := hfold
  have hstartedEq : (fromSnapshot (toSnapshot s)).processingStartedAt =
      s.processingStartedAt := by
    show s.processingStartedAt.filter _ = s.processingStartedAt
    rw [List.filter_eq_self]
    intro p hp
    have hpr1 : p.1 ∈ s.processingSet := hsp p hp
    have hstat : s.statusOf p.1 = some TStatus.processing := hbr.1 p.1 hpr1
    rw [Bool.and_eq_true]
    constructor
    · show (findTask (s.tasks.foldl (fun a t => taskPut a t) []) p.1).isSome = true
      rw [hfold]
      exact hsome_of_stat hstat
    · exact decide_eq_true ((hmemR0expr p.1).mpr hpr1)
  have hmemR : ∀ x, x ∈ (fromSnapshot (toSnapshot s)).processingSet ↔
      x ∈ s.processingSet := by
    intro x
    show x ∈ jsSetOf (((toSnapshot s).processingStartedAt.filter _).map
      (fun p => p.1)) ↔ _
    rw [show ((toSnapshot s).processingStartedAt.filter
        (fun p => ((findTask ((toSnapshot s).tasks.foldl (fun a t => taskPut a t) [])
          p.1).isSome : Bool) && decide (p.1 ∈
          (((toSnapshot s).tasks.filter (fun t =>
            decide (t.status = TStatus.processing))).map (fun t => t.id)).foldl
            (fun acc id => sadd acc id) ([] : List TaskId)))) =
        s.processingStartedAt from hstartedEq]
    rw [mem_jsSetOf]
    constructor
    · intro h
      obtain ⟨p, hp, hpx⟩ := List.mem_map.mp h
      exact hpx ▸ hsp p hp
    · intro h
      have h2 := hpsome x h
      obtain ⟨p, hp, hpx⟩ := (alookup_isSome_iff _ _).mp h2
      exact List.mem_map.mpr ⟨p, hp, hpx⟩
  have hqueue : (fromSnapshot (toSnapshot s)).pendingQueue = s.pendingQueue := by
    show s.pendingQueue.filter _ = s.pendingQueue
    rw [List.filter_eq_self]
    intro x hx
    have hxp : x ∈ s.pendingSet := hqp x hx
    rw [Bool.and_eq_true]
    constructor
    · show (findTask (s.tasks.foldl (fun a t => taskPut a t) []) x).isSome = true
      rw [hfold]
      exact hsome_of_stat (hbp.1 x hxp)
    · exact decide_eq_true ((hmemPexpr x).mpr hxp)
  have hclist : (fromSnapshot (toSnapshot s)).completedList = s.completedList := by
    show s.completedList.filter _ = s.completedList
    rw [List.filter_eq_self]
    intro x hx
    have hxc : x ∈ s.completedSet := hcl x hx
    rw [Bool.and_eq_true]
    constructor
    · show (findTask (s.tasks.foldl (fun a t => taskPut a t) []) x).isSome = true
      rw [hfold]
      exact hsome_of_stat (hbc.1 x hxc)
    · exact decide_eq_true ((hmemCexpr x).mpr hxc)
  have hflist : (fromSnapshot (toSnapshot s)).failedList = s.failedList := by
    show s.failedList.filter _ = s.failedList
    rw [List.filter_eq_self]
    intro x hx
    have hxf : x ∈ s.failedSet := hfl x hx
    rw [Bool.and_eq_true]
    constructor
    · show (findTask (s.tasks.foldl (fun a t => taskPut a t) []) x).isSome = true
      rw [hfold]
      exact hsome_of_stat (hbf.1 x hxf)
    · exact decide_eq_true ((hmemFexpr x).mpr hxf)
  refine ⟨htasks, ?_, ⟨rfl, rfl, rfl, rfl⟩, ?_, hqueue, hclist, hflist⟩
  · have h1 : (fromSnapshot (toSnapshot s)).tasks.length = s.tasks.length := by
      rw [htasks]
    have h2 : (fromSnapshot (toSnapshot s)).pendingSet.length =
        s.pendingSet.length :=
      length_eq_of_nodup_iff (nodup_foldl_sadd List.nodup_nil) hpsN hmemPexpr
    have h3 : (fromSnapshot (toSnapshot s)).processingSet.length =
        s.processingSet.length :=
      length_eq_of_nodup_iff (nodup_jsSetOf _) hprN hmemR
    have h4 : (fromSnapshot (toSnapshot s)).completedSet.length =
        s.completedSet.length :=
      length_eq_of_nodup_iff (nodup_foldl_sadd (nodup_jsSetOf _)) hcsN hmemCexpr
    have h5 : (fromSnapshot (toSnapshot s)).failedSet.length =
        s.failedSet.length :=
      length_eq_of_nodup_iff (nodup_foldl_sadd (nodup_jsSetOf _)) hfsN hmemFexpr
    show ({ total := (fromSnapshot (toSnapshot s)).tasks.length
            pending := (fromSnapshot (toSnapshot s)).pendingSet.length
            processing := (fromSnapshot (toSnapshot s)).processingSet.length
            completed := (fromSnapshot (toSnapshot s)).completedSet.length
            failed := (fromSnapshot (toSnapshot s)).failedSet.length } : TaskCounts) =
      { total := s.tasks.length, pending := s.pendingSet.length
        processing := s.processingSet.length, completed := s.completedSet.length
        failed := s.failedSet.length }
    rw [h1, h2, h3, h4, h5]
  · intro id
    exact ⟨hmemPexpr id, hmemR id, hmemCexpr id, hmemFexpr id⟩

end SingleRoundStore

theorem alookup_mem {α β : Type} [DecidableEq α] {l : List (α × β)} {k : α} {v : β}
    (h : alookup l k = some v) : (k, v) ∈ l := by
  induction l with
  | nil => cases h
  | cons p l ih =>
    rw [alookup_cons] at h
    by_cases hp : p.1 = k
    · rw [if_pos hp] at h
      have : p = (k, v) := by
        obtain ⟨p1, p2⟩ := p
        cases h
        cases hp
        rfl
      exact this ▸ List.mem_cons_self _ _
    · rw [if_neg hp] at h
      exact List.mem_cons_of_mem _ (ih h)

theorem sum_map_filter_split {α : Type} (f : α → ℚ) (p : α → Prop) [DecidablePred p]
    (l : List α) :
    ((l.filter (fun x => decide (p x))).map f).sum +
      ((l.filter (fun x => decide (¬ p x))).map f).sum = (l.map f).sum := by
  induction l with
  | nil => simp
  | cons a l ih =>
    by_cases h : p a
    · rw [List.filter_cons_of_pos (by simpa using h),
        List.filter_cons_of_neg (by simp [h])]
      simp only [List.map_cons, List.sum_cons]
      rw [← ih]
      ring
    · rw [List.filter_cons_of_neg (by simp [h]),
        List.filter_cons_of_pos (by simp [h])]
      simp only [List.map_cons, List.sum_cons]
      rw [← ih]
      ring

theorem sum_map_take_drop {α : Type} (f : α → ℚ) (l : List α) (e : Nat) :
    ((l.take e).map f).sum + ((l.drop e).map f).sum = (l.map f).sum := by
  conv_rhs => rw [← List.take_append_drop e l]
  rw [List.map_append, List.sum_append]

namespace NodeStatisticsStore

theorem getOrCreate_found {ns : NodeStatisticsStore} {nid : String} {st : NodeStats}
    {ref : Int} (h : alookup ns.nodeStats nid = some st) :
    ns.getOrCreate nid ref = (st, ns) := by
  simp [getOrCreate, h]

theorem getOrCreate_missing {ns : NodeStatisticsStore} {nid : String} {ref : Int}
    (h : alookup ns.nodeStats nid = none) :
    ns.getOrCreate nid ref = (freshNodeStats nid ref,
      { ns with nodeStats := aset ns.nodeStats nid (freshNodeStats nid ref) }) := by
  simp [getOrCreate, h]

theorem alookup_setStats (ns : NodeStatisticsStore) (m : String) (st : NodeStats)
    (n : String) : alookup (ns.setStats m st).nodeStats n =
      if m = n then some st else alookup ns.nodeStats n := by
  show alookup (aset ns.nodeStats m st) n = _
  exact alookup_aset ns.nodeStats m st n

theorem ensureActiveSet_nodeStats (ns : NodeStatisticsStore) (m : String) :
    (ns.ensureActiveSet m).2.nodeStats = ns.nodeStats := by
  cases h : alookup ns.nodeActiveTasks m <;> simp [ensureActiveSet, h]

theorem totalItemOf_setStats_same {ns : NodeStatisticsStore} {m : String}
    {st st' : NodeStats} (h : alookup ns.nodeStats m = some st)
    (hsame : st'.totalItemNum = st.totalItemNum) (n : String) :
    totalItemOf (ns.setStats m st') n = totalItemOf ns n := by
  unfold totalItemOf
  rw [alookup_setStats]
  by_cases hmn : m = n
  · subst hmn
    rw [if_pos rfl, h]
    exact hsame
  · rw [if_neg hmn]

theorem totalTimeOf_setStats_same {ns : NodeStatisticsStore} {m : String}
    {st st' : NodeStats} (h : alookup ns.nodeStats m = some st)
    (hsame : st'.totalRunningTime = st.totalRunningTime) (n : String) :
    totalTimeOf (ns.setStats m st') n = totalTimeOf ns n := by
  unfold totalTimeOf
  rw [alookup_setStats]
  by_cases hmn : m = n
  · subst hmn
    rw [if_pos rfl, h]
    exact hsame
  · rw [if_neg hmn]

theorem archiveConsistent_setStats {ns : NodeStatisticsStore} {m : String}
    {st' : NodeStats} (hAC : archiveConsistent ns)
    (hst' : st'.archivedItemNum +
        (st'.recentRecords.map (fun r => r.itemNum)).sum = st'.totalItemNum ∧
      st'.archivedRunningTime +
        (st'.recentRecords.map (fun r => r.runningTime)).sum = st'.totalRunningTime) :
    archiveConsistent (ns.setStats m st') := by
  intro n st h
  rw [alookup_setStats] at h
  by_cases hmn : m = n
  · rw [if_pos hmn] at h
    cases h
    exact hst'
  · rw [if_neg hmn] at h
    exact hAC n st h

theorem totalItemOf_updateActiveSnapshot (ns : NodeStatisticsStore) (m n : String) :
    totalItemOf (ns.updateActiveSnapshot m) n = totalItemOf ns n := by
  cases h : alookup ns.nodeStats m with
  | none => simp [updateActiveSnapshot, h]
  | some st =>
    rw [show ns.updateActiveSnapshot m =
      ns.setStats m { st with activeTaskIds := (alookup ns.nodeActiveTasks m).getD [] }
      from by simp [updateActiveSnapshot, h]]
    refine totalItemOf_setStats_same h ?_ n
    rfl

theorem totalTimeOf_updateActiveSnapshot (ns : NodeStatisticsStore) (m n : String) :
    totalTimeOf (ns.updateActiveSnapshot m) n = totalTimeOf ns n := by
  cases h : alookup ns.nodeStats m with
  | none => simp [updateActiveSnapshot, h]
  | some st =>
    rw [show ns.updateActiveSnapshot m =
      ns.setStats m { st with activeTaskIds := (alookup ns.nodeActiveTasks m).getD [] }
      from by simp [updateActiveSnapshot, h]]
    refine totalTimeOf_setStats_same h ?_ n
    rfl

theorem archiveConsistent_updateActiveSnapshot {ns : NodeStatisticsStore}
    (hAC : archiveConsistent ns) (m : String) :
    archiveConsistent (ns.updateActiveSnapshot m) := by
  cases h : alookup ns.nodeStats m with
  | none =>
    rw [show ns.updateActiveSnapshot m = ns from by simp [updateActiveSnapshot, h]]
    exact hAC
  | some st =>
    rw [show ns.updateActiveSnapshot m =
      ns.setStats m { st with activeTaskIds := (alookup ns.nodeActiveTasks m).getD [] }
      from by simp [updateActiveSnapshot, h]]
    exact archiveConsistent_setStats hAC (hAC m st h)

theorem totalItemOf_uas_fold (l : List (String × NodeStats)) :
    ∀ (ns : NodeStatisticsStore) (n : String),
    totalItemOf (l.foldl (fun acc p => acc.updateActiveSnapshot p.1) ns) n =
      totalItemOf ns n := by
  induction l with
  | nil => intro ns n; rfl
  | cons p l ih =>
    intro ns n
    rw [List.foldl_cons, ih, totalItemOf_updateActiveSnapshot]

theorem totalTimeOf_uas_fold (l : List (String × NodeStats)) :
    ∀ (ns : NodeStatisticsStore) (n : String),
    totalTimeOf (l.foldl (fun acc p => acc.updateActiveSnapshot p.1) ns) n =
      totalTimeOf ns n := by
  induction l with
  | nil => intro ns n; rfl
  | cons p l ih =>
    intro ns n
    rw [List.foldl_cons, ih, totalTimeOf_updateActiveSnapshot]

theorem archiveConsistent_uas_fold (l : List (String × NodeStats)) :
    ∀ {ns : NodeStatisticsStore}, archiveConsistent ns →
    archiveConsistent (l.foldl (fun acc p => acc.updateActiveSnapshot p.1) ns) := by
  induction l with
  | nil => intro ns h; exact h
  | cons p l ih =>
    intro ns h
    rw [List.foldl_cons]
    exact ih (archiveConsistent_updateActiveSnapshot h p.1)

theorem alookup_map_snd {α β : Type} [DecidableEq α] (l : List (α × β)) (f : β → β)
    (k : α) : alookup (l.map (fun p => (p.1, f p.2))) k = (alookup l k).map f := by
  induction l with
  | nil => rfl
  | cons p l ih =>
    rw [List.map_cons, alookup_cons, alookup_cons]
    by_cases hp : p.1 = k
    · rw [if_pos hp, if_pos hp]
      rfl
    · rw [if_neg hp, if_neg hp]
      exact ih

theorem trim_totalItem (st : NodeStats) (ref : Int) :
    (trimAndArchiveNodeRecords st ref).totalItemNum = st.totalItemNum := by
  simp only [trimAndArchiveNodeRecords]
  split
  · rfl
  · split
    · rfl
    · rfl

theorem trim_totalTime (st : NodeStats) (ref : Int) :
    (trimAndArchiveNodeRecords st ref).totalRunningTime = st.totalRunningTime := by
  simp only [trimAndArchiveNodeRecords]
  split
  · rfl
  · split
    · rfl
    · rfl

theorem trim_archiveConsistent (st : NodeStats) (ref : Int)
    (h : st.archivedItemNum + (st.recentRecords.map (fun r => r.itemNum)).sum =
        st.totalItemNum ∧
      st.archivedRunningTime + (st.recentRecords.map (fun r => r.runningTime)).sum =
        st.totalRunningTime) :
    (trimAndArchiveNodeRecords st ref).archivedItemNum +
      ((trimAndArchiveNodeRecords st ref).recentRecords.map (fun r => r.itemNum)).sum =
      (trimAndArchiveNodeRecords st ref).totalItemNum ∧
    (trimAndArchiveNodeRecords st ref).archivedRunningTime +
      ((trimAndArchiveNodeRecords st ref).recentRecords.map
        (fun r => r.runningTime)).sum =
      (trimAndArchiveNodeRecords st ref).totalRunningTime := by
  have hsplitI := sum_map_filter_split (fun r => r.itemNum)
    (fun r => (ref - NODE_RECENT_WINDOW_MS) ≤ r.timestamp) st.recentRecords
  have hsplitT := sum_map_filter_split (fun r => r.runningTime)
    (fun r => (ref - NODE_RECENT_WINDOW_MS) ≤ r.timestamp) st.recentRecords
  simp only [trimAndArchiveNodeRecords]
  split
  · exact h
  · rename_i h1
    set keep := st.recentRecords.filter
      (fun r => decide ((ref - NODE_RECENT_WINDOW_MS) ≤ r.timestamp)) with hkeep
    set old := st.recentRecords.filter
      (fun r => decide (¬ (ref - NODE_RECENT_WINDOW_MS) ≤ r.timestamp)) with hold
    set e := keep.length - MAX_RECENT_NODE_HISTORY with he
    have htdI := sum_map_take_drop (fun r => r.itemNum) keep e
    have htdT := sum_map_take_drop (fun r => r.runningTime) keep e
    split
    · rename_i h2
      obtain ⟨ho, ht⟩ := List.append_eq_nil.mp h2
      have hdrop : keep.drop e = keep := by
        rcases List.take_eq_nil_iff.mp ht with h3 | h3
        · rw [h3]
          rfl
        · rw [h3]
          simp [h3]
      have hoI : (old.map (fun r => r.itemNum)).sum = 0 := by
        rw [ho]
        rfl
      have hoT : (old.map (fun r => r.runningTime)).sum = 0 := by
        rw [ho]
        rfl
      constructor
      · dsimp only
        rw [hdrop]
        rw [hoI] at hsplitI
        rw [← h.1, ← hsplitI]
        ring
      · dsimp only
        rw [hdrop]
        rw [hoT] at hsplitT
        rw [← h.2, ← hsplitT]
        ring
    · constructor
      · dsimp only
        rw [List.map_append, List.sum_append]
        rw [← h.1, ← hsplitI, ← htdI]
        ring
      · dsimp only
        rw [List.map_append, List.sum_append]
        rw [← h.2, ← hsplitT, ← htdT]
        ring

theorem agg_totalItem (st : NodeStats) :
    (updateNodeAggregates st).totalItemNum = st.totalItemNum := rfl

theorem agg_totalTime (st : NodeStats) :
    (updateNodeAggregates st).totalRunningTime = st.totalRunningTime := rfl

theorem agg_archivedItem (st : NodeStats) :
    (updateNodeAggregates st).archivedItemNum = st.archivedItemNum := rfl

theorem agg_archivedTime (st : NodeStats) :
    (updateNodeAggregates st).archivedRunningTime = st.archivedRunningTime := rfl

theorem agg_recent (st : NodeStats) :
    (updateNodeAggregates st).recentRecords = st.recentRecords := rfl

theorem totalItemOf_archiveOutdated (ns : NodeStatisticsStore) (ref : Int)
    (n : String) : totalItemOf (ns.archiveOutdated ref) n = totalItemOf ns n := by
  show totalItemOf (List.foldl _ _ _) n = _
  rw [totalItemOf_uas_fold]
  show totalItemOf { ns with nodeStats := ns.nodeStats.map (fun p =>
    (p.1, updateNodeAggregates (trimAndArchiveNodeRecords p.2 ref))) } n = _
  unfold totalItemOf
  show (match alookup (ns.nodeStats.map (fun p =>
    (p.1, updateNodeAggregates (trimAndArchiveNodeRecords p.2 ref)))) n with
    | some st => st.totalItemNum
    | none => 0) = _
  rw [alookup_map_snd ns.nodeStats
    (fun b => updateNodeAggregates (trimAndArchiveNodeRecords b ref)) n]
  cases h : alookup ns.nodeStats n with
  | none => rfl
  | some st =>
    show (updateNodeAggregates (trimAndArchiveNodeRecords st ref)).totalItemNum = _
    rw [agg_totalItem, trim_totalItem]

theorem totalTimeOf_archiveOutdated (ns : NodeStatisticsStore) (ref : Int)
    (n : String) : totalTimeOf (ns.archiveOutdated ref) n = totalTimeOf ns n := by
  show totalTimeOf (List.foldl _ _ _) n = _
  rw [totalTimeOf_uas_fold]
  show totalTimeOf { ns with nodeStats := ns.nodeStats.map (fun p =>
    (p.1, updateNodeAggregates (trimAndArchiveNodeRecords p.2 ref))) } n = _
  unfold totalTimeOf
  show (match alookup (ns.nodeStats.map (fun p =>
    (p.1, updateNodeAggregates (trimAndArchiveNodeRecords p.2 ref)))) n with
    | some st => st.totalRunningTime
    | none => 0) = _
  rw [alookup_map_snd ns.nodeStats
    (fun b => updateNodeAggregates (trimAndArchiveNodeRecords b ref)) n]
  cases h : alookup ns.nodeStats n with
  | none => rfl
  | some st =>
    show (updateNodeAggregates (trimAndArchiveNodeRecords st ref)).totalRunningTime = _
    rw [agg_totalTime, trim_totalTime]

theorem archiveConsistent_archiveOutdated {ns : NodeStatisticsStore}
    (hAC : archiveConsistent ns) (ref : Int) :
    archiveConsistent (ns.archiveOutdated ref) := by
  refine archiveConsistent_uas_fold _ ?_
  intro n st h
  rw [show ({ ns with nodeStats := ns.nodeStats.map (fun p =>
      (p.1, updateNodeAggregates (trimAndArchiveNodeRecords p.2 ref))) } :
      NodeStatisticsStore).nodeStats = ns.nodeStats.map (fun p =>
      (p.1, updateNodeAggregates (trimAndArchiveNodeRecords p.2 ref))) from rfl] at h
  rw [alookup_map_snd ns.nodeStats
    (fun b => updateNodeAggregates (trimAndArchiveNodeRecords b ref)) n] at h
  cases hq : alookup ns.nodeStats n with
  | none =>
    rw [hq] at h
    cases h
  | some st0 =>
    rw [hq] at h
    have hst : st = updateNodeAggregates (trimAndArchiveNodeRecords st0 ref) := by
      cases h
      rfl
    subst hst
    have htr := trim_archiveConsistent st0 ref (hAC n st0 hq)
    constructor
    · show (updateNodeAggregates (trimAndArchiveNodeRecords st0 ref)).archivedItemNum +
        ((updateNodeAggregates
          (trimAndArchiveNodeRecords st0 ref)).recentRecords.map
            (fun r => r.itemNum)).sum = _
      rw [agg_totalItem, agg_archivedItem, agg_recent]
      exact htr.1
    · rw [agg_totalTime, agg_archivedTime, agg_recent]
      exact htr.2

theorem viewEq_refl (a : Option NodeStats) : viewEq a a := Or.inl rfl

theorem viewEq_trans {a b c : Option NodeStats} (h1 : viewEq a b) (h2 : viewEq b c) :
    viewEq a c := by
  rcases h1 with h1 | ⟨h1, h1b⟩
  · rcases h2 with h2 | ⟨h2, h2c⟩
    · exact Or.inl (h1.trans h2)
    · exact Or.inr ⟨h1.trans h2, h2c⟩
  · subst h1b
    rcases h2 with h2 | ⟨h2, h2c⟩
    · cases hc : c with
      | none => exact Or.inr ⟨h1, rfl⟩
      | some x =>
        rw [hc] at h2
        cases h2
    · cases h2
  
theorem totalItemOf_of_viewEq {X ns : NodeStatisticsStore} {n : String}
    (h : viewEq (alookup X.nodeStats n) (alookup ns.nodeStats n)) :
    totalItemOf X n = totalItemOf ns n := by
  unfold totalItemOf
  cases ha : alookup X.nodeStats n with
  | none =>
    cases hb : alookup ns.nodeStats n with
    | none => rfl
    | some b =>
      rw [ha, hb] at h
      rcases h with h | ⟨h1, _⟩
      · simp at h
      · simp at h1
  | some a =>
    cases hb : alookup ns.nodeStats n with
    | none =>
      rw [ha, hb] at h
      rcases h with h | ⟨h1, _⟩
      · simp at h
      · show a.totalItemNum = 0
        rw [Option.map_some'] at h1
        exact congrArg (fun q => q.1) (Option.some.inj h1)
    | some b =>
      rw [ha, hb] at h
      rcases h with h | ⟨_, h2⟩
      · show a.totalItemNum = b.totalItemNum
        rw [Option.map_some', Option.map_some'] at h
        exact congrArg (fun q => q.1) (Option.some.inj h)
      · simp at h2

theorem totalTimeOf_of_viewEq {X ns : NodeStatisticsStore} {n : String}
    (h : viewEq (alookup X.nodeStats n) (alookup ns.nodeStats n)) :
    totalTimeOf X n = totalTimeOf ns n := by
  unfold totalTimeOf
  cases ha : alookup X.nodeStats n with
  | none =>
    cases hb : alookup ns.nodeStats n with
    | none => rfl
    | some b =>
      rw [ha, hb] at h
      rcases h with h | ⟨h1, _⟩
      · simp at h
      · simp at h1
  | some a =>
    cases hb : alookup ns.nodeStats n with
    | none =>
      rw [ha, hb] at h
      rcases h with h | ⟨h1, _⟩
      · simp at h
      · show a.totalRunningTime = 0
        rw [Option.map_some'] at h1
        exact congrArg (fun q => q.2.1) (Option.some.inj h1)
    | some b =>
      rw [ha, hb] at h
      rcases h with h | ⟨_, h2⟩
      · show a.totalRunningTime = b.totalRunningTime
        rw [Option.map_some', Option.map_some'] at h
        exact congrArg (fun q => q.2.1) (Option.some.inj h)
      · simp at h2

theorem archiveConsistent_of_viewPres {X ns : NodeStatisticsStore}
    (h : ∀ n, viewEq (alookup X.nodeStats n) (alookup ns.nodeStats n))
    (hAC : archiveConsistent ns) : archiveConsistent X := by
  intro n st hst
  have hv := h n
  rw [hst] at hv
  rcases hv with hv | ⟨hv, _⟩
  · cases hb : alookup ns.nodeStats n with
    | none =>
      rw [hb] at hv
      simp at hv
    | some st0 =>
      rw [hb] at hv
      rw [Option.map_some', Option.map_some'] at hv
      have hsv : statView st = statView st0 := Option.some.inj hv
      have h1 : st.totalItemNum = st0.totalItemNum :=
        congrArg (fun q => q.1) hsv
      have h2 : st.totalRunningTime = st0.totalRunningTime :=
        congrArg (fun q => q.2.1) hsv
      have h3 : st.archivedItemNum = st0.archivedItemNum :=
        congrArg (fun q => q.2.2.1) hsv
      have h4 : st.archivedRunningTime = st0.archivedRunningTime :=
        congrArg (fun q => q.2.2.2.1) hsv
      have h5 : st.recentRecords = st0.recentRecords :=
        congrArg (fun q => q.2.2.2.2) hsv
      rw [h1, h2, h3, h4, h5]
      exact hAC n st0 hb
  · rw [Option.map_some'] at hv
    have hsv : statView st = ((0 : ℚ), (0 : ℚ), (0 : ℚ), (0 : ℚ),
        ([] : List NodePerformanceRecord)) := Option.some.inj hv
    have h1 : st.totalItemNum = 0 := congrArg (fun q => q.1) hsv
    have h2 : st.totalRunningTime = 0 := congrArg (fun q => q.2.1) hsv
    have h3 : st.archivedItemNum = 0 := congrArg (fun q => q.2.2.1) hsv
    have h4 : st.archivedRunningTime = 0 := congrArg (fun q => q.2.2.2.1) hsv
    have h5 : st.recentRecords = [] := congrArg (fun q => q.2.2.2.2) hsv
    rw [h1, h2, h3, h4, h5]
    simp

theorem getOrCreate_lookup (ns : NodeStatisticsStore) (m : String) (ref : Int) :
    alookup (ns.getOrCreate m ref).2.nodeStats m = some (ns.getOrCreate m ref).1 := by
  cases hoc : alookup ns.nodeStats m with
  | some st =>
    rw [getOrCreate_found hoc]
    exact hoc
  | none =>
    rw [getOrCreate_missing hoc]
    show alookup (aset ns.nodeStats m (freshNodeStats m ref)) m = _
    rw [alookup_aset]
    simp

theorem viewPres_setStats {ns : NodeStatisticsStore} {m : String} {st st' : NodeStats}
    (h : alookup ns.nodeStats m = some st) (hview : statView st' = statView st)
    (n : String) :
    viewEq (alookup (ns.setStats m st').nodeStats n) (alookup ns.nodeStats n) := by
  left
  rw [alookup_setStats]
  by_cases hmn : m = n
  · subst hmn
    rw [if_pos rfl, h]
    simp [hview]
  · rw [if_neg hmn]

theorem viewPres_getOrCreate (ns : NodeStatisticsStore) (m : String) (ref : Int)
    (n : String) :
    viewEq (alookup (ns.getOrCreate m ref).2.nodeStats n) (alookup ns.nodeStats n) := by
  cases hoc : alookup ns.nodeStats m with
  | some st =>
    rw [getOrCreate_found hoc]
    exact viewEq_refl _
  | none =>
    rw [getOrCreate_missing hoc]
    show viewEq (alookup (aset ns.nodeStats m (freshNodeStats m ref)) n) _
    rw [alookup_aset]
    by_cases hmn : m = n
    · rw [if_pos hmn]
      right
      refine ⟨rfl, ?_⟩
      rw [← hmn]
      exact hoc
    · rw [if_neg hmn]
      exact viewEq_refl _

theorem viewPres_updateActiveSnapshot (ns : NodeStatisticsStore) (m n : String) :
    viewEq (alookup (ns.updateActiveSnapshot m).nodeStats n)
      (alookup ns.nodeStats n) := by
  cases h : alookup ns.nodeStats m with
  | none =>
    rw [show ns.updateActiveSnapshot m = ns from by simp [updateActiveSnapshot, h]]
    exact viewEq_refl _
  | some st =>
    rw [show ns.updateActiveSnapshot m =
      ns.setStats m { st with activeTaskIds := (alookup ns.nodeActiveTasks m).getD [] }
      from by simp [updateActiveSnapshot, h]]
    refine viewPres_setStats h ?_ n
    rfl

theorem viewPres_recordRequest (ns : NodeStatisticsStore) (nid : String) (now : Int)
    (n : String) :
    viewEq (alookup (ns.recordRequest nid now).nodeStats n)
      (alookup ns.nodeStats n) := by
  by_cases hg : nid.trim = ""
  · rw [show ns.recordRequest nid now = ns from by simp [recordRequest, hg]]
    exact viewEq_refl _
  · rw [show ns.recordRequest nid now =
      (ns.getOrCreate nid.trim now).2.setStats nid.trim
        { (ns.getOrCreate nid.trim now).1 with
          requestCount := (ns.getOrCreate nid.trim now).1.requestCount + 1
          lastUpdated := now } from by simp [recordRequest, hg]]
    refine viewEq_trans
      (viewPres_setStats (getOrCreate_lookup ns nid.trim now) ?_ n)
      (viewPres_getOrCreate ns nid.trim now n)
    rfl

theorem viewPres_recordAssignment (ns : NodeStatisticsStore) (nid : String)
    (tids : List TaskId) (now : Int) (n : String) :
    viewEq (alookup (ns.recordAssignment nid tids now).nodeStats n)
      (alookup ns.nodeStats n) := by
  by_cases hg : nid.trim = "" ∨ tids = []
  · rw [show ns.recordAssignment nid tids now = ns from by
      simp [recordAssignment, hg]]
    exact viewEq_refl _
  · set m := nid.trim with hm
    set gc := ns.getOrCreate m now with hgc
    set st1 : NodeStats := { gc.1 with
      assignedTaskCount := gc.1.assignedTaskCount + tids.length } with hst1
    set ns3 := gc.2.setStats m st1 with hns3
    set ea := ns3.ensureActiveSet m with hea
    set ns5 : NodeStatisticsStore := { ea.2 with
      nodeActiveTasks := aset ea.2.nodeActiveTasks m
        (tids.foldl (fun a tid => sadd a tid) ea.1)
      taskToNode := tids.foldl (fun m2 tid => aset m2 tid m) ea.2.taskToNode }
      with hns5
    have h5 : ns5.nodeStats = ns3.nodeStats := by
      rw [hns5]
      show ea.2.nodeStats = _
      rw [hea]
      exact ensureActiveSet_nodeStats ns3 m
    have heq : ns.recordAssignment nid tids now =
        (match alookup ns5.nodeStats m with
         | none => ns5
         | some st2 => ns5.setStats m { st2 with
            lastUpdated := now }).updateActiveSnapshot m := by
      rw [hns5, hea, hns3, hst1, hgc, hm]
      simp only [recordAssignment, hg, ite_false, if_false]
    rw [heq]
    refine viewEq_trans (viewPres_updateActiveSnapshot _ m n) ?_
    have hlk : alookup gc.2.nodeStats m = some gc.1 := by
      rw [hgc]
      exact getOrCreate_lookup ns m now
    have hchain : viewEq (alookup ns3.nodeStats n) (alookup ns.nodeStats n) := by
      refine viewEq_trans (viewPres_setStats hlk ?_ n) ?_
      · rfl
      · rw [hgc]
        exact viewPres_getOrCreate ns m now n
    cases hm5 : alookup ns5.nodeStats m with
    | none =>
      show viewEq (alookup ns5.nodeStats n) _
      rw [h5]
      exact hchain
    | some st2 =>
      show viewEq (alookup ((ns5.setStats m
        { st2 with lastUpdated := now })).nodeStats n) _
      refine viewEq_trans (viewPres_setStats hm5 ?_ n) ?_
      · rfl
      · rw [h5]
        exact hchain

theorem viewPres_detachTask (ns : NodeStatisticsStore) (tid : TaskId)
    (enid : Option String) (now : Int) (n : String) :
    viewEq (alookup (ns.detachTask tid enid now).nodeStats n)
      (alookup ns.nodeStats n) := by
  cases hmap : (match enid with
    | some x => some x
    | none => alookup ns.taskToNode tid) with
  | none =>
    rw [show ns.detachTask tid enid now =
        { ns with taskToNode := adel ns.taskToNode tid } from by
      simp only [detachTask]
      rw [hmap]]
    exact viewEq_refl _
  | some nodeId =>
    set ns1 := (match alookup ns.nodeActiveTasks nodeId with
      | none => ns
      | some active =>
        if active.erase tid = [] then
          { ns with nodeActiveTasks := adel ns.nodeActiveTasks nodeId }
        else
          { ns with
            nodeActiveTasks := aset ns.nodeActiveTasks nodeId (active.erase tid) })
      with hns1
    have h1 : ns1.nodeStats = ns.nodeStats := by
      rw [hns1]
      cases alookup ns.nodeActiveTasks nodeId with
      | none => rfl
      | some active =>
        show (if active.erase tid = [] then
            { ns with nodeActiveTasks := adel ns.nodeActiveTasks nodeId }
          else { ns with
            nodeActiveTasks := aset ns.nodeActiveTasks nodeId (active.erase tid)
          }).nodeStats = ns.nodeStats
        by_cases h : active.erase tid = []
        · rw [if_pos h]
        · rw [if_neg h]
    set ns2 := { ns1 with taskToNode := adel ns1.taskToNode tid } with hns2
    have h2 : ns2.nodeStats = ns.nodeStats := by
      rw [hns2]
      show ns1.nodeStats = _
      exact h1
    have heq : ns.detachTask tid enid now =
        (match alookup ns2.nodeStats nodeId with
         | none => ns2
         | some st => (ns2.setStats nodeId
            { st with lastUpdated := now }).updateActiveSnapshot nodeId) := by
      rw [hns2, hns1]
      simp only [detachTask]
      rw [hmap]
    rw [heq]
    cases hs : alookup ns2.nodeStats nodeId with
    | none =>
      show viewEq (alookup ns2.nodeStats n) _
      rw [h2]
      exact viewEq_refl _
    | some st =>
      show viewEq (alookup ((ns2.setStats nodeId
        { st with lastUpdated := now }).updateActiveSnapshot nodeId).nodeStats n) _
      refine viewEq_trans (viewPres_updateActiveSnapshot _ nodeId n) ?_
      refine viewEq_trans (viewPres_setStats hs ?_ n) ?_
      · rfl
      · rw [h2]
        exact viewEq_refl _

theorem getOrCreate_lookup_ne (ns : NodeStatisticsStore) (m : String) (ref : Int)
    (n : String) (hne : ¬ m = n) :
    alookup (ns.getOrCreate m ref).2.nodeStats n = alookup ns.nodeStats n := by
  cases hoc : alookup ns.nodeStats m with
  | some st =>
    rw [getOrCreate_found hoc]
  | none =>
    rw [getOrCreate_missing hoc]
    show alookup (aset ns.nodeStats m (freshNodeStats m ref)) n = _
    rw [alookup_aset, if_neg hne]

theorem archiveConsistent_getOrCreate {ns : NodeStatisticsStore}
    (hAC : archiveConsistent ns) (m : String) (ref : Int) :
    archiveConsistent (ns.getOrCreate m ref).2 := by
  cases hoc : alookup ns.nodeStats m with
  | some st =>
    rw [getOrCreate_found hoc]
    exact hAC
  | none =>
    rw [getOrCreate_missing hoc]
    intro n st h
    rw [show ({ ns with nodeStats := aset ns.nodeStats m (freshNodeStats m ref) } :
      NodeStatisticsStore).nodeStats = aset ns.nodeStats m (freshNodeStats m ref)
      from rfl] at h
    rw [alookup_aset] at h
    by_cases hmn : m = n
    · rw [if_pos hmn] at h
      cases h
      simp [freshNodeStats]
    · rw [if_neg hmn] at h
      exact hAC n st h

theorem getOrCreate_fst_AC {ns : NodeStatisticsStore} (hAC : archiveConsistent ns)
    (m : String) (ref : Int) :
    (ns.getOrCreate m ref).1.archivedItemNum +
      ((ns.getOrCreate m ref).1.recentRecords.map (fun r => r.itemNum)).sum =
      (ns.getOrCreate m ref).1.totalItemNum ∧
    (ns.getOrCreate m ref).1.archivedRunningTime +
      ((ns.getOrCreate m ref).1.recentRecords.map (fun r => r.runningTime)).sum =
      (ns.getOrCreate m ref).1.totalRunningTime := by
  cases hoc : alookup ns.nodeStats m with
  | some st =>
    rw [getOrCreate_found hoc]
    exact hAC m st hoc
  | none =>
    rw [getOrCreate_missing hoc]
    simp [freshNodeStats]

theorem totals_recordProcessedInfo (ns : NodeStatisticsStore) (info : ProcessedInfo)
    (ref : Int) (n : String) :
    totalItemOf (ns.recordProcessedInfo info ref) n = totalItemOf ns n +
      (if info.node_id.trim = n ∧ ¬ n = "" then info.item_num else 0) ∧
    totalTimeOf (ns.recordProcessedInfo info ref) n = totalTimeOf ns n +
      (if info.node_id.trim = n ∧ ¬ n = "" then info.running_time else 0) := by
  by_cases hg : info.node_id.trim = ""
  · rw [show ns.recordProcessedInfo info ref = ns from by
      simp [recordProcessedInfo, hg]]
    have hc : ¬ (info.node_id.trim = n ∧ ¬ n = "") := by
      rintro ⟨h1, h2⟩
      exact h2 (h1 ▸ hg)
    rw [if_neg hc, if_neg hc, add_zero, add_zero]
    exact ⟨rfl, rfl⟩
  · set m := info.node_id.trim with hm
    set nsA := ns.archiveOutdated ref with hnsA
    set record : NodePerformanceRecord := {
      timestamp := ref, itemNum := info.item_num, runningTime := info.running_time
      speed := if 0 < info.running_time then info.item_num / info.running_time
        else 0 } with hrec
    set gc := nsA.getOrCreate m ref with hgc
    set st2 : NodeStats := { gc.1 with
      recentRecords := gc.1.recentRecords ++ [record]
      totalItemNum := gc.1.totalItemNum + info.item_num
      totalRunningTime := gc.1.totalRunningTime + info.running_time
      recordCount := gc.1.recordCount + 1
      lastUpdated := ref } with hst2
    have heq : ns.recordProcessedInfo info ref =
        NodeStatisticsStore.updateActiveSnapshot
          (gc.2.setStats m
            (updateNodeAggregates (trimAndArchiveNodeRecords st2 ref))) m := by
      rw [hst2, hgc, hnsA, hrec, hm]
      simp only [recordProcessedInfo, hg, ite_false, if_false]
    rw [heq]
    have hItem : (updateNodeAggregates
        (trimAndArchiveNodeRecords st2 ref)).totalItemNum =
        gc.1.totalItemNum + info.item_num := by
      rw [agg_totalItem, trim_totalItem, hst2]
    have hTime : (updateNodeAggregates
        (trimAndArchiveNodeRecords st2 ref)).totalRunningTime =
        gc.1.totalRunningTime + info.running_time := by
      rw [agg_totalTime, trim_totalTime, hst2]
    have hgcItem : gc.1.totalItemNum = totalItemOf nsA m := by
      rw [hgc]
      unfold totalItemOf
      cases hoc : alookup nsA.nodeStats m with
      | some st =>
        rw [getOrCreate_found hoc]
      | none =>
        rw [getOrCreate_missing hoc]
        rfl
    have hgcTime : gc.1.totalRunningTime = totalTimeOf nsA m := by
      rw [hgc]
      unfold totalTimeOf
      cases hoc : alookup nsA.nodeStats m with
      | some st =>
        rw [getOrCreate_found hoc]
      | none =>
        rw [getOrCreate_missing hoc]
        rfl
    constructor
    · rw [totalItemOf_updateActiveSnapshot]
      by_cases hmn : m = n
      · have hx : totalItemOf (gc.2.setStats m
            (updateNodeAggregates (trimAndArchiveNodeRecords st2 ref))) n =
            (updateNodeAggregates (trimAndArchiveNodeRecords st2 ref)).totalItemNum
            := by
          unfold totalItemOf
          rw [alookup_setStats, if_pos hmn]
        rw [hx, hItem, hgcItem, hnsA, totalItemOf_archiveOutdated]
        have hcond : info.node_id.trim = n ∧ ¬ n = "" := by
          refine ⟨by rw [← hm]; exact hmn, fun he => hg ?_⟩
          rw [hm] at hmn
          exact hmn.trans he
        rw [if_pos hcond, hmn]
      · have hx : totalItemOf (gc.2.setStats m
            (updateNodeAggregates (trimAndArchiveNodeRecords st2 ref))) n =
            totalItemOf nsA n := by
          unfold totalItemOf
          rw [alookup_setStats, if_neg hmn, hgc, getOrCreate_lookup_ne nsA m ref n hmn]
        rw [hx, hnsA, totalItemOf_archiveOutdated]
        have hcond : ¬ (info.node_id.trim = n ∧ ¬ n = "") := by
          rintro ⟨h1, _⟩
          exact hmn (hm.trans h1)
        rw [if_neg hcond, add_zero]
    · rw [totalTimeOf_updateActiveSnapshot]
      by_cases hmn : m = n
      · have hx : totalTimeOf (gc.2.setStats m
            (updateNodeAggregates (trimAndArchiveNodeRecords st2 ref))) n =
            (updateNodeAggregates
              (trimAndArchiveNodeRecords st2 ref)).totalRunningTime := by
          unfold totalTimeOf
          rw [alookup_setStats, if_pos hmn]
        rw [hx, hTime, hgcTime, hnsA, totalTimeOf_archiveOutdated]
        have hcond : info.node_id.trim = n ∧ ¬ n = "" := by
          refine ⟨by rw [← hm]; exact hmn, fun he => hg ?_⟩
          rw [hm] at hmn
          exact hmn.trans he
        rw [if_pos hcond, hmn]
      · have hx : totalTimeOf (gc.2.setStats m
            (updateNodeAggregates (trimAndArchiveNodeRecords st2 ref))) n =
            totalTimeOf nsA n := by
          unfold totalTimeOf
          rw [alookup_setStats, if_neg hmn, hgc, getOrCreate_lookup_ne nsA m ref n hmn]
        rw [hx, hnsA, totalTimeOf_archiveOutdated]
        have hcond : ¬ (info.node_id.trim = n ∧ ¬ n = "") := by
          rintro ⟨h1, _⟩
          exact hmn (hm.trans h1)
        rw [if_neg hcond, add_zero]

theorem archiveConsistent_recordProcessedInfo {ns : NodeStatisticsStore}
    (hAC : archiveConsistent ns) (info : ProcessedInfo) (ref : Int) :
    archiveConsistent (ns.recordProcessedInfo info ref) := by
  by_cases hg : info.node_id.trim = ""
  · rw [show ns.recordProcessedInfo info ref = ns from by
      simp [recordProcessedInfo, hg]]
    exact hAC
  · set m := info.node_id.trim with hm
    set nsA := ns.archiveOutdated ref with hnsA
    set record : NodePerformanceRecord := {
      timestamp := ref, itemNum := info.item_num, runningTime := info.running_time
      speed := if 0 < info.running_time then info.item_num / info.running_time
        else 0 } with hrec
    set gc := nsA.getOrCreate m ref with hgc
    set st2 : NodeStats := { gc.1 with
      recentRecords := gc.1.recentRecords ++ [record]
      totalItemNum := gc.1.totalItemNum + info.item_num
      totalRunningTime := gc.1.totalRunningTime + info.running_time
      recordCount := gc.1.recordCount + 1
      lastUpdated := ref } with hst2
    have heq : ns.recordProcessedInfo info ref =
        NodeStatisticsStore.updateActiveSnapshot
          (gc.2.setStats m
            (updateNodeAggregates (trimAndArchiveNodeRecords st2 ref))) m := by
      rw [hst2, hgc, hnsA, hrec, hm]
      simp only [recordProcessedInfo, hg, ite_false, if_false]
    rw [heq]
    have hACA : archiveConsistent nsA := by
      rw [hnsA]
      exact archiveConsistent_archiveOutdated hAC ref
    have hACgc : archiveConsistent gc.2 := by
      rw [hgc]
      exact archiveConsistent_getOrCreate hACA m ref
    have hfst : gc.1.archivedItemNum +
        (gc.1.recentRecords.map (fun r => r.itemNum)).sum = gc.1.totalItemNum ∧
        gc.1.archivedRunningTime +
        (gc.1.recentRecords.map (fun r => r.runningTime)).sum =
          gc.1.totalRunningTime := by
      rw [hgc]
      exact getOrCreate_fst_AC hACA m ref
    have hst2AC : st2.archivedItemNum +
        (st2.recentRecords.map (fun r => r.itemNum)).sum = st2.totalItemNum ∧
        st2.archivedRunningTime +
        (st2.recentRecords.map (fun r => r.runningTime)).sum =
          st2.totalRunningTime := by
      rw [hst2]
      constructor
      · show gc.1.archivedItemNum +
          ((gc.1.recentRecords ++ [record]).map (fun r => r.itemNum)).sum =
          gc.1.totalItemNum + info.item_num
        rw [List.map_append, List.sum_append]
        have hrecI : ([record].map (fun r => r.itemNum)).sum = info.item_num := by
          rw [hrec]
          simp
        rw [hrecI, ← add_assoc, hfst.1]
      · show gc.1.archivedRunningTime +
          ((gc.1.recentRecords ++ [record]).map (fun r => r.runningTime)).sum =
          gc.1.totalRunningTime + info.running_time
        rw [List.map_append, List.sum_append]
        have hrecT : ([record].map (fun r => r.runningTime)).sum =
            info.running_time := by
          rw [hrec]
          simp
        rw [hrecT, ← add_assoc, hfst.2]
    have htr := trim_archiveConsistent st2 ref hst2AC
    refine archiveConsistent_updateActiveSnapshot
      (archiveConsistent_setStats hACgc ?_) m
    constructor
    · rw [agg_totalItem, agg_archivedItem, agg_recent]
      exact htr.1
    · rw [agg_totalTime, agg_archivedTime, agg_recent]
      exact htr.2

theorem totalItemOf_applyNEvent (ns : NodeStatisticsStore) (e : NEvent)
    (n : String) :
    totalItemOf (applyNEvent ns e) n = totalItemOf ns n + evItem n e := by
  cases e with
  | proc info now => exact (totals_recordProcessedInfo ns info now n).1
  | request nid now =>
    rw [show applyNEvent ns (NEvent.request nid now) = ns.recordRequest nid now
      from rfl]
    rw [totalItemOf_of_viewEq (viewPres_recordRequest ns nid now n)]
    simp [evItem]
  | assign nid tids now =>
    rw [show applyNEvent ns (NEvent.assign nid tids now) =
      ns.recordAssignment nid tids now from rfl]
    rw [totalItemOf_of_viewEq (viewPres_recordAssignment ns nid tids now n)]
    simp [evItem]
  | detach tid enid now =>
    rw [show applyNEvent ns (NEvent.detach tid enid now) =
      ns.detachTask tid enid now from rfl]
    rw [totalItemOf_of_viewEq (viewPres_detachTask ns tid enid now n)]
    simp [evItem]
  | archive now =>
    rw [show applyNEvent ns (NEvent.archive now) = ns.archiveOutdated now from rfl]
    rw [totalItemOf_archiveOutdated]
    simp [evItem]

theorem totalTimeOf_applyNEvent (ns : NodeStatisticsStore) (e : NEvent)
    (n : String) :
    totalTimeOf (applyNEvent ns e) n = totalTimeOf ns n + evTime n e := by
  cases e with
  | proc info now => exact (totals_recordProcessedInfo ns info now n).2
  | request nid now =>
    rw [show applyNEvent ns (NEvent.request nid now) = ns.recordRequest nid now
      from rfl]
    rw [totalTimeOf_of_viewEq (viewPres_recordRequest ns nid now n)]
    simp [evTime]
  | assign nid tids now =>
    rw [show applyNEvent ns (NEvent.assign nid tids now) =
      ns.recordAssignment nid tids now from rfl]
    rw [totalTimeOf_of_viewEq (viewPres_recordAssignment ns nid tids now n)]
    simp [evTime]
  | detach tid enid now =>
    rw [show applyNEvent ns (NEvent.detach tid enid now) =
      ns.detachTask tid enid now from rfl]
    rw [totalTimeOf_of_viewEq (viewPres_detachTask ns tid enid now n)]
    simp [evTime]
  | archive now =>
    rw [show applyNEvent ns (NEvent.archive now) = ns.archiveOutdated now from rfl]
    rw [totalTimeOf_archiveOutdated]
    simp [evTime]

theorem archiveConsistent_applyNEvent {ns : NodeStatisticsStore}
    (hAC : archiveConsistent ns) (e : NEvent) :
    archiveConsistent (applyNEvent ns e) := by
  cases e with
  | proc info now => exact archiveConsistent_recordProcessedInfo hAC info now
  | request nid now =>
    exact archiveConsistent_of_viewPres (viewPres_recordRequest ns nid now) hAC
  | assign nid tids now =>
    exact archiveConsistent_of_viewPres
      (viewPres_recordAssignment ns nid tids now) hAC
  | detach tid enid now =>
    exact archiveConsistent_of_viewPres (viewPres_detachTask ns tid enid now) hAC
  | archive now => exact archiveConsistent_archiveOutdated hAC now

theorem totalItemOf_fold (evs : List NEvent) :
    ∀ (ns : NodeStatisticsStore) (n : String),
    totalItemOf (evs.foldl applyNEvent ns) n =
      totalItemOf ns n + (evs.map (evItem n)).sum := by
  induction evs with
  | nil =>
    intro ns n
    simp
  | cons e evs ih =>
    intro ns n
    rw [List.foldl_cons, ih, totalItemOf_applyNEvent]
    simp only [List.map_cons, List.sum_cons]
    ring

theorem totalTimeOf_fold (evs : List NEvent) :
    ∀ (ns : NodeStatisticsStore) (n : String),
    totalTimeOf (evs.foldl applyNEvent ns) n =
      totalTimeOf ns n + (evs.map (evTime n)).sum := by
  induction evs with
  | nil =>
    intro ns n
    simp
  | cons e evs ih =>
    intro ns n
    rw [List.foldl_cons, ih, totalTimeOf_applyNEvent]
    simp only [List.map_cons, List.sum_cons]
    ring

theorem archiveConsistent_fold (evs : List NEvent) :
    ∀ {ns : NodeStatisticsStore}, archiveConsistent ns →
    archiveConsistent (evs.foldl applyNEvent ns) := by
  induction evs with
  | nil => intro ns h; exact h
  | cons e evs ih =>
    intro ns h
    rw [List.foldl_cons]
    exact ih (archiveConsistent_applyNEvent h e)

/-- C7: for every node, after any sequence of node-statistics events the
lifetime totals of the node's record equal the sums of `itemNum` and
`runningTime` over the processed-info events recorded for that node, and the
archived counters plus the sums over the records still in the sliding window
reconstruct those lifetime totals, so trimming never loses history. -/
theorem node_telemetry_totals (evs : List NEvent) (n : String) :
    totalItemOf (applyNEvents evs) n = (evs.map (evItem n)).sum ∧
    totalTimeOf (applyNEvents evs) n = (evs.map (evTime n)).sum ∧
    archiveConsistent (applyNEvents evs) := by
  refine ⟨?_, ?_, ?_⟩
  · rw [show applyNEvents evs = evs.foldl applyNEvent empty from rfl,
      totalItemOf_fold]
    rw [show totalItemOf empty n = 0 from rfl, zero_add]
  · rw [show applyNEvents evs = evs.foldl applyNEvent empty from rfl,
      totalTimeOf_fold]
    rw [show totalTimeOf empty n = 0 from rfl, zero_add]
  · rw [show applyNEvents evs = evs.foldl applyNEvent empty from rfl]
    refine archiveConsistent_fold evs ?_
    intro n0 st h
    rw [show alookup (empty : NodeStatisticsStore).nodeStats n0 = none from rfl] at h
    cases h

end NodeStatisticsStore

namespace TaskStore

theorem statsPass_completionDigest : ∀ (l : List (String × RoundEntry)) (d : DState)
    (now : Int), (statsPass l d now).2.2.2.2.2.2.completionDigest =
      d.completionDigest := by
  intro l
  induction l with
  | nil => intro d now; rfl
  | cons p rest ih =>
    intro d now
    obtain ⟨rid, e0⟩ := p
    show (match alookup d.rounds rid with
      | none => statsPass rest d now
      | some e => _).2.2.2.2.2.2.completionDigest = _
    cases h : alookup d.rounds rid with
    | none => exact ih d now
    | some e =>
      exact ih _ now

theorem computeGlobalStats_completionDigest (d : DState) (now : Int) :
    (computeGlobalStats d now).2.completionDigest = d.completionDigest := by
  unfold computeGlobalStats
  by_cases h : d.rounds.length = 0
  · rw [if_pos h]
  · rw [if_neg h]
    exact statsPass_completionDigest d.rounds d now

theorem handleRoundsStateChange_runs_digestStep (d : DState) (now : Int)
    (url : Bool) :
    ((handleRoundsStateChange d now url).1.completionDigest,
      (handleRoundsStateChange d now url).2) =
      digestStep d.completionDigest (computeGlobalStats d now).1 url := by
  have hcd := computeGlobalStats_completionDigest d now
  unfold handleRoundsStateChange digestStep
  by_cases hall : ¬ (computeGlobalStats d now).1.allRoundsCompleted = true
  · rw [if_pos hall, if_pos hall]
  · rw [if_neg hall, if_neg hall]
    by_cases heq : d.completionDigest =
        some (buildCompletionDigest (computeGlobalStats d now).1)
    · rw [if_pos (hcd.trans heq), if_pos heq]
      rw [hcd, heq]
    · rw [if_neg (fun hx => heq (hcd ▸ hx)), if_neg heq]

theorem computeGlobalStats_rounds_pos (d : DState) (now : Int)
    (h : (computeGlobalStats d now).1.allRoundsCompleted = true) :
    1 ≤ (computeGlobalStats d now).1.totalRounds := by
  unfold computeGlobalStats at h ⊢
  by_cases hz : d.rounds.length = 0
  · rw [if_pos hz] at h
    cases h
  · rw [if_neg hz] at h ⊢
    show 1 ≤ d.rounds.length
    omega

theorem digestStep_fires_iff (prev : Option String) (stats : GStats) (url : Bool) :
    (digestStep prev stats url).2 = true ↔
      stats.allRoundsCompleted = true ∧
      ¬ prev = some (buildCompletionDigest stats) ∧ url = true := by
  unfold digestStep
  by_cases hall : ¬ stats.allRoundsCompleted = true
  · rw [if_pos hall]
    simp [hall]
  · rw [if_neg hall]
    rw [not_not] at hall
    by_cases heq : prev = some (buildCompletionDigest stats)
    · rw [if_pos heq]
      simp [hall, heq]
    · rw [if_neg heq]
      simp [hall, heq]

theorem digestStep_clears (prev : Option String) (stats : GStats) (url : Bool)
    (h : stats.allRoundsCompleted = false) :
    digestStep prev stats url = (none, false) := by
  unfold digestStep
  rw [if_pos]
  rw [h]
  simp

theorem digestStep_stores (prev : Option String) (stats : GStats) (url : Bool)
    (h : stats.allRoundsCompleted = true) :
    (digestStep prev stats url).1 = some (buildCompletionDigest stats) := by
  unfold digestStep
  rw [if_neg (by rw [h]; simp)]
  by_cases heq : prev = some (buildCompletionDigest stats)
  · rw [if_pos heq]
    exact heq
  · rw [if_neg heq]

theorem digestRun_append (l1 l2 : List GStats) : ∀ (prev : Option String)
    (url : Bool), digestRun prev (l1 ++ l2) url =
      ((digestRun (digestRun prev l1 url).1 l2 url).1,
       (digestRun prev l1 url).2 + (digestRun (digestRun prev l1 url).1 l2 url).2)
    := by
  induction l1 with
  | nil =>
    intro prev url
    show digestRun prev l2 url = _
    rw [show digestRun prev [] url = (prev, 0) from rfl]
    simp
  | cons s rest ih =>
    intro prev url
    show (let p := digestStep prev s url
          let r := digestRun p.1 (rest ++ l2) url
          (r.1, (if p.2 then 1 else 0) + r.2)) = _
    rw [show digestRun prev (s :: rest) url =
      (let p := digestStep prev s url
       let r := digestRun p.1 rest url
       (r.1, (if p.2 then 1 else 0) + r.2)) from rfl]
    simp only
    rw [ih]
    simp only
    rw [Prod.mk.injEq]
    refine ⟨rfl, ?_⟩
    exact (Nat.add_assoc _ _ _).symm

theorem digestRun_replicate_fixed (s : GStats) (h1 : s.allRoundsCompleted = true) :
    ∀ (j : Nat), digestRun (some (buildCompletionDigest s)) (List.replicate j s)
      true = (some (buildCompletionDigest s), 0) := by
  intro j
  induction j with
  | zero => rfl
  | succ j ih =>
    rw [List.replicate_succ]
    show (let p := digestStep (some (buildCompletionDigest s)) s true
          let r := digestRun p.1 (List.replicate j s) true
          (r.1, (if p.2 then 1 else 0) + r.2)) = _
    have hstep : digestStep (some (buildCompletionDigest s)) s true =
        (some (buildCompletionDigest s), false) := by
      unfold digestStep
      rw [if_neg (by rw [h1]; simp), if_pos rfl]
    rw [hstep]
    simp only
    rw [ih]
    rfl

theorem digestRun_replicate_from_clear (s : GStats)
    (h1 : s.allRoundsCompleted = true) (k : Nat) (hk : 1 ≤ k) :
    digestRun none (List.replicate k s) true =
      (some (buildCompletionDigest s), 1) := by
  obtain ⟨j, rfl⟩ : ∃ j, k = j + 1 := ⟨k - 1, by omega⟩
  rw [show j + 1 = 1 + j from by omega]
  rw [List.replicate_add, digestRun_append]
  have hfirst : digestRun none (List.replicate 1 s) true =
      (some (buildCompletionDigest s), 1) := by
    show (let p := digestStep none s true
          let r := digestRun p.1 [] true
          (r.1, (if p.2 then 1 else 0) + r.2)) = _
    have hstep : digestStep none s true = (some (buildCompletionDigest s), true) := by
      unfold digestStep
      rw [if_neg (by rw [h1]; simp), if_neg (by simp)]
    rw [hstep]
    rfl
  rw [hfirst]
  simp only
  rw [digestRun_replicate_fixed s h1 j]
  rfl

/-- C2: the completion detector fires the webhook exactly once per completion
edge.  Every dispatcher state change runs the digest automaton over the fresh
global stats; a step fires precisely when all rounds are completed (which
forces at least one round), the stored digest differs, and a webhook url is
configured; firing stores the digest, and losing the all-completed condition
clears it.  Hence over a stable all-completed phase the webhook fires exactly
once, and a break-and-restore sequence fires exactly once more. -/
theorem completion_webhook_exactly_once (d : DState) (now : Int) (url : Bool)
    (s1 s2 : GStats) (k m : Nat) (h1 : s1.allRoundsCompleted = true)
    (h2 : s2.allRoundsCompleted = false) (hk : 1 ≤ k) (hm : 1 ≤ m) :
    ((handleRoundsStateChange d now url).1.completionDigest,
      (handleRoundsStateChange d now url).2) =
      digestStep d.completionDigest (computeGlobalStats d now).1 url ∧
    ((digestStep d.completionDigest (computeGlobalStats d now).1 url).2 = true ↔
      (computeGlobalStats d now).1.allRoundsCompleted = true ∧
      ¬ d.completionDigest =
        some (buildCompletionDigest (computeGlobalStats d now).1) ∧
      url = true) ∧
    ((computeGlobalStats d now).1.allRoundsCompleted = true →
      1 ≤ (computeGlobalStats d now).1.totalRounds) ∧
    (∀ stats : GStats, stats.allRoundsCompleted = false →
      digestStep d.completionDigest stats url = (none, false)) ∧
    (digestRun none (List.replicate k s1) true).2 = 1 ∧
    (digestRun none (List.replicate k s1 ++ s2 :: List.replicate m s1) true).2 = 2
    := by
  refine ⟨handleRoundsStateChange_runs_digestStep d now url,
    digestStep_fires_iff _ _ _, computeGlobalStats_rounds_pos d now,
    fun stats hs => digestStep_clears _ stats url hs, ?_, ?_⟩
  · rw [digestRun_replicate_from_clear s1 h1 k hk]
  · rw [digestRun_append, digestRun_replicate_from_clear s1 h1 k hk]
    simp only
    have hrest : digestRun (some (buildCompletionDigest s1))
        (s2 :: List.replicate m s1) true =
        ((digestRun none (List.replicate m s1) true).1,
         0 + (digestRun none (List.replicate m s1) true).2) := by
      show (let p := digestStep (some (buildCompletionDigest s1)) s2 true
            let r := digestRun p.1 (List.replicate m s1) true
            (r.1, (if p.2 then 1 else 0) + r.2)) = _
      rw [digestStep_clears _ s2 true h2]
      simp only
      rfl
    rw [hrest]
    rw [digestRun_replicate_from_clear s1 h1 m hm]
    rfl

theorem aset_self {α β : Type} [DecidableEq α] {l : List (α × β)} {k : α} {v : β}
    (h : alookup l k = some v) : aset l k v = l := by
  induction l with
  | nil => cases h
  | cons p l ih =>
    rw [alookup_cons] at h
    rw [aset_cons]
    by_cases hp : p.1 = k
    · rw [if_pos hp]
      rw [if_pos hp] at h
      obtain ⟨p1, p2⟩ := p
      cases h
      cases hp
      rfl
    · rw [if_neg hp]
      rw [if_neg hp] at h
      rw [ih h]

theorem statsPass_nodeStore : ∀ (l : List (String × RoundEntry)) (d : DState)
    (now : Int), (statsPass l d now).2.2.2.2.2.2.nodeStore = d.nodeStore := by
  intro l
  induction l with
  | nil => intro d now; rfl
  | cons p rest ih =>
    intro d now
    obtain ⟨rid, e0⟩ := p
    show (match alookup d.rounds rid with
      | none => statsPass rest d now
      | some e => _).2.2.2.2.2.2.nodeStore = _
    cases h : alookup d.rounds rid with
    | none => exact ih d now
    | some e => exact ih _ now

theorem statsPass_rounds_fixed {R : List (String × RoundEntry)} {now : Int}
    (hfix : ∀ rid e, alookup R rid = some e → ∀ act,
      (refreshEntry e act now).1 = e) :
    ∀ (l : List (String × RoundEntry)) (d : DState), d.rounds = R →
    (statsPass l d now).2.2.2.2.2.2.rounds = R := by
  intro l
  induction l with
  | nil => intro d hd; exact hd
  | cons p rest ih =>
    intro d hd
    obtain ⟨rid, e0⟩ := p
    show (match alookup d.rounds rid with
      | none => statsPass rest d now
      | some e => _).2.2.2.2.2.2.rounds = _
    cases h : alookup d.rounds rid with
    | none => exact ih d hd
    | some e =>
      refine ih _ ?_
      show aset d.rounds rid (refreshEntry e d.activeRoundId now).1 = R
      rw [hd] at h ⊢
      rw [hfix rid e h d.activeRoundId]
      exact aset_self h

theorem computeGlobalStats_nodeStore (d : DState) (now : Int) :
    (computeGlobalStats d now).2.nodeStore = d.nodeStore := by
  unfold computeGlobalStats
  by_cases h : d.rounds.length = 0
  · rw [if_pos h]
  · rw [if_neg h]
    exact statsPass_nodeStore d.rounds d now

theorem computeGlobalStats_rounds_fixed {d : DState} {now : Int}
    (hfix : ∀ rid e, alookup d.rounds rid = some e → ∀ act,
      (refreshEntry e act now).1 = e) :
    (computeGlobalStats d now).2.rounds = d.rounds := by
  unfold computeGlobalStats
  by_cases h : d.rounds.length = 0
  · rw [if_pos h]
  · rw [if_neg h]
    exact statsPass_rounds_fixed hfix d.rounds d rfl

theorem handleRoundsStateChange_nodeStore (d : DState) (now : Int) (url : Bool) :
    (handleRoundsStateChange d now url).1.nodeStore = d.nodeStore := by
  unfold handleRoundsStateChange
  by_cases hall : ¬ (computeGlobalStats d now).1.allRoundsCompleted = true
  · rw [if_pos hall]
    exact computeGlobalStats_nodeStore d now
  · rw [if_neg hall]
    by_cases heq : (computeGlobalStats d now).2.completionDigest =
        some (buildCompletionDigest (computeGlobalStats d now).1)
    · rw [if_pos heq]
      exact computeGlobalStats_nodeStore d now
    · rw [if_neg heq]
      exact computeGlobalStats_nodeStore d now

theorem handleRoundsStateChange_rounds_fixed {d : DState} {now : Int} (url : Bool)
    (hfix : ∀ rid e, alookup d.rounds rid = some e → ∀ act,
      (refreshEntry e act now).1 = e) :
    (handleRoundsStateChange d now url).1.rounds = d.rounds := by
  unfold handleRoundsStateChange
  by_cases hall : ¬ (computeGlobalStats d now).1.allRoundsCompleted = true
  · rw [if_pos hall]
    exact computeGlobalStats_rounds_fixed hfix
  · rw [if_neg hall]
    by_cases heq : (computeGlobalStats d now).2.completionDigest =
        some (buildCompletionDigest (computeGlobalStats d now).1)
    · rw [if_pos heq]
      exact computeGlobalStats_rounds_fixed hfix
    · rw [if_neg heq]
      exact computeGlobalStats_rounds_fixed hfix

/-- C9: a report on a task id that no round owns returns NOT_FOUND and never
mutates the round states: every round's task table, queues and status sets
(the whole store) and its lifecycle fields are unchanged, and so are the node
statistics.  (Only the stale id-to-round mapping and the completion digest
may be pruned/recomputed.)  The rounds are assumed consistent: refreshing a
round's lifecycle is a no-op. -/
theorem report_not_found_never_mutates {d : DState} {taskId : TaskId}
    {success : Bool} {msg : String} {now : Int} {url : Bool}
    (hfix : ∀ rid e, alookup d.rounds rid = some e → ∀ act,
      (refreshEntry e act now).1 = e)
    (hown : ∀ rid e, alookup d.rounds rid = some e →
      e.store.taskGet taskId = none) :
    (dUpdateTaskStatus d taskId success msg now url).1 =
      SingleRoundStore.ReportOutcome.notFound ∧
    (dUpdateTaskStatus d taskId success msg now url).2.1.rounds = d.rounds ∧
    (dUpdateTaskStatus d taskId success msg now url).2.1.nodeStore =
      d.nodeStore := by
  cases hmap : alookup d.taskIdToRoundId taskId with
  | none =>
    have heq : dUpdateTaskStatus d taskId success msg now url =
        (SingleRoundStore.ReportOutcome.notFound, d, false) := by
      unfold dUpdateTaskStatus
      rw [hmap]
    rw [heq]
    exact ⟨rfl, rfl, rfl⟩
  | some roundId =>
    cases hrd : alookup d.rounds roundId with
    | none =>
      have heq : dUpdateTaskStatus d taskId success msg now url =
          (SingleRoundStore.ReportOutcome.notFound,
           { d with taskIdToRoundId := adel d.taskIdToRoundId taskId }, false) := by
        unfold dUpdateTaskStatus
        simp only [hmap, hrd]
      rw [heq]
      exact ⟨rfl, rfl, rfl⟩
    | some entry =>
      have hsn : entry.store.taskGet taskId = none := hown roundId entry hrd
      have hstep := @SingleRoundStore.updateTaskStatus_not_found entry.store
        d.nodeStore taskId success msg now hsn
      set p := refreshEntry entry d.activeRoundId now with hp
      set d2 : DState := { d with
        rounds := aset (aset d.rounds roundId entry) roundId p.1
        taskIdToRoundId := adel d.taskIdToRoundId taskId
        activeRoundId := p.2 } with hd2
      have heq : dUpdateTaskStatus d taskId success msg now url =
          (SingleRoundStore.ReportOutcome.notFound,
           (handleRoundsStateChange d2 now url).1,
           (handleRoundsStateChange d2 now url).2) := by
        rw [hd2, hp]
        unfold dUpdateTaskStatus
        simp only [hmap, hrd, hstep, alookup_aset, eq_self_iff_true, if_true]
      rw [heq]
      have hr2 : d2.rounds = d.rounds := by
        rw [hd2]
        show aset (aset d.rounds roundId entry) roundId p.1 = d.rounds
        rw [hp, hfix roundId entry hrd d.activeRoundId, aset_self hrd,
          aset_self hrd]
      have hfix2 : ∀ rid e, alookup d2.rounds rid = some e → ∀ act,
          (refreshEntry e act now).1 = e := by
        intro rid e h act
        rw [hr2] at h
        exact hfix rid e h act
      refine ⟨rfl, ?_, ?_⟩
      · rw [handleRoundsStateChange_rounds_fixed url hfix2, hr2]
      · rw [handleRoundsStateChange_nodeStore]

end TaskStore

namespace SingleRoundStore

theorem getTasksForProcessing_ne_nil {s : SingleRoundStore}
    {ns : NodeStatisticsStore} {batchSize : Nat} {nodeId : Option String}
    {now : Int} (hInv : sInv s) (hp : s.pendingSet ≠ [])
    (hb : 1 ≤ batchSize) :
    (getTasksForProcessing s ns batchSize nodeId now).1 ≠ [] := by
  intro hnil
  set nn := nodeId.bind (fun n => if n.trim = "" then none else some n.trim) with hnn
  have hres : (getTasksForProcessing s ns batchSize nodeId now).1 =
      (leaseGo s batchSize now nn []).2 := rfl
  obtain ⟨h1, _, _⟩ :=
    leaseGo_spec s.pendingQueue.length s batchSize now nn [] le_rfl hInv.2.2.1
  rw [hres, h1] at hnil
  simp only [List.nil_append, List.length_nil, Nat.sub_zero] at hnil
  obtain ⟨id0, hid0⟩ := List.exists_mem_of_ne_nil _ hp
  have hpq := hInv.2.2.2.2.2.2.2.2.1
  have hbp := hInv.2.2.2.2.2.2.2.2.2.1
  have hq0 : id0 ∈ s.pendingQueue := hpq id0 hid0
  have hst := hbp.1 id0 hid0
  have hsome : (findTask s.tasks id0).isSome = true := by
    simp only [statusOf, taskGet, Option.map_eq_some'] at hst
    obtain ⟨t, hfind, _⟩ := hst
    rw [hfind]
    rfl
  have hlive : liveB s id0 = true := by
    simp only [liveB, Bool.and_eq_true, decide_eq_true_eq]
    exact ⟨hid0, hsome⟩
  have hfil : id0 ∈ s.pendingQueue.filter (liveB s) :=
    List.mem_filter.mpr ⟨hq0, hlive⟩
  have htake : (s.pendingQueue.filter (liveB s)).take batchSize ≠ [] := by
    intro he
    rcases List.take_eq_nil_iff.mp he with h | h
    · omega
    · rw [h] at hfil
      cases hfil
  obtain ⟨x, hx⟩ := List.exists_mem_of_ne_nil _ htake
  have hxfil : x ∈ s.pendingQueue.filter (liveB s) := List.mem_of_mem_take hx
  have hxlive : liveB s x = true := List.of_mem_filter hxfil
  have hxsome : (findTask s.tasks x).isSome = true := by
    simp only [liveB, Bool.and_eq_true] at hxlive
    exact hxlive.2
  have hnone := List.filterMap_eq_nil_iff.mp hnil x hx
  cases hfx : findTask s.tasks x with
  | none =>
    rw [hfx] at hxsome
    cases hxsome
  | some t =>
    rw [hfx] at hnone
    cases hnone

end SingleRoundStore

namespace TaskStore

theorem alookup_foldl_aset (rid : String) : ∀ (l : List Task)
    (m : List (TaskId × String)) (x : TaskId),
    (x ∈ l.map Task.id →
      alookup (l.foldl (fun m2 (t : Task) => aset m2 t.id rid) m) x = some rid) ∧
    (alookup m x = some rid →
      alookup (l.foldl (fun m2 (t : Task) => aset m2 t.id rid) m) x = some rid) := by
  intro l
  induction l with
  | nil =>
    intro m x
    exact ⟨fun h => absurd h (List.not_mem_nil x), fun h => h⟩
  | cons t0 l ih =>
    intro m x
    rw [List.foldl_cons]
    constructor
    · intro hx
      rw [List.map_cons, List.mem_cons] at hx
      rcases hx with hx | hx
      · refine (ih (aset m t0.id rid) x).2 ?_
        rw [alookup_aset, hx, if_pos rfl]
      · exact (ih (aset m t0.id rid) x).1 hx
    · intro hm
      refine (ih (aset m t0.id rid) x).2 ?_
      rw [alookup_aset]
      by_cases ht : t0.id = x
      · rw [if_pos ht]
      · rw [if_neg ht]
        exact hm

theorem distLoop_stop {fs : FetchState} {order : List String} {safe : Nat}
    {nodeId : Option String} {now : Int} (h : fs.shouldStop = true) :
    distLoop fs order safe nodeId now = fs := by
  cases order with
  | nil => rfl
  | cons rid rest => simp [distLoop, h]

/-- C5: stop condition of the no-round-id lease. Once the stop flag is set the
distribution loop returns with no further round asked; a round asked while the
flag is clear halts the loop as soon as its fetch sets the flag; the flag set
by asking a round is exactly "the previous flag, or the round yielded at least
one task, or its stored entry still has pending work"; the dispatcher asks the
active round first and, when that ask sets the flag, returns at once without
entering the loop; in particular an active round with pending tasks yields the
whole nonempty batch, every returned task is mapped to it, and every other
round entry is untouched. -/
theorem dispatcher_lease_stop_condition (d : DState) (batchSize : Nat)
    (nodeId : Option String) (now : Int) :
    (∀ (fs : FetchState) (order : List String), fs.shouldStop = true →
      distLoop fs order (max 1 batchSize) nodeId now = fs) ∧
    (∀ (fs : FetchState) (rid : String) (rest : List String),
      fs.shouldStop = false →
      ¬ max 1 batchSize ≤ fs.collected.length →
      (fetchFromEntry fs rid (max 1 batchSize - fs.collected.length)
        nodeId now).shouldStop = true →
      distLoop fs (rid :: rest) (max 1 batchSize) nodeId now =
        fetchFromEntry fs rid (max 1 batchSize - fs.collected.length)
          nodeId now) ∧
    (∀ (fs : FetchState) (rid : String) (limit : Nat) (entry : RoundEntry),
      alookup fs.d.rounds rid = some entry →
      rid ∉ fs.processedRounds →
      ¬ (refreshEntry entry fs.d.activeRoundId now).1.status = RLife.completed →
      ¬ limit = 0 →
      ∃ tasks e,
        (fetchFromEntry fs rid limit nodeId now).collected =
          fs.collected ++ tasks ∧
        alookup (fetchFromEntry fs rid limit nodeId now).d.rounds rid = some e ∧
        (fetchFromEntry fs rid limit nodeId now).shouldStop =
          (fs.shouldStop || decide (tasks ≠ []) ||
           decide (0 < e.store.getCounts.pending))) ∧
    (∀ aid : String, (ensureActiveRound d now).1 = some aid →
      (fetchFromEntry ⟨(ensureActiveRound d now).2, [], [], false⟩ aid
        (max 1 batchSize) nodeId now).shouldStop = true →
      dGetTasksForProcessing d batchSize none nodeId now =
        ((fetchFromEntry ⟨(ensureActiveRound d now).2, [], [], false⟩ aid
            (max 1 batchSize) nodeId now).collected.take (max 1 batchSize),
         (fetchFromEntry ⟨(ensureActiveRound d now).2, [], [], false⟩ aid
            (max 1 batchSize) nodeId now).d)) ∧
    (∀ (aid : String) (entry : RoundEntry),
      d.activeRoundId = some aid →
      alookup d.rounds aid = some entry →
      (∀ act, refreshEntry entry act now = (entry, act)) →
      ¬ entry.status = RLife.completed →
      SingleRoundStore.sInv entry.store →
      entry.store.pendingSet ≠ [] →
      (dGetTasksForProcessing d batchSize none nodeId now).1 =
        (entry.store.getTasksForProcessing d.nodeStore
          (max 1 batchSize) nodeId now).1.take (max 1 batchSize) ∧
      (dGetTasksForProcessing d batchSize none nodeId now).1 ≠ [] ∧
      (∀ rid, rid ≠ aid →
        alookup (dGetTasksForProcessing d batchSize none nodeId now).2.rounds
          rid = alookup d.rounds rid) ∧
      (∀ t ∈ (dGetTasksForProcessing d batchSize none nodeId now).1,
        alookup
          (dGetTasksForProcessing d batchSize none nodeId now).2.taskIdToRoundId
          t.id = some aid)) := by
  refine ⟨?_, ?_, ?_, ?_, ?_⟩
  · intro fs order h
    exact distLoop_stop h
  · intro fs rid rest h0 hlen hstop
    simp [distLoop, h0, hlen]
    exact distLoop_stop hstop
  · intro fs rid limit entry he hnp hnc hl0
    rcases hp : refreshEntry entry fs.d.activeRoundId now with ⟨e1, act⟩
    have hnc1 : ¬ e1.status = RLife.completed := by
      rw [hp] at hnc
      exact hnc
    rcases hlr : e1.store.getTasksForProcessing fs.d.nodeStore limit nodeId now
      with ⟨tasks, s2, ns2⟩
    cases act with
    | none =>
      by_cases htk : tasks = []
      · subst htk
        refine ⟨[], (refreshEntry { e1 with store := s2 } (some rid) now).1,
          ?_, ?_, ?_⟩
        · simp [fetchFromEntry, he, hnp, hnc1, hl0, hp, hlr]
        · simp [fetchFromEntry, he, hnp, hnc1, hl0, hp, hlr, alookup_aset]
        · simp [fetchFromEntry, he, hnp, hnc1, hl0, hp, hlr]
      · refine ⟨tasks,
          (refreshEntry { e1 with store := s2, isDirty := true }
            (some rid) now).1, ?_, ?_, ?_⟩
        · simp [fetchFromEntry, he, hnp, hnc1, hl0, hp, hlr, htk]
        · simp [fetchFromEntry, he, hnp, hnc1, hl0, hp, hlr, htk, alookup_aset]
        · simp [fetchFromEntry, he, hnp, hnc1, hl0, hp, hlr, htk]
    | some a =>
      by_cases htk : tasks = []
      · subst htk
        refine ⟨[], (refreshEntry { e1 with store := s2 } (some a) now).1,
          ?_, ?_, ?_⟩
        · simp [fetchFromEntry, he, hnp, hnc1, hl0, hp, hlr]
        · simp [fetchFromEntry, he, hnp, hnc1, hl0, hp, hlr, alookup_aset]
        · simp [fetchFromEntry, he, hnp, hnc1, hl0, hp, hlr]
      · refine ⟨tasks,
          (refreshEntry { e1 with store := s2, isDirty := true }
            (some a) now).1, ?_, ?_, ?_⟩
        · simp [fetchFromEntry, he, hnp, hnc1, hl0, hp, hlr, htk]
        · simp [fetchFromEntry, he, hnp, hnc1, hl0, hp, hlr, htk, alookup_aset]
        · simp [fetchFromEntry, he, hnp, hnc1, hl0, hp, hlr, htk]
  · intro aid har hstop
    simp [dGetTasksForProcessing, har, hstop]
  · intro aid entry hactive hentry hfixE hnc hInv hpend
    have hsafe1 : 1 ≤ max 1 batchSize := Nat.le_max_left 1 batchSize
    have hl0 : ¬ max 1 batchSize = 0 := by omega
    have ha2 : aset d.rounds aid entry = d.rounds := aset_self hentry
    have htne : (entry.store.getTasksForProcessing d.nodeStore
        (max 1 batchSize) nodeId now).1 ≠ [] :=
      SingleRoundStore.getTasksForProcessing_ne_nil hInv hpend hsafe1
    refine ⟨?_, ?_, ?_, ?_⟩
    · simp [dGetTasksForProcessing, ensureActiveRound, fetchFromEntry,
        hactive, hentry, hfixE, hnc, ha2, hl0, htne]
    · simp [dGetTasksForProcessing, ensureActiveRound, fetchFromEntry,
        hactive, hentry, hfixE, hnc, ha2, hl0, htne]
    · intro rid hrid
      have hne2 : ¬ aid = rid := fun h => hrid h.symm
      simp [dGetTasksForProcessing, ensureActiveRound, fetchFromEntry,
        hactive, hentry, hfixE, hnc, ha2, hl0, htne, alookup_aset, hne2]
    · intro t ht
      simp [dGetTasksForProcessing, ensureActiveRound, fetchFromEntry,
        hactive, hentry, hfixE, hnc, ha2, hl0, htne] at ht ⊢
      refine (alookup_foldl_aset aid _ _ _).1 ?_
      exact List.mem_map_of_mem Task.id (List.mem_of_mem_take ht)

end TaskStore

/-- Witness for the sweep retry policy on a concrete one-task store. -/
theorem sweep_one_retry_policy_witness :
    SingleRoundStore.sInv (⟨[⟨0, "A", "p", TStatus.processing, 0, none, 0, 5, some 5, none⟩], [("p", 0)], [], [], [0], [(0, 5)], [], [], [], [], 0, 0, none, "A", 1⟩ : SingleRoundStore) ∧
    (0 : TaskId) ∈ (⟨[⟨0, "A", "p", TStatus.processing, 0, none, 0, 5, some 5, none⟩], [("p", 0)], [], [], [0], [(0, 5)], [], [], [], [], 0, 0, none, "A", 1⟩ : SingleRoundStore).processingSet ∧
    SingleRoundStore.taskGet (⟨[⟨0, "A", "p", TStatus.processing, 0, none, 0, 5, some 5, none⟩], [("p", 0)], [], [], [0], [(0, 5)], [], [], [], [], 0, 0, none, "A", 1⟩ : SingleRoundStore) 0 = some ⟨0, "A", "p", TStatus.processing, 0, none, 0, 5, some 5, none⟩ ∧
    alookup (⟨[⟨0, "A", "p", TStatus.processing, 0, none, 0, 5, some 5, none⟩], [("p", 0)], [], [], [0], [(0, 5)], [], [], [], [], 0, 0, none, "A", 1⟩ : SingleRoundStore).processingStartedAt 0 = some 5 ∧
    (5 : Int) ≠ 0 ∧
    ((1 : Int) ≤ 0 ∨ (1 : Int) < 100 - 5) ∧
    0 ∈ (SingleRoundStore.markTimedOutTasksAsFailed (⟨[⟨0, "A", "p", TStatus.processing, 0, none, 0, 5, some 5, none⟩], [("p", 0)], [], [], [0], [(0, 5)], [], [], [], [], 0, 0, none, "A", 1⟩ : SingleRoundStore)
      (⟨[], [], []⟩ : NodeStatisticsStore) 1 100).1.pendingSet := by
  have h1 : SingleRoundStore.sInv (⟨[⟨0, "A", "p", TStatus.processing, 0, none, 0, 5, some 5, none⟩], [("p", 0)], [], [], [0], [(0, 5)], [], [], [], [], 0, 0, none, "A", 1⟩ : SingleRoundStore) := by
    unfold SingleRoundStore.sInv SingleRoundStore.bucketOK
    decide
  have h2 : (0 : TaskId) ∈ (⟨[⟨0, "A", "p", TStatus.processing, 0, none, 0, 5, some 5, none⟩], [("p", 0)], [], [], [0], [(0, 5)], [], [], [], [], 0, 0, none, "A", 1⟩ : SingleRoundStore).processingSet := by decide
  have h3 : SingleRoundStore.taskGet (⟨[⟨0, "A", "p", TStatus.processing, 0, none, 0, 5, some 5, none⟩], [("p", 0)], [], [], [0], [(0, 5)], [], [], [], [], 0, 0, none, "A", 1⟩ : SingleRoundStore) 0 = some ⟨0, "A", "p", TStatus.processing, 0, none, 0, 5, some 5, none⟩ := rfl
  have h4 : alookup (⟨[⟨0, "A", "p", TStatus.processing, 0, none, 0, 5, some 5, none⟩], [("p", 0)], [], [], [0], [(0, 5)], [], [], [], [], 0, 0, none, "A", 1⟩ : SingleRoundStore).processingStartedAt 0 = some 5 := rfl
  have h5 : (5 : Int) ≠ 0 := by decide
  have h6 : (1 : Int) ≤ 0 ∨ (1 : Int) < 100 - 5 := by decide
  exact ⟨h1, h2, h3, h4, h5, h6,
    ((sweep_one_retry_policy h1 h2 h3 h4 h5 h6).1 rfl).2.1⟩

/-- Witness for the completion-webhook edge behaviour on concrete stats. -/
theorem completion_webhook_exactly_once_witness :
    (⟨1, 1, 0, 0, 0, 0, 0, none, none, true, 0⟩ : TaskStore.GStats).allRoundsCompleted = true ∧
    (⟨1, 1, 0, 0, 0, 0, 0, none, none, false, 0⟩ : TaskStore.GStats).allRoundsCompleted = false ∧
    1 ≤ 1 ∧ 1 ≤ 1 ∧
    (TaskStore.digestRun none (List.replicate 1 (⟨1, 1, 0, 0, 0, 0, 0, none, none, true, 0⟩ : TaskStore.GStats)) true).2 = 1 := by
  exact ⟨rfl, rfl, le_refl 1, le_refl 1,
    (TaskStore.completion_webhook_exactly_once (⟨[], [], none, [], ⟨[], [], []⟩, none⟩ : DState) 0 true
      (⟨1, 1, 0, 0, 0, 0, 0, none, none, true, 0⟩ : TaskStore.GStats) (⟨1, 1, 0, 0, 0, 0, 0, none, none, false, 0⟩ : TaskStore.GStats) 1 1 rfl rfl (le_refl 1) (le_refl 1)).2.2.2.2.1⟩

/-- Witness for the FIFO lease theorem on a concrete one-task store. -/
theorem lease_fifo_no_double_lease_witness :
    SingleRoundStore.sInv (⟨[⟨0, "A", "p", TStatus.pending, 0, none, 0, 0, none, none⟩], [("p", 0)], [0], [0], [], [], [], [], [], [], 0, 0, none, "A", 1⟩ : SingleRoundStore) ∧
    SingleRoundStore.sInv
      (SingleRoundStore.getTasksForProcessing (⟨[⟨0, "A", "p", TStatus.pending, 0, none, 0, 0, none, none⟩], [("p", 0)], [0], [0], [], [], [], [], [], [], 0, 0, none, "A", 1⟩ : SingleRoundStore) (⟨[], [], []⟩ : NodeStatisticsStore) 1 none 7).2.1 := by
  have h1 : SingleRoundStore.sInv (⟨[⟨0, "A", "p", TStatus.pending, 0, none, 0, 0, none, none⟩], [("p", 0)], [0], [0], [], [], [], [], [], [], 0, 0, none, "A", 1⟩ : SingleRoundStore) := by
    unfold SingleRoundStore.sInv SingleRoundStore.bucketOK
    decide
  exact ⟨h1, (SingleRoundStore.lease_fifo_no_double_lease h1).2.2⟩

/-- Witness for the dispatcher stop condition on a concrete one-round state. -/
theorem dispatcher_lease_stop_condition_witness :
    (⟨(⟨[("A", ⟨"A", RLife.pending, none, none, ⟨[⟨0, "A", "p", TStatus.pending, 0, none, 0, 0, none, none⟩], [("p", 0)], [0], [0], [], [], [], [], [], [], 0, 0, none, "A", 1⟩, false⟩)], ["A"], some "A", [], ⟨[], [], []⟩, none⟩ : DState), [], [], true⟩ : TaskStore.FetchState).shouldStop = true ∧
    TaskStore.distLoop ⟨(⟨[("A", ⟨"A", RLife.pending, none, none, ⟨[⟨0, "A", "p", TStatus.pending, 0, none, 0, 0, none, none⟩], [("p", 0)], [0], [0], [], [], [], [], [], [], 0, 0, none, "A", 1⟩, false⟩)], ["A"], some "A", [], ⟨[], [], []⟩, none⟩ : DState), [], [], true⟩ ["B"] 2 none 9 =
      ⟨(⟨[("A", ⟨"A", RLife.pending, none, none, ⟨[⟨0, "A", "p", TStatus.pending, 0, none, 0, 0, none, none⟩], [("p", 0)], [0], [0], [], [], [], [], [], [], 0, 0, none, "A", 1⟩, false⟩)], ["A"], some "A", [], ⟨[], [], []⟩, none⟩ : DState), [], [], true⟩ ∧
    (⟨[("A", ⟨"A", RLife.pending, none, none, ⟨[⟨0, "A", "p", TStatus.pending, 0, none, 0, 0, none, none⟩], [("p", 0)], [0], [0], [], [], [], [], [], [], 0, 0, none, "A", 1⟩, false⟩)], ["A"], some "A", [], ⟨[], [], []⟩, none⟩ : DState).activeRoundId = some "A" ∧
    alookup (⟨[("A", ⟨"A", RLife.pending, none, none, ⟨[⟨0, "A", "p", TStatus.pending, 0, none, 0, 0, none, none⟩], [("p", 0)], [0], [0], [], [], [], [], [], [], 0, 0, none, "A", 1⟩, false⟩)], ["A"], some "A", [], ⟨[], [], []⟩, none⟩ : DState).rounds "A" = some ⟨"A", RLife.pending, none, none, ⟨[⟨0, "A", "p", TStatus.pending, 0, none, 0, 0, none, none⟩], [("p", 0)], [0], [0], [], [], [], [], [], [], 0, 0, none, "A", 1⟩, false⟩ ∧
    (∀ act, TaskStore.refreshEntry ⟨"A", RLife.pending, none, none, ⟨[⟨0, "A", "p", TStatus.pending, 0, none, 0, 0, none, none⟩], [("p", 0)], [0], [0], [], [], [], [], [], [], 0, 0, none, "A", 1⟩, false⟩ act 9 = (⟨"A", RLife.pending, none, none, ⟨[⟨0, "A", "p", TStatus.pending, 0, none, 0, 0, none, none⟩], [("p", 0)], [0], [0], [], [], [], [], [], [], 0, 0, none, "A", 1⟩, false⟩, act)) ∧
    ¬ (⟨"A", RLife.pending, none, none, ⟨[⟨0, "A", "p", TStatus.pending, 0, none, 0, 0, none, none⟩], [("p", 0)], [0], [0], [], [], [], [], [], [], 0, 0, none, "A", 1⟩, false⟩ : RoundEntry).status = RLife.completed ∧
    SingleRoundStore.sInv (⟨[⟨0, "A", "p", TStatus.pending, 0, none, 0, 0, none, none⟩], [("p", 0)], [0], [0], [], [], [], [], [], [], 0, 0, none, "A", 1⟩ : SingleRoundStore) ∧
    (⟨[⟨0, "A", "p", TStatus.pending, 0, none, 0, 0, none, none⟩], [("p", 0)], [0], [0], [], [], [], [], [], [], 0, 0, none, "A", 1⟩ : SingleRoundStore).pendingSet ≠ [] ∧
    (TaskStore.dGetTasksForProcessing (⟨[("A", ⟨"A", RLife.pending, none, none, ⟨[⟨0, "A", "p", TStatus.pending, 0, none, 0, 0, none, none⟩], [("p", 0)], [0], [0], [], [], [], [], [], [], 0, 0, none, "A", 1⟩, false⟩)], ["A"], some "A", [], ⟨[], [], []⟩, none⟩ : DState) 2 none none 9).1 ≠ [] := by
  have h1 : (⟨[("A", ⟨"A", RLife.pending, none, none, ⟨[⟨0, "A", "p", TStatus.pending, 0, none, 0, 0, none, none⟩], [("p", 0)], [0], [0], [], [], [], [], [], [], 0, 0, none, "A", 1⟩, false⟩)], ["A"], some "A", [], ⟨[], [], []⟩, none⟩ : DState).activeRoundId = some "A" := rfl
  have h2 : alookup (⟨[("A", ⟨"A", RLife.pending, none, none, ⟨[⟨0, "A", "p", TStatus.pending, 0, none, 0, 0, none, none⟩], [("p", 0)], [0], [0], [], [], [], [], [], [], 0, 0, none, "A", 1⟩, false⟩)], ["A"], some "A", [], ⟨[], [], []⟩, none⟩ : DState).rounds "A" = some ⟨"A", RLife.pending, none, none, ⟨[⟨0, "A", "p", TStatus.pending, 0, none, 0, 0, none, none⟩], [("p", 0)], [0], [0], [], [], [], [], [], [], 0, 0, none, "A", 1⟩, false⟩ := rfl
  have h3 : ∀ act, TaskStore.refreshEntry ⟨"A", RLife.pending, none, none, ⟨[⟨0, "A", "p", TStatus.pending, 0, none, 0, 0, none, none⟩], [("p", 0)], [0], [0], [], [], [], [], [], [], 0, 0, none, "A", 1⟩, false⟩ act 9 = (⟨"A", RLife.pending, none, none, ⟨[⟨0, "A", "p", TStatus.pending, 0, none, 0, 0, none, none⟩], [("p", 0)], [0], [0], [], [], [], [], [], [], 0, 0, none, "A", 1⟩, false⟩, act) :=
    fun act => rfl
  have h4 : ¬ (⟨"A", RLife.pending, none, none, ⟨[⟨0, "A", "p", TStatus.pending, 0, none, 0, 0, none, none⟩], [("p", 0)], [0], [0], [], [], [], [], [], [], 0, 0, none, "A", 1⟩, false⟩ : RoundEntry).status = RLife.completed := by decide
  have h5 : SingleRoundStore.sInv (⟨[⟨0, "A", "p", TStatus.pending, 0, none, 0, 0, none, none⟩], [("p", 0)], [0], [0], [], [], [], [], [], [], 0, 0, none, "A", 1⟩ : SingleRoundStore) := by
    unfold SingleRoundStore.sInv SingleRoundStore.bucketOK
    decide
  have h6 : (⟨[⟨0, "A", "p", TStatus.pending, 0, none, 0, 0, none, none⟩], [("p", 0)], [0], [0], [], [], [], [], [], [], 0, 0, none, "A", 1⟩ : SingleRoundStore).pendingSet ≠ [] := by decide
  exact ⟨rfl,
    (TaskStore.dispatcher_lease_stop_condition (⟨[("A", ⟨"A", RLife.pending, none, none, ⟨[⟨0, "A", "p", TStatus.pending, 0, none, 0, 0, none, none⟩], [("p", 0)], [0], [0], [], [], [], [], [], [], 0, 0, none, "A", 1⟩, false⟩)], ["A"], some "A", [], ⟨[], [], []⟩, none⟩ : DState) 2 none 9).1
      ⟨(⟨[("A", ⟨"A", RLife.pending, none, none, ⟨[⟨0, "A", "p", TStatus.pending, 0, none, 0, 0, none, none⟩], [("p", 0)], [0], [0], [], [], [], [], [], [], 0, 0, none, "A", 1⟩, false⟩)], ["A"], some "A", [], ⟨[], [], []⟩, none⟩ : DState), [], [], true⟩ ["B"] rfl,
    h1, h2, h3, h4, h5, h6,
    ((TaskStore.dispatcher_lease_stop_condition (⟨[("A", ⟨"A", RLife.pending, none, none, ⟨[⟨0, "A", "p", TStatus.pending, 0, none, 0, 0, none, none⟩], [("p", 0)], [0], [0], [], [], [], [], [], [], 0, 0, none, "A", 1⟩, false⟩)], ["A"], some "A", [], ⟨[], [], []⟩, none⟩ : DState) 2 none 9).2.2.2.2
      "A" ⟨"A", RLife.pending, none, none, ⟨[⟨0, "A", "p", TStatus.pending, 0, none, 0, 0, none, none⟩], [("p", 0)], [0], [0], [], [], [], [], [], [], 0, 0, none, "A", 1⟩, false⟩ h1 h2 h3 h4 h5 h6).2.1⟩

/-- Witness for terminality of completion on a concrete completed task. -/
theorem completed_is_terminal_witness :
    SingleRoundStore.sInv (⟨[⟨0, "A", "p", TStatus.completed, 0, none, 0, 0, none, none⟩], [("p", 0)], [], [], [], [], [0], [0], [], [], 0, 0, none, "A", 1⟩ : SingleRoundStore) ∧
    SingleRoundStore.taskGet (⟨[⟨0, "A", "p", TStatus.completed, 0, none, 0, 0, none, none⟩], [("p", 0)], [], [], [], [], [0], [0], [], [], 0, 0, none, "A", 1⟩ : SingleRoundStore) 0 = some ⟨0, "A", "p", TStatus.completed, 0, none, 0, 0, none, none⟩ ∧
    (⟨0, "A", "p", TStatus.completed, 0, none, 0, 0, none, none⟩ : Task).status = TStatus.completed ∧
    (SingleRoundStore.updateTaskStatus (⟨[⟨0, "A", "p", TStatus.completed, 0, none, 0, 0, none, none⟩], [("p", 0)], [], [], [], [], [0], [0], [], [], 0, 0, none, "A", 1⟩ : SingleRoundStore) (⟨[], [], []⟩ : NodeStatisticsStore) 0 false "x" 3).1 =
      SingleRoundStore.ReportOutcome.ok TStatus.completed := by
  have h1 : SingleRoundStore.sInv (⟨[⟨0, "A", "p", TStatus.completed, 0, none, 0, 0, none, none⟩], [("p", 0)], [], [], [], [], [0], [0], [], [], 0, 0, none, "A", 1⟩ : SingleRoundStore) := by
    unfold SingleRoundStore.sInv SingleRoundStore.bucketOK
    decide
  have h2 : SingleRoundStore.taskGet (⟨[⟨0, "A", "p", TStatus.completed, 0, none, 0, 0, none, none⟩], [("p", 0)], [], [], [], [], [0], [0], [], [], 0, 0, none, "A", 1⟩ : SingleRoundStore) 0 = some ⟨0, "A", "p", TStatus.completed, 0, none, 0, 0, none, none⟩ := rfl
  have h3 : (⟨0, "A", "p", TStatus.completed, 0, none, 0, 0, none, none⟩ : Task).status = TStatus.completed := rfl
  exact ⟨h1, h2, h3,
    (@completed_is_terminal (⟨[⟨0, "A", "p", TStatus.completed, 0, none, 0, 0, none, none⟩], [("p", 0)], [], [], [], [], [0], [0], [], [], 0, 0, none, "A", 1⟩ : SingleRoundStore) (⟨[], [], []⟩ : NodeStatisticsStore) 0 ⟨0, "A", "p", TStatus.completed, 0, none, 0, 0, none, none⟩ "x" 3 2 h1 h2 h3).1.1⟩

/-- Witness for the snapshot round trip on a concrete one-task store. -/
theorem snapshot_roundtrip_identity_witness :
    SingleRoundStore.sInv (⟨[⟨0, "A", "p", TStatus.pending, 0, none, 0, 0, none, none⟩], [("p", 0)], [0], [0], [], [], [], [], [], [], 0, 0, none, "A", 1⟩ : SingleRoundStore) ∧
    (SingleRoundStore.fromSnapshot (SingleRoundStore.toSnapshot (⟨[⟨0, "A", "p", TStatus.pending, 0, none, 0, 0, none, none⟩], [("p", 0)], [0], [0], [], [], [], [], [], [], 0, 0, none, "A", 1⟩ : SingleRoundStore))).tasks =
      (⟨[⟨0, "A", "p", TStatus.pending, 0, none, 0, 0, none, none⟩], [("p", 0)], [0], [0], [], [], [], [], [], [], 0, 0, none, "A", 1⟩ : SingleRoundStore).tasks := by
  have h1 : SingleRoundStore.sInv (⟨[⟨0, "A", "p", TStatus.pending, 0, none, 0, 0, none, none⟩], [("p", 0)], [0], [0], [], [], [], [], [], [], 0, 0, none, "A", 1⟩ : SingleRoundStore) := by
    unfold SingleRoundStore.sInv SingleRoundStore.bucketOK
    decide
  exact ⟨h1, (SingleRoundStore.snapshot_roundtrip_identity h1).1⟩

/-- Witness for the not-found report on a concrete empty dispatcher state. -/
theorem report_not_found_never_mutates_witness :
    (∀ rid e, alookup (⟨[], [], none, [], ⟨[], [], []⟩, none⟩ : DState).rounds rid = some e → ∀ act,
      (TaskStore.refreshEntry e act 0).1 = e) ∧
    (∀ rid e, alookup (⟨[], [], none, [], ⟨[], [], []⟩, none⟩ : DState).rounds rid = some e →
      SingleRoundStore.taskGet e.store 0 = none) ∧
    (TaskStore.dUpdateTaskStatus (⟨[], [], none, [], ⟨[], [], []⟩, none⟩ : DState) 0 true "" 0 false).1 =
      SingleRoundStore.ReportOutcome.notFound := by
  have h1 : ∀ rid e, alookup (⟨[], [], none, [], ⟨[], [], []⟩, none⟩ : DState).rounds rid = some e → ∀ act,
      (TaskStore.refreshEntry e act 0).1 = e :=
    fun rid e h => Option.noConfusion h
  have h2 : ∀ rid e, alookup (⟨[], [], none, [], ⟨[], [], []⟩, none⟩ : DState).rounds rid = some e →
      SingleRoundStore.taskGet e.store 0 = none :=
    fun rid e h => Option.noConfusion h
  exact ⟨h1, h2, (TaskStore.report_not_found_never_mutates h1 h2).1⟩

/-- Witness for report acceptance on a concrete never-leased pending task. -/
theorem report_accepted_any_status_witness :
    SingleRoundStore.sInv (⟨[⟨0, "A", "p", TStatus.pending, 0, none, 0, 0, none, none⟩], [("p", 0)], [0], [0], [], [], [], [], [], [], 0, 0, none, "A", 1⟩ : SingleRoundStore) ∧
    SingleRoundStore.taskGet (⟨[⟨0, "A", "p", TStatus.pending, 0, none, 0, 0, none, none⟩], [("p", 0)], [0], [0], [], [], [], [], [], [], 0, 0, none, "A", 1⟩ : SingleRoundStore) 0 = some ⟨0, "A", "p", TStatus.pending, 0, none, 0, 0, none, none⟩ ∧
    (SingleRoundStore.updateTaskStatus (⟨[⟨0, "A", "p", TStatus.pending, 0, none, 0, 0, none, none⟩], [("p", 0)], [0], [0], [], [], [], [], [], [], 0, 0, none, "A", 1⟩ : SingleRoundStore) (⟨[], [], []⟩ : NodeStatisticsStore) 0 true "" 2).1 =
      SingleRoundStore.ReportOutcome.ok TStatus.completed := by
  have h1 : SingleRoundStore.sInv (⟨[⟨0, "A", "p", TStatus.pending, 0, none, 0, 0, none, none⟩], [("p", 0)], [0], [0], [], [], [], [], [], [], 0, 0, none, "A", 1⟩ : SingleRoundStore) := by
    unfold SingleRoundStore.sInv SingleRoundStore.bucketOK
    decide
  have h2 : SingleRoundStore.taskGet (⟨[⟨0, "A", "p", TStatus.pending, 0, none, 0, 0, none, none⟩], [("p", 0)], [0], [0], [], [], [], [], [], [], 0, 0, none, "A", 1⟩ : SingleRoundStore) 0 = some ⟨0, "A", "p", TStatus.pending, 0, none, 0, 0, none, none⟩ := rfl
  exact ⟨h1, h2, (report_accepted_any_status h1 h2).1.1⟩

namespace SingleRoundStore

end SingleRoundStore

end JM
